import Mathlib

set_option maxRecDepth 10000

/-!
Shallow embedding of the mscl changelog generator: tag normalization
(`parser.ts`), conventional-commit classification (`parser.ts`),
cross-release deduplication (`dedup.ts`), the release assembler loop
(`cli.ts`) and the version-bump advisor (`bump.ts`), together with the
fragments of the `semver` library (strict parse, compare, inc) that those
modules call.  Strings are modelled as lists of characters; the JavaScript
regular expressions are implemented as explicit backtracking matchers with
the engine's leftmost-match and greedy semantics.
-/

namespace Mscl

/-- Strings are modelled as lists of characters. -/
abbrev Str := List Char

/-- JavaScript line terminators (LF, CR, LS, PS): the characters that `.`
refuses to match and that `^` in multiline mode anchors after. -/
def lineTerm (c : Char) : Bool :=
  c = '\n' || c = '\r' || c.toNat = 0x2028 || c.toNat = 0x2029

/-- JavaScript whitespace class `\s` (ASCII whitespace plus NBSP and BOM plus
the line terminators; the remaining Unicode space characters never occur in
the data handled here). -/
def jsWhitespace (c : Char) : Bool :=
  c = ' ' || c = '\t' || c.toNat = 0x0B || c.toNat = 0x0C ||
  c.toNat = 0xA0 || c.toNat = 0xFEFF || lineTerm c

/-- The character class `[\w.]` of the version-extraction pattern
(`\w` in JavaScript is `[A-Za-z0-9_]`). -/
def isWordDot (c : Char) : Bool := c.isAlpha || c.isDigit || c = '_' || c = '.'

/-- The character class `[\w-]` used for commit scopes. -/
def isScopeChar (c : Char) : Bool := c.isAlpha || c.isDigit || c = '_' || c = '-'

/-- Numeric value of a digit string, most significant digit first (the value
`parseInt`/`Number` gives a digit string; exact where JavaScript numbers are
exact). -/
def natOfDigits : Str → Nat
  | [] => 0
  | c :: cs => (c.toNat - ('0').toNat) * 10 ^ cs.length + natOfDigits cs

/-- ASCII lowercasing, as `String.prototype.toLowerCase` acts on the ASCII
data handled here. -/
def toLowerStr (s : Str) : Str := s.map Char.toLower

/-!
## The version-extraction pattern

`VERSION_EXTRACT_REGEX = /(?:.*-)?v?(\d+\.\d+\.\d+(?:-[\w.]+)?)/` from
`parser.ts`.  `match` performs an unanchored search: starting positions are
tried left to right; at each position the optional group `(?:.*-)?` is tried
first (with `.*` greedy, so the rightmost eligible hyphen on the current
line wins, `.` not crossing line terminators), and only then the bare core
`v?(\d+\.\d+\.\d+(?:-[\w.]+)?)`.
-/

/-- Match `\d+\.\d+\.\d+` at the start of `s`; returns the matched text and
the rest.  Each `\d+` is greedy; no backtracking can help because `.` is not
a digit. -/
def matchTriple (s : Str) : Option (Str × Str) :=
  let d1 := s.takeWhile Char.isDigit
  let r1 := s.dropWhile Char.isDigit
  if d1 = [] then none else
  match r1 with
  | '.' :: r2 =>
    let d2 := r2.takeWhile Char.isDigit
    let r3 := r2.dropWhile Char.isDigit
    if d2 = [] then none else
    match r3 with
    | '.' :: r4 =>
      let d3 := r4.takeWhile Char.isDigit
      let r5 := r4.dropWhile Char.isDigit
      if d3 = [] then none else some (d1 ++ '.' :: d2 ++ '.' :: d3, r5)
    | _ => none
  | _ => none

/-- The capture of `(\d+\.\d+\.\d+(?:-[\w.]+)?)` at the start of `s`
(the optional pre-release part is greedy; nothing follows it in the
pattern, so no backtracking arises). -/
def coreNoV (s : Str) : Option Str :=
  match matchTriple s with
  | none => none
  | some (trip, rest) =>
    match rest with
    | '-' :: r =>
      let pre := r.takeWhile isWordDot
      if pre = [] then some trip else some (trip ++ '-' :: pre)
    | _ => some trip

/-- The capture of `v?(\d+\.\d+\.\d+(?:-[\w.]+)?)` at the start of `s`.
`v?` is greedy: with a leading `v` the digits are tried after it first; the
fallback without consuming the `v` mirrors the engine's backtracking (it can
only fail again, `v` not being a digit). -/
def matchCoreAt (s : Str) : Option Str :=
  match s with
  | 'v' :: t =>
    match coreNoV t with
    | some r => some r
    | none => coreNoV s
  | _ => coreNoV s

/-- The greedy optional group `(?:.*-)?` followed by the core, tried at the
current position: the rightmost `-` not beyond a line terminator whose
suffix matches the core wins (deeper matches are preferred because `.*` is
greedy). -/
def lastHyphenCoreLine : Str → Option Str
  | [] => none
  | c :: rest =>
    if lineTerm c then none
    else
      match lastHyphenCoreLine rest with
      | some r => some r
      | none => if c = '-' then matchCoreAt rest else none

/-- Unanchored search: starting positions left to right; at each position the
hyphen-prefixed alternative is preferred over the bare core. -/
def searchExtract : Str → Option Str
  | [] => none
  | c :: rest =>
    match lastHyphenCoreLine (c :: rest) with
    | some r => some r
    | none =>
      match matchCoreAt (c :: rest) with
      | some r => some r
      | none => searchExtract rest

/-- `extractVersion` from `parser.ts`: the capture of
`VERSION_EXTRACT_REGEX`, or none when the pattern does not match. -/
def extractVersion (tag : Str) : Option Str := searchExtract tag

/-!
## The semver dependency

The fragments of the `semver` npm package used by the repository: the strict
parser (`semver.parse` / the `SemVer` constructor), precedence comparison
(`semver.compare`) and version incrementing (`semver.inc`).  JavaScript
numbers are IEEE-754 doubles: a nonnegative integer value is represented
exactly up to `2^53` and rounded to the nearest representable integer
beyond, which `roundToDouble` below captures.
-/

/-- `Number.MAX_SAFE_INTEGER`. -/
def maxSafeInteger : Nat := 2 ^ 53 - 1

/-- Floor base-2 logarithm by repeated halving.  The first argument is
fuel consumed once per halving, so the recursion is structural and
kernel-computable; with fuel at least `n` the answer is exact. -/
def log2floorAux : Nat → Nat → Nat
  | 0, _ => 0
  | fuel + 1, n => if n ≤ 1 then 0 else log2floorAux fuel (n / 2) + 1

/-- `⌊log₂ n⌋` (zero at zero). -/
def log2floor (n : Nat) : Nat := log2floorAux n n

lemma log2floorAux_spec : ∀ fuel n, 1 ≤ n → n ≤ fuel →
    2 ^ log2floorAux fuel n ≤ n ∧ n < 2 ^ (log2floorAux fuel n + 1) := by
  intro fuel
  induction fuel with
  | zero =>
    intro n h1 h2
    omega
  | succ fuel ih =>
    intro n h1 h2
    by_cases hn : n ≤ 1
    · have he : n = 1 := by omega
      subst he
      simp [log2floorAux]
    · rw [show log2floorAux (fuel + 1) n = log2floorAux fuel (n / 2) + 1 from by
        simp [log2floorAux, hn]]
      have hrec := ih (n / 2) (by omega) (by omega)
      constructor
      · rw [pow_succ]
        omega
      · rw [pow_succ]
        omega

lemma log2floor_le {n : Nat} (h1 : 1 ≤ n) : 2 ^ log2floor n ≤ n :=
  (log2floorAux_spec n n h1 (le_refl n)).1

lemma log2floor_lt {n : Nat} (h1 : 1 ≤ n) : n < 2 ^ (log2floor n + 1) :=
  (log2floorAux_spec n n h1 (le_refl n)).2

/-- Rounding of a nonnegative integer to the nearest IEEE-754 binary64
value (round to nearest, ties to even), as happens when JavaScript coerces
a long digit string to a number.  Up to `2^53` every integer is exact;
beyond, the 53 leading significant bits are kept and the remainder `r` of
`k` dropped bits rounds the kept part `q` up exactly when `r` exceeds half
a unit in the last place, or equals it with `q` odd. -/
def roundToDouble (n : Nat) : Nat :=
  if n ≤ 2 ^ 53 then n
  else
    let k := log2floor n - 52
    let q := n / 2 ^ k
    let r := n % 2 ^ k
    (if 2 ^ (k - 1) < r ∨ (r = 2 ^ (k - 1) ∧ q % 2 = 1) then q + 1 else q) * 2 ^ k

lemma roundToDouble_small {n : Nat} (h : n ≤ 2 ^ 53) : roundToDouble n = n :=
  if_pos h

/-- Rounding never brings a value of `2^53` or more back below `2^53`. -/
lemma roundToDouble_big {n : Nat} (h : 2 ^ 53 < n) : 2 ^ 53 ≤ roundToDouble n := by
  unfold roundToDouble
  rw [if_neg (by omega)]
  have hlog : 53 ≤ log2floor n := by
    by_contra hlt
    push_neg at hlt
    have h2 : n < 2 ^ (log2floor n + 1) := log2floor_lt (by omega)
    have h3 : (2 : Nat) ^ (log2floor n + 1) ≤ 2 ^ 53 :=
      Nat.pow_le_pow_right (by omega) (by omega)
    omega
  have hpow : 2 ^ log2floor n ≤ n := log2floor_le (by omega)
  have hq : 2 ^ 52 ≤ n / 2 ^ (log2floor n - 52) := by
    have hsplit : 2 ^ log2floor n = 2 ^ 52 * 2 ^ (log2floor n - 52) := by
      rw [← pow_add]
      congr 1
      omega
    refine Nat.le_div_iff_mul_le (Nat.pos_pow_of_pos _ (by omega)) |>.mpr ?_
    rw [← hsplit]
    exact hpow
  have hge : 2 ^ 52 * 2 ^ (log2floor n - 52) ≤
      (if 2 ^ (log2floor n - 52 - 1) < n % 2 ^ (log2floor n - 52) ∨
          (n % 2 ^ (log2floor n - 52) = 2 ^ (log2floor n - 52 - 1) ∧
            n / 2 ^ (log2floor n - 52) % 2 = 1)
        then n / 2 ^ (log2floor n - 52) + 1 else n / 2 ^ (log2floor n - 52)) *
        2 ^ (log2floor n - 52) := by
    refine Nat.mul_le_mul_right _ ?_
    split <;> omega
  calc 2 ^ 53 ≤ 2 ^ log2floor n := Nat.pow_le_pow_right (by omega) hlog
    _ = 2 ^ 52 * 2 ^ (log2floor n - 52) := by rw [← pow_add]; congr 1; omega
    _ ≤ _ := hge

/-- Split at the first occurrence of `c`, returning the parts before and
after it. -/
def splitAtFirst (c : Char) : Str → Option (Str × Str)
  | [] => none
  | x :: xs =>
    if x = c then some ([], xs)
    else
      match splitAtFirst c xs with
      | none => none
      | some (a, b) => some (x :: a, b)

/-- Split on every occurrence of `c` (like `String.prototype.split`). -/
def splitOnChar (c : Char) : Str → List Str
  | [] => [[]]
  | x :: xs =>
    let r := splitOnChar c xs
    if x = c then [] :: r
    else
      match r with
      | [] => [[x]]
      | h :: t => (x :: h) :: t

/-- Join with `.` (like `Array.prototype.join`). -/
def joinDot : List Str → Str
  | [] => []
  | [x] => x
  | x :: y :: t => x ++ '.' :: joinDot (y :: t)

/-- The semver numeric-identifier grammar `0|[1-9]\d*`. -/
def isNumericIdStr (s : Str) : Bool :=
  (decide (s ≠ []) && s.all Char.isDigit) && (s.head? ≠ some ('0') || s.length = 1)

/-- A main-version component: numeric grammar plus the constructor's
`MAX_SAFE_INTEGER` bound (a larger value makes the constructor throw). -/
def validMainNum (s : Str) : Bool :=
  isNumericIdStr s && natOfDigits s ≤ maxSafeInteger

/-- The character class `[0-9A-Za-z-]` of semver identifiers. -/
def isSemverIdChar (c : Char) : Bool := c.isAlpha || c.isDigit || c = '-'

/-- The non-numeric pre-release identifier grammar
`\d*[a-zA-Z-][a-zA-Z0-9-]*`: nonempty, drawn from `[0-9A-Za-z-]`, with at
least one non-digit. -/
def isNonNumericId (s : Str) : Bool :=
  (decide (s ≠ []) && s.all isSemverIdChar) && s.any (fun c => !c.isDigit)

/-- A valid pre-release identifier (strict grammar). -/
def isValidPreIdStr (s : Str) : Bool := isNumericIdStr s || isNonNumericId s

/-- A valid build identifier: `[0-9A-Za-z-]+`. -/
def isBuildIdStr (s : Str) : Bool := decide (s ≠ []) && s.all isSemverIdChar

/-- A stored pre-release identifier.  The `SemVer` constructor stores an
all-digit identifier whose value is below `MAX_SAFE_INTEGER` as a
JavaScript number and keeps every other identifier as a string. -/
inductive PreId where
  | num (n : Nat)
  | str (s : Str)
deriving DecidableEq

/-- How the `SemVer` constructor stores one pre-release identifier. -/
def mkPreId (s : Str) : PreId :=
  if (decide (s ≠ []) && s.all Char.isDigit) && natOfDigits s < maxSafeInteger
  then PreId.num (natOfDigits s)
  else PreId.str s

/-- `compareIdentifiers` re-tests its arguments with `/^[0-9]+$/` after
string coercion; a stored number always passes. -/
def preIdNumeric : PreId → Bool
  | PreId.num _ => true
  | PreId.str s => decide (s ≠ []) && s.all Char.isDigit

/-- The numeric value a stored identifier coerces to under the unary `+`
of `compareIdentifiers`: a stored number is already a double; coercing a
digit string rounds its mathematical value to the nearest double, so two
distinct digit strings at `2^53` and beyond can coerce to the same
number. -/
def preIdVal : PreId → Nat
  | PreId.num n => n
  | PreId.str s => roundToDouble (natOfDigits s)

/-- JavaScript string comparison `a < b` (lexicographic by code unit; the
identifiers compared here are ASCII, where code-unit and scalar-value order
agree). -/
def strLt : Str → Str → Bool
  | [], [] => false
  | [], _ :: _ => true
  | _ :: _, [] => false
  | a :: as, b :: bs => if a < b then true else if b < a then false else strLt as bs

/-- Strip one leading `v` (the anchored `v?` of the semver grammar, and
`display.replace` with an anchored-`v` pattern in the assembler's flush). -/
def stripLeadingV (s : Str) : Str :=
  match s with
  | 'v' :: t => t
  | _ => s

/-- A parsed semantic version as the `SemVer` class stores it.  `raw` data
irrelevant to the repository is omitted. -/
structure SemVer where
  major : Nat
  minor : Nat
  patch : Nat
  prerelease : List PreId
  build : List Str
deriving DecidableEq

/-- `semver.parse` with default (strict) options: the length guard, the
anchored FULL grammar `v?MAJOR.MINOR.PATCH(-prerelease)?(+build)?`, the
`MAX_SAFE_INTEGER` bounds on the main components, and the constructor's
numeric-identifier conversion.  (`trim` is the identity on every string the
repository passes in: none contains whitespace.)  The main part consists of
digits and dots only, so the first `-` begins the pre-release part and the
first `+` begins the build part. -/
def semverParse (s0 : Str) : Option SemVer :=
  if s0.length > 256 then none else
  let s := stripLeadingV s0
  let pb := match splitAtFirst '+' s with
    | none => (s, none)
    | some (a, b) => (a, some b)
  let mp := match splitAtFirst '-' pb.1 with
    | none => (pb.1, (none : Option Str))
    | some (a, b) => (a, some b)
  match splitOnChar '.' mp.1 with
  | [ma, mi, pa] =>
    if validMainNum ma && validMainNum mi && validMainNum pa then
      let preIds : Option (List PreId) := match mp.2 with
        | none => some []
        | some p =>
          let ids := splitOnChar '.' p
          if ids.all isValidPreIdStr then some (ids.map mkPreId) else none
      let buildIds : Option (List Str) := match pb.2 with
        | none => some []
        | some b =>
          let ids := splitOnChar '.' b
          if ids.all isBuildIdStr then some ids else none
      match preIds, buildIds with
      | some pre, some bld =>
          some ⟨natOfDigits ma, natOfDigits mi, natOfDigits pa, pre, bld⟩
      | _, _ => none
    else none
  | _ => none

/-- `compareIdentifiers` from semver: numeric identifiers compare by value
and sort before alphanumeric ones; alphanumeric identifiers compare as
strings. -/
def compareIdentifiers (a b : PreId) : Int :=
  if preIdNumeric a && preIdNumeric b then
    if preIdVal a = preIdVal b then 0
    else if preIdVal a < preIdVal b then -1 else 1
  else if a = b then 0
  else if preIdNumeric a && !preIdNumeric b then -1
  else if preIdNumeric b && !preIdNumeric a then 1
  else
    match a, b with
    | PreId.str x, PreId.str y => if strLt x y then -1 else 1
    | _, _ => 0

/-- The identifier loop of `SemVer.comparePre`: positions are compared in
turn; a strictly-equal pair (`===` on the stored values) continues the loop;
running out on one side decides; otherwise `compareIdentifiers` decides. -/
def cmpIdList : List PreId → List PreId → Int
  | [], [] => 0
  | [], _ :: _ => -1
  | _ :: _, [] => 1
  | a :: as, b :: bs => if a = b then cmpIdList as bs else compareIdentifiers a b

/-- `SemVer.comparePre`: a version with a pre-release sorts before the same
numbers without one; two pre-releases compare by the identifier loop. -/
def comparePre (a b : List PreId) : Int :=
  match a, b with
  | _ :: _, [] => -1
  | [], _ :: _ => 1
  | [], [] => 0
  | _ :: _, _ :: _ => cmpIdList a b

/-- `cmpNat a b` is the `-1/0/1` outcome of comparing two main components. -/
def cmpNat (a b : Nat) : Int :=
  if a = b then 0 else if a < b then -1 else 1

/-- `SemVer.compare` = `compareMain || comparePre` (build metadata is
ignored by precedence comparison). -/
def compareSemVer (a b : SemVer) : Int :=
  let cM := cmpNat a.major b.major
  if cM ≠ 0 then cM else
  let cm := cmpNat a.minor b.minor
  if cm ≠ 0 then cm else
  let cp := cmpNat a.patch b.patch
  if cp ≠ 0 then cp else comparePre a.prerelease b.prerelease

/-- `semver.compare` on version strings.  It is only ever applied to
strings already validated by `semver.parse`; on other inputs it would
throw, modelled by the junk value `0`. -/
def semverCompareStr (a b : Str) : Int :=
  match semverParse a, semverParse b with
  | some x, some y => compareSemVer x y
  | _, _ => 0

/-- Decimal rendering of a natural number. -/
def natToStr (n : Nat) : Str := Nat.toDigits 10 n

/-- Rendering of a stored pre-release identifier (string coercion). -/
def renderPreId : PreId → Str
  | PreId.num n => natToStr n
  | PreId.str s => s

/-- `SemVer.format`: `MAJOR.MINOR.PATCH` plus `-` and the dot-joined
pre-release identifiers when present; build metadata is not part of the
version. -/
def semverRender (v : SemVer) : Str :=
  natToStr v.major ++ '.' :: natToStr v.minor ++ '.' :: natToStr v.patch ++
  (match v.prerelease with
   | [] => []
   | _ => '-' :: joinDot (v.prerelease.map renderPreId))

/-- The bump categories of `bump.ts` (`"major" | "minor" | "patch" | "none"`). -/
inductive BumpType where
  | major
  | minor
  | patch
  | none
deriving DecidableEq

/-- `SemVer.inc` for the three simple release kinds (the only ones the
repository uses); pre-release identifiers are dropped, and a component is
only incremented when the version was not a pre-release snapshot of the
target (the semver "pre-x" rules). -/
def semverIncSem (v : SemVer) : BumpType → Option SemVer
  | BumpType.major =>
      some (if v.minor ≠ 0 ∨ v.patch ≠ 0 ∨ v.prerelease = []
            then ⟨v.major + 1, 0, 0, [], v.build⟩
            else ⟨v.major, 0, 0, [], v.build⟩)
  | BumpType.minor =>
      some (if v.patch ≠ 0 ∨ v.prerelease = []
            then ⟨v.major, v.minor + 1, 0, [], v.build⟩
            else ⟨v.major, v.minor, 0, [], v.build⟩)
  | BumpType.patch =>
      some (if v.prerelease = []
            then ⟨v.major, v.minor, v.patch + 1, [], v.build⟩
            else ⟨v.major, v.minor, v.patch, [], v.build⟩)
  | BumpType.none => Option.none

/-- `semver.inc(version, release)`: parse, increment, format; any throw
(unparsable version or invalid release kind) becomes `null`. -/
def semverIncStr (s : Str) (b : BumpType) : Option Str :=
  match semverParse s with
  | Option.none => Option.none
  | some v =>
    match semverIncSem v b with
    | Option.none => Option.none
    | some w => some (semverRender w)

/-!
## The conventional-commit classifier (`parser.ts`)

`CONVENTIONAL_COMMIT_REGEX =
  /^(feat|fix|docs|style|refactor|perf|test|build|ci|chore|revert)(\([\w-]+\))?!?:\s*(.+)$/i`
and `BREAKING_CHANGE_REGEX = /^BREAKING[ -]CHANGE:\s*/im`.
-/

/-- A raw commit as produced by the git collaborator. -/
structure RawCommit where
  hash : Str
  subject : Str
  body : Str
deriving DecidableEq

/-- A classified conventional commit. -/
structure ConventionalCommit where
  hash : Str
  type : Str
  scope : Option Str
  subject : Str
  raw : Str
  breaking : Bool
deriving DecidableEq

/-- Case-insensitive prefix test against an already-lowercase pattern. -/
def startsWithCI (pat s : Str) : Bool := toLowerStr (s.take pat.length) = pat

/-- The commit-type alternation, in the regex's order.  No type is a prefix
of another, so at most one alternative can match and no cross-alternative
backtracking arises. -/
def commitTypes : List Str :=
  [("feat").data, ("fix").data, ("docs").data, ("style").data,
   ("refactor").data, ("perf").data, ("test").data, ("build").data,
   ("ci").data, ("chore").data, ("revert").data]

/-- Match the type alternation case-insensitively at the start of `s`,
returning the matched text (original case) and the rest. -/
def matchTypeTok (s : Str) : Option (Str × Str) :=
  match commitTypes.find? (fun t => startsWithCI t s) with
  | some t => some (s.take t.length, s.drop t.length)
  | none => none

/-- The optional scope group `(\([\w-]+\))?`: a present but malformed
parenthesis makes the whole subject unmatched (after dropping the optional
group the next required character `!` or `:` cannot be `(`). -/
def matchScopeTok (s : Str) : Option (Option Str × Str) :=
  match s with
  | '(' :: t =>
    let inner := t.takeWhile isScopeChar
    let rest := t.drop inner.length
    match rest with
    | ')' :: r => if inner = [] then none else some (some inner, r)
    | _ => none
  | _ => some (none, s)

/-- `!?:`: an optional bang must be followed by the mandatory colon. -/
def matchBangColon (s : Str) : Option Str :=
  match s with
  | '!' :: ':' :: r => some r
  | ':' :: r => some r
  | _ => none

/-- `\s*(.+)$` (no multiline flag, `.` excluding line terminators): the
greedy whitespace run backs off just enough to leave a nonempty,
terminator-free capture reaching the end of the subject. -/
def matchDescription (r : Str) : Option Str :=
  let ws := r.takeWhile jsWhitespace
  let rest := r.drop ws.length
  if rest = [] then
    match r.getLast? with
    | some c => if lineTerm c then none else some [c]
    | none => none
  else if rest.any lineTerm then none else some rest

/-- `String.prototype.trim`. -/
def trimStr (s : Str) : Str :=
  ((s.dropWhile jsWhitespace).reverse.dropWhile jsWhitespace).reverse

/-- The test `/(?:\))?!:/.test(subject)`: an unanchored scan succeeding at
any position that starts with `)!:` or `!:` (the optional `)` makes the test
equivalent to containing the substring `!:`). -/
def hasBangColon : Str → Bool
  | ')' :: '!' :: ':' :: _ => true
  | '!' :: ':' :: _ => true
  | _ :: rest => hasBangColon rest
  | [] => false

/-- Does `BREAKING[ -]CHANGE:` match case-insensitively at the start of
`s`?  (The trailing `\s*` of the footer pattern always matches.) -/
def breakingChangeAt (s : Str) : Bool :=
  match s.drop 8 with
  | c :: r =>
    startsWithCI (("breaking").data) s && (c = ' ' || c = '-') &&
    startsWithCI (("change:").data) r
  | [] => false

/-- The multiline scan of `BREAKING_CHANGE_REGEX.test(body)`: `^` with the
`m` flag anchors at the start of input and after every line terminator. -/
def footerScanAux (atStart : Bool) : Str → Bool
  | [] => false
  | c :: rest =>
    (atStart && breakingChangeAt (c :: rest)) || footerScanAux (lineTerm c) rest

/-- `BREAKING_CHANGE_REGEX.test(body)`. -/
def hasBreakingFooter (body : Str) : Bool := footerScanAux true body

/-- `parseConventionalCommit` from `parser.ts`. -/
def parseConventionalCommit (c : RawCommit) : Option ConventionalCommit :=
  match matchTypeTok c.subject with
  | none => none
  | some (ty, r1) =>
    match matchScopeTok r1 with
    | none => none
    | some (scope, r2) =>
      match matchBangColon r2 with
      | none => none
      | some r3 =>
        match matchDescription r3 with
        | none => none
        | some desc =>
          some { hash := c.hash, type := toLowerStr ty, scope := scope,
                 subject := trimStr desc, raw := c.subject,
                 breaking := hasBangColon c.subject || hasBreakingFooter c.body }

/-!
## The cross-release deduplicator (`dedup.ts`)

The keys are lowered with `String.prototype.toLowerCase`, which performs
the Unicode Default Case Conversion: the per-character mappings of
`lowerDeltaTable` plus the context-sensitive `Final_Sigma` rule for `Σ`.
-/

/-- The unconditional mappings of Unicode Default Case Conversion to
lowercase (`String.prototype.toLowerCase`), keyed by code point; code
points absent from the table map to themselves.  `Σ` (U+03A3) is the one
context-sensitive mapping and is handled separately. -/
def lowerDeltaTable : List (Nat × Str) := [
  (0x41, ("a").data), (0x42, ("b").data), (0x43, ("c").data),
  (0x44, ("d").data), (0x45, ("e").data), (0x46, ("f").data),
  (0x47, ("g").data), (0x48, ("h").data), (0x49, ("i").data),
  (0x4A, ("j").data), (0x4B, ("k").data), (0x4C, ("l").data),
  (0x4D, ("m").data), (0x4E, ("n").data), (0x4F, ("o").data),
  (0x50, ("p").data), (0x51, ("q").data), (0x52, ("r").data),
  (0x53, ("s").data), (0x54, ("t").data), (0x55, ("u").data),
  (0x56, ("v").data), (0x57, ("w").data), (0x58, ("x").data),
  (0x59, ("y").data), (0x5A, ("z").data), (0xC0, ("à").data),
  (0xC1, ("á").data), (0xC2, ("â").data), (0xC3, ("ã").data),
  (0xC4, ("ä").data), (0xC5, ("å").data), (0xC6, ("æ").data),
  (0xC7, ("ç").data), (0xC8, ("è").data), (0xC9, ("é").data),
  (0xCA, ("ê").data), (0xCB, ("ë").data), (0xCC, ("ì").data),
  (0xCD, ("í").data), (0xCE, ("î").data), (0xCF, ("ï").data),
  (0xD0, ("ð").data), (0xD1, ("ñ").data), (0xD2, ("ò").data),
  (0xD3, ("ó").data), (0xD4, ("ô").data), (0xD5, ("õ").data),
  (0xD6, ("ö").data), (0xD8, ("ø").data), (0xD9, ("ù").data),
  (0xDA, ("ú").data), (0xDB, ("û").data), (0xDC, ("ü").data),
  (0xDD, ("ý").data), (0xDE, ("þ").data), (0x100, ("ā").data),
  (0x102, ("ă").data), (0x104, ("ą").data), (0x106, ("ć").data),
  (0x108, ("ĉ").data), (0x10A, ("ċ").data), (0x10C, ("č").data),
  (0x10E, ("ď").data), (0x110, ("đ").data), (0x112, ("ē").data),
  (0x114, ("ĕ").data), (0x116, ("ė").data), (0x118, ("ę").data),
  (0x11A, ("ě").data), (0x11C, ("ĝ").data), (0x11E, ("ğ").data),
  (0x120, ("ġ").data), (0x122, ("ģ").data), (0x124, ("ĥ").data),
  (0x126, ("ħ").data), (0x128, ("ĩ").data), (0x12A, ("ī").data),
  (0x12C, ("ĭ").data), (0x12E, ("į").data), (0x130, ("i̇").data),
  (0x132, ("ĳ").data), (0x134, ("ĵ").data), (0x136, ("ķ").data),
  (0x139, ("ĺ").data), (0x13B, ("ļ").data), (0x13D, ("ľ").data),
  (0x13F, ("ŀ").data), (0x141, ("ł").data), (0x143, ("ń").data),
  (0x145, ("ņ").data), (0x147, ("ň").data), (0x14A, ("ŋ").data),
  (0x14C, ("ō").data), (0x14E, ("ŏ").data), (0x150, ("ő").data),
  (0x152, ("œ").data), (0x154, ("ŕ").data), (0x156, ("ŗ").data),
  (0x158, ("ř").data), (0x15A, ("ś").data), (0x15C, ("ŝ").data),
  (0x15E, ("ş").data), (0x160, ("š").data), (0x162, ("ţ").data),
  (0x164, ("ť").data), (0x166, ("ŧ").data), (0x168, ("ũ").data),
  (0x16A, ("ū").data), (0x16C, ("ŭ").data), (0x16E, ("ů").data),
  (0x170, ("ű").data), (0x172, ("ų").data), (0x174, ("ŵ").data),
  (0x176, ("ŷ").data), (0x178, ("ÿ").data), (0x179, ("ź").data),
  (0x17B, ("ż").data), (0x17D, ("ž").data), (0x181, ("ɓ").data),
  (0x182, ("ƃ").data), (0x184, ("ƅ").data), (0x186, ("ɔ").data),
  (0x187, ("ƈ").data), (0x189, ("ɖ").data), (0x18A, ("ɗ").data),
  (0x18B, ("ƌ").data), (0x18E, ("ǝ").data), (0x18F, ("ə").data),
  (0x190, ("ɛ").data), (0x191, ("ƒ").data), (0x193, ("ɠ").data),
  (0x194, ("ɣ").data), (0x196, ("ɩ").data), (0x197, ("ɨ").data),
  (0x198, ("ƙ").data), (0x19C, ("ɯ").data), (0x19D, ("ɲ").data),
  (0x19F, ("ɵ").data), (0x1A0, ("ơ").data), (0x1A2, ("ƣ").data),
  (0x1A4, ("ƥ").data), (0x1A6, ("ʀ").data), (0x1A7, ("ƨ").data),
  (0x1A9, ("ʃ").data), (0x1AC, ("ƭ").data), (0x1AE, ("ʈ").data),
  (0x1AF, ("ư").data), (0x1B1, ("ʊ").data), (0x1B2, ("ʋ").data),
  (0x1B3, ("ƴ").data), (0x1B5, ("ƶ").data), (0x1B7, ("ʒ").data),
  (0x1B8, ("ƹ").data), (0x1BC, ("ƽ").data), (0x1C4, ("ǆ").data),
  (0x1C5, ("ǆ").data), (0x1C7, ("ǉ").data), (0x1C8, ("ǉ").data),
  (0x1CA, ("ǌ").data), (0x1CB, ("ǌ").data), (0x1CD, ("ǎ").data),
  (0x1CF, ("ǐ").data), (0x1D1, ("ǒ").data), (0x1D3, ("ǔ").data),
  (0x1D5, ("ǖ").data), (0x1D7, ("ǘ").data), (0x1D9, ("ǚ").data),
  (0x1DB, ("ǜ").data), (0x1DE, ("ǟ").data), (0x1E0, ("ǡ").data),
  (0x1E2, ("ǣ").data), (0x1E4, ("ǥ").data), (0x1E6, ("ǧ").data),
  (0x1E8, ("ǩ").data), (0x1EA, ("ǫ").data), (0x1EC, ("ǭ").data),
  (0x1EE, ("ǯ").data), (0x1F1, ("ǳ").data), (0x1F2, ("ǳ").data),
  (0x1F4, ("ǵ").data), (0x1F6, ("ƕ").data), (0x1F7, ("ƿ").data),
  (0x1F8, ("ǹ").data), (0x1FA, ("ǻ").data), (0x1FC, ("ǽ").data),
  (0x1FE, ("ǿ").data), (0x200, ("ȁ").data), (0x202, ("ȃ").data),
  (0x204, ("ȅ").data), (0x206, ("ȇ").data), (0x208, ("ȉ").data),
  (0x20A, ("ȋ").data), (0x20C, ("ȍ").data), (0x20E, ("ȏ").data),
  (0x210, ("ȑ").data), (0x212, ("ȓ").data), (0x214, ("ȕ").data),
  (0x216, ("ȗ").data), (0x218, ("ș").data), (0x21A, ("ț").data),
  (0x21C, ("ȝ").data), (0x21E, ("ȟ").data), (0x220, ("ƞ").data),
  (0x222, ("ȣ").data), (0x224, ("ȥ").data), (0x226, ("ȧ").data),
  (0x228, ("ȩ").data), (0x22A, ("ȫ").data), (0x22C, ("ȭ").data),
  (0x22E, ("ȯ").data), (0x230, ("ȱ").data), (0x232, ("ȳ").data),
  (0x23A, ("ⱥ").data), (0x23B, ("ȼ").data), (0x23D, ("ƚ").data),
  (0x23E, ("ⱦ").data), (0x241, ("ɂ").data), (0x243, ("ƀ").data),
  (0x244, ("ʉ").data), (0x245, ("ʌ").data), (0x246, ("ɇ").data),
  (0x248, ("ɉ").data), (0x24A, ("ɋ").data), (0x24C, ("ɍ").data),
  (0x24E, ("ɏ").data), (0x370, ("ͱ").data), (0x372, ("ͳ").data),
  (0x376, ("ͷ").data), (0x37F, ("ϳ").data), (0x386, ("ά").data),
  (0x388, ("έ").data), (0x389, ("ή").data), (0x38A, ("ί").data),
  (0x38C, ("ό").data), (0x38E, ("ύ").data), (0x38F, ("ώ").data),
  (0x391, ("α").data), (0x392, ("β").data), (0x393, ("γ").data),
  (0x394, ("δ").data), (0x395, ("ε").data), (0x396, ("ζ").data),
  (0x397, ("η").data), (0x398, ("θ").data), (0x399, ("ι").data),
  (0x39A, ("κ").data), (0x39B, ("λ").data), (0x39C, ("μ").data),
  (0x39D, ("ν").data), (0x39E, ("ξ").data), (0x39F, ("ο").data),
  (0x3A0, ("π").data), (0x3A1, ("ρ").data), (0x3A4, ("τ").data),
  (0x3A5, ("υ").data), (0x3A6, ("φ").data), (0x3A7, ("χ").data),
  (0x3A8, ("ψ").data), (0x3A9, ("ω").data), (0x3AA, ("ϊ").data),
  (0x3AB, ("ϋ").data), (0x3CF, ("ϗ").data), (0x3D8, ("ϙ").data),
  (0x3DA, ("ϛ").data), (0x3DC, ("ϝ").data), (0x3DE, ("ϟ").data),
  (0x3E0, ("ϡ").data), (0x3E2, ("ϣ").data), (0x3E4, ("ϥ").data),
  (0x3E6, ("ϧ").data), (0x3E8, ("ϩ").data), (0x3EA, ("ϫ").data),
  (0x3EC, ("ϭ").data), (0x3EE, ("ϯ").data), (0x3F4, ("θ").data),
  (0x3F7, ("ϸ").data), (0x3F9, ("ϲ").data), (0x3FA, ("ϻ").data),
  (0x3FD, ("ͻ").data), (0x3FE, ("ͼ").data), (0x3FF, ("ͽ").data),
  (0x400, ("ѐ").data), (0x401, ("ё").data), (0x402, ("ђ").data),
  (0x403, ("ѓ").data), (0x404, ("є").data), (0x405, ("ѕ").data),
  (0x406, ("і").data), (0x407, ("ї").data), (0x408, ("ј").data),
  (0x409, ("љ").data), (0x40A, ("њ").data), (0x40B, ("ћ").data),
  (0x40C, ("ќ").data), (0x40D, ("ѝ").data), (0x40E, ("ў").data),
  (0x40F, ("џ").data), (0x410, ("а").data), (0x411, ("б").data),
  (0x412, ("в").data), (0x413, ("г").data), (0x414, ("д").data),
  (0x415, ("е").data), (0x416, ("ж").data), (0x417, ("з").data),
  (0x418, ("и").data), (0x419, ("й").data), (0x41A, ("к").data),
  (0x41B, ("л").data), (0x41C, ("м").data), (0x41D, ("н").data),
  (0x41E, ("о").data), (0x41F, ("п").data), (0x420, ("р").data),
  (0x421, ("с").data), (0x422, ("т").data), (0x423, ("у").data),
  (0x424, ("ф").data), (0x425, ("х").data), (0x426, ("ц").data),
  (0x427, ("ч").data), (0x428, ("ш").data), (0x429, ("щ").data),
  (0x42A, ("ъ").data), (0x42B, ("ы").data), (0x42C, ("ь").data),
  (0x42D, ("э").data), (0x42E, ("ю").data), (0x42F, ("я").data),
  (0x460, ("ѡ").data), (0x462, ("ѣ").data), (0x464, ("ѥ").data),
  (0x466, ("ѧ").data), (0x468, ("ѩ").data), (0x46A, ("ѫ").data),
  (0x46C, ("ѭ").data), (0x46E, ("ѯ").data), (0x470, ("ѱ").data),
  (0x472, ("ѳ").data), (0x474, ("ѵ").data), (0x476, ("ѷ").data),
  (0x478, ("ѹ").data), (0x47A, ("ѻ").data), (0x47C, ("ѽ").data),
  (0x47E, ("ѿ").data), (0x480, ("ҁ").data), (0x48A, ("ҋ").data),
  (0x48C, ("ҍ").data), (0x48E, ("ҏ").data), (0x490, ("ґ").data),
  (0x492, ("ғ").data), (0x494, ("ҕ").data), (0x496, ("җ").data),
  (0x498, ("ҙ").data), (0x49A, ("қ").data), (0x49C, ("ҝ").data),
  (0x49E, ("ҟ").data), (0x4A0, ("ҡ").data), (0x4A2, ("ң").data),
  (0x4A4, ("ҥ").data), (0x4A6, ("ҧ").data), (0x4A8, ("ҩ").data),
  (0x4AA, ("ҫ").data), (0x4AC, ("ҭ").data), (0x4AE, ("ү").data),
  (0x4B0, ("ұ").data), (0x4B2, ("ҳ").data), (0x4B4, ("ҵ").data),
  (0x4B6, ("ҷ").data), (0x4B8, ("ҹ").data), (0x4BA, ("һ").data),
  (0x4BC, ("ҽ").data), (0x4BE, ("ҿ").data), (0x4C0, ("ӏ").data),
  (0x4C1, ("ӂ").data), (0x4C3, ("ӄ").data), (0x4C5, ("ӆ").data),
  (0x4C7, ("ӈ").data), (0x4C9, ("ӊ").data), (0x4CB, ("ӌ").data),
  (0x4CD, ("ӎ").data), (0x4D0, ("ӑ").data), (0x4D2, ("ӓ").data),
  (0x4D4, ("ӕ").data), (0x4D6, ("ӗ").data), (0x4D8, ("ә").data),
  (0x4DA, ("ӛ").data), (0x4DC, ("ӝ").data), (0x4DE, ("ӟ").data),
  (0x4E0, ("ӡ").data), (0x4E2, ("ӣ").data), (0x4E4, ("ӥ").data),
  (0x4E6, ("ӧ").data), (0x4E8, ("ө").data), (0x4EA, ("ӫ").data),
  (0x4EC, ("ӭ").data), (0x4EE, ("ӯ").data), (0x4F0, ("ӱ").data),
  (0x4F2, ("ӳ").data), (0x4F4, ("ӵ").data), (0x4F6, ("ӷ").data),
  (0x4F8, ("ӹ").data), (0x4FA, ("ӻ").data), (0x4FC, ("ӽ").data),
  (0x4FE, ("ӿ").data), (0x500, ("ԁ").data), (0x502, ("ԃ").data),
  (0x504, ("ԅ").data), (0x506, ("ԇ").data), (0x508, ("ԉ").data),
  (0x50A, ("ԋ").data), (0x50C, ("ԍ").data), (0x50E, ("ԏ").data),
  (0x510, ("ԑ").data), (0x512, ("ԓ").data), (0x514, ("ԕ").data),
  (0x516, ("ԗ").data), (0x518, ("ԙ").data), (0x51A, ("ԛ").data),
  (0x51C, ("ԝ").data), (0x51E, ("ԟ").data), (0x520, ("ԡ").data),
  (0x522, ("ԣ").data), (0x524, ("ԥ").data), (0x526, ("ԧ").data),
  (0x528, ("ԩ").data), (0x52A, ("ԫ").data), (0x52C, ("ԭ").data),
  (0x52E, ("ԯ").data), (0x531, ("ա").data), (0x532, ("բ").data),
  (0x533, ("գ").data), (0x534, ("դ").data), (0x535, ("ե").data),
  (0x536, ("զ").data), (0x537, ("է").data), (0x538, ("ը").data),
  (0x539, ("թ").data), (0x53A, ("ժ").data), (0x53B, ("ի").data),
  (0x53C, ("լ").data), (0x53D, ("խ").data), (0x53E, ("ծ").data),
  (0x53F, ("կ").data), (0x540, ("հ").data), (0x541, ("ձ").data),
  (0x542, ("ղ").data), (0x543, ("ճ").data), (0x544, ("մ").data),
  (0x545, ("յ").data), (0x546, ("ն").data), (0x547, ("շ").data),
  (0x548, ("ո").data), (0x549, ("չ").data), (0x54A, ("պ").data),
  (0x54B, ("ջ").data), (0x54C, ("ռ").data), (0x54D, ("ս").data),
  (0x54E, ("վ").data), (0x54F, ("տ").data), (0x550, ("ր").data),
  (0x551, ("ց").data), (0x552, ("ւ").data), (0x553, ("փ").data),
  (0x554, ("ք").data), (0x555, ("օ").data), (0x556, ("ֆ").data),
  (0x10A0, ("ⴀ").data), (0x10A1, ("ⴁ").data), (0x10A2, ("ⴂ").data),
  (0x10A3, ("ⴃ").data), (0x10A4, ("ⴄ").data), (0x10A5, ("ⴅ").data),
  (0x10A6, ("ⴆ").data), (0x10A7, ("ⴇ").data), (0x10A8, ("ⴈ").data),
  (0x10A9, ("ⴉ").data), (0x10AA, ("ⴊ").data), (0x10AB, ("ⴋ").data),
  (0x10AC, ("ⴌ").data), (0x10AD, ("ⴍ").data), (0x10AE, ("ⴎ").data),
  (0x10AF, ("ⴏ").data), (0x10B0, ("ⴐ").data), (0x10B1, ("ⴑ").data),
  (0x10B2, ("ⴒ").data), (0x10B3, ("ⴓ").data), (0x10B4, ("ⴔ").data),
  (0x10B5, ("ⴕ").data), (0x10B6, ("ⴖ").data), (0x10B7, ("ⴗ").data),
  (0x10B8, ("ⴘ").data), (0x10B9, ("ⴙ").data), (0x10BA, ("ⴚ").data),
  (0x10BB, ("ⴛ").data), (0x10BC, ("ⴜ").data), (0x10BD, ("ⴝ").data),
  (0x10BE, ("ⴞ").data), (0x10BF, ("ⴟ").data), (0x10C0, ("ⴠ").data),
  (0x10C1, ("ⴡ").data), (0x10C2, ("ⴢ").data), (0x10C3, ("ⴣ").data),
  (0x10C4, ("ⴤ").data), (0x10C5, ("ⴥ").data), (0x10C7, ("ⴧ").data),
  (0x10CD, ("ⴭ").data), (0x13A0, ("ꭰ").data), (0x13A1, ("ꭱ").data),
  (0x13A2, ("ꭲ").data), (0x13A3, ("ꭳ").data), (0x13A4, ("ꭴ").data),
  (0x13A5, ("ꭵ").data), (0x13A6, ("ꭶ").data), (0x13A7, ("ꭷ").data),
  (0x13A8, ("ꭸ").data), (0x13A9, ("ꭹ").data), (0x13AA, ("ꭺ").data),
  (0x13AB, ("ꭻ").data), (0x13AC, ("ꭼ").data), (0x13AD, ("ꭽ").data),
  (0x13AE, ("ꭾ").data), (0x13AF, ("ꭿ").data), (0x13B0, ("ꮀ").data),
  (0x13B1, ("ꮁ").data), (0x13B2, ("ꮂ").data), (0x13B3, ("ꮃ").data),
  (0x13B4, ("ꮄ").data), (0x13B5, ("ꮅ").data), (0x13B6, ("ꮆ").data),
  (0x13B7, ("ꮇ").data), (0x13B8, ("ꮈ").data), (0x13B9, ("ꮉ").data),
  (0x13BA, ("ꮊ").data), (0x13BB, ("ꮋ").data), (0x13BC, ("ꮌ").data),
  (0x13BD, ("ꮍ").data), (0x13BE, ("ꮎ").data), (0x13BF, ("ꮏ").data),
  (0x13C0, ("ꮐ").data), (0x13C1, ("ꮑ").data), (0x13C2, ("ꮒ").data),
  (0x13C3, ("ꮓ").data), (0x13C4, ("ꮔ").data), (0x13C5, ("ꮕ").data),
  (0x13C6, ("ꮖ").data), (0x13C7, ("ꮗ").data), (0x13C8, ("ꮘ").data),
  (0x13C9, ("ꮙ").data), (0x13CA, ("ꮚ").data), (0x13CB, ("ꮛ").data),
  (0x13CC, ("ꮜ").data), (0x13CD, ("ꮝ").data), (0x13CE, ("ꮞ").data),
  (0x13CF, ("ꮟ").data), (0x13D0, ("ꮠ").data), (0x13D1, ("ꮡ").data),
  (0x13D2, ("ꮢ").data), (0x13D3, ("ꮣ").data), (0x13D4, ("ꮤ").data),
  (0x13D5, ("ꮥ").data), (0x13D6, ("ꮦ").data), (0x13D7, ("ꮧ").data),
  (0x13D8, ("ꮨ").data), (0x13D9, ("ꮩ").data), (0x13DA, ("ꮪ").data),
  (0x13DB, ("ꮫ").data), (0x13DC, ("ꮬ").data), (0x13DD, ("ꮭ").data),
  (0x13DE, ("ꮮ").data), (0x13DF, ("ꮯ").data), (0x13E0, ("ꮰ").data),
  (0x13E1, ("ꮱ").data), (0x13E2, ("ꮲ").data), (0x13E3, ("ꮳ").data),
  (0x13E4, ("ꮴ").data), (0x13E5, ("ꮵ").data), (0x13E6, ("ꮶ").data),
  (0x13E7, ("ꮷ").data), (0x13E8, ("ꮸ").data), (0x13E9, ("ꮹ").data),
  (0x13EA, ("ꮺ").data), (0x13EB, ("ꮻ").data), (0x13EC, ("ꮼ").data),
  (0x13ED, ("ꮽ").data), (0x13EE, ("ꮾ").data), (0x13EF, ("ꮿ").data),
  (0x13F0, ("ᏸ").data), (0x13F1, ("ᏹ").data), (0x13F2, ("ᏺ").data),
  (0x13F3, ("ᏻ").data), (0x13F4, ("ᏼ").data), (0x13F5, ("ᏽ").data),
  (0x1C90, ("ა").data), (0x1C91, ("ბ").data), (0x1C92, ("გ").data),
  (0x1C93, ("დ").data), (0x1C94, ("ე").data), (0x1C95, ("ვ").data),
  (0x1C96, ("ზ").data), (0x1C97, ("თ").data), (0x1C98, ("ი").data),
  (0x1C99, ("კ").data), (0x1C9A, ("ლ").data), (0x1C9B, ("მ").data),
  (0x1C9C, ("ნ").data), (0x1C9D, ("ო").data), (0x1C9E, ("პ").data),
  (0x1C9F, ("ჟ").data), (0x1CA0, ("რ").data), (0x1CA1, ("ს").data),
  (0x1CA2, ("ტ").data), (0x1CA3, ("უ").data), (0x1CA4, ("ფ").data),
  (0x1CA5, ("ქ").data), (0x1CA6, ("ღ").data), (0x1CA7, ("ყ").data),
  (0x1CA8, ("შ").data), (0x1CA9, ("ჩ").data), (0x1CAA, ("ც").data),
  (0x1CAB, ("ძ").data), (0x1CAC, ("წ").data), (0x1CAD, ("ჭ").data),
  (0x1CAE, ("ხ").data), (0x1CAF, ("ჯ").data), (0x1CB0, ("ჰ").data),
  (0x1CB1, ("ჱ").data), (0x1CB2, ("ჲ").data), (0x1CB3, ("ჳ").data),
  (0x1CB4, ("ჴ").data), (0x1CB5, ("ჵ").data), (0x1CB6, ("ჶ").data),
  (0x1CB7, ("ჷ").data), (0x1CB8, ("ჸ").data), (0x1CB9, ("ჹ").data),
  (0x1CBA, ("ჺ").data), (0x1CBD, ("ჽ").data), (0x1CBE, ("ჾ").data),
  (0x1CBF, ("ჿ").data), (0x1E00, ("ḁ").data), (0x1E02, ("ḃ").data),
  (0x1E04, ("ḅ").data), (0x1E06, ("ḇ").data), (0x1E08, ("ḉ").data),
  (0x1E0A, ("ḋ").data), (0x1E0C, ("ḍ").data), (0x1E0E, ("ḏ").data),
  (0x1E10, ("ḑ").data), (0x1E12, ("ḓ").data), (0x1E14, ("ḕ").data),
  (0x1E16, ("ḗ").data), (0x1E18, ("ḙ").data), (0x1E1A, ("ḛ").data),
  (0x1E1C, ("ḝ").data), (0x1E1E, ("ḟ").data), (0x1E20, ("ḡ").data),
  (0x1E22, ("ḣ").data), (0x1E24, ("ḥ").data), (0x1E26, ("ḧ").data),
  (0x1E28, ("ḩ").data), (0x1E2A, ("ḫ").data), (0x1E2C, ("ḭ").data),
  (0x1E2E, ("ḯ").data), (0x1E30, ("ḱ").data), (0x1E32, ("ḳ").data),
  (0x1E34, ("ḵ").data), (0x1E36, ("ḷ").data), (0x1E38, ("ḹ").data),
  (0x1E3A, ("ḻ").data), (0x1E3C, ("ḽ").data), (0x1E3E, ("ḿ").data),
  (0x1E40, ("ṁ").data), (0x1E42, ("ṃ").data), (0x1E44, ("ṅ").data),
  (0x1E46, ("ṇ").data), (0x1E48, ("ṉ").data), (0x1E4A, ("ṋ").data),
  (0x1E4C, ("ṍ").data), (0x1E4E, ("ṏ").data), (0x1E50, ("ṑ").data),
  (0x1E52, ("ṓ").data), (0x1E54, ("ṕ").data), (0x1E56, ("ṗ").data),
  (0x1E58, ("ṙ").data), (0x1E5A, ("ṛ").data), (0x1E5C, ("ṝ").data),
  (0x1E5E, ("ṟ").data), (0x1E60, ("ṡ").data), (0x1E62, ("ṣ").data),
  (0x1E64, ("ṥ").data), (0x1E66, ("ṧ").data), (0x1E68, ("ṩ").data),
  (0x1E6A, ("ṫ").data), (0x1E6C, ("ṭ").data), (0x1E6E, ("ṯ").data),
  (0x1E70, ("ṱ").data), (0x1E72, ("ṳ").data), (0x1E74, ("ṵ").data),
  (0x1E76, ("ṷ").data), (0x1E78, ("ṹ").data), (0x1E7A, ("ṻ").data),
  (0x1E7C, ("ṽ").data), (0x1E7E, ("ṿ").data), (0x1E80, ("ẁ").data),
  (0x1E82, ("ẃ").data), (0x1E84, ("ẅ").data), (0x1E86, ("ẇ").data),
  (0x1E88, ("ẉ").data), (0x1E8A, ("ẋ").data), (0x1E8C, ("ẍ").data),
  (0x1E8E, ("ẏ").data), (0x1E90, ("ẑ").data), (0x1E92, ("ẓ").data),
  (0x1E94, ("ẕ").data), (0x1E9E, ("ß").data), (0x1EA0, ("ạ").data),
  (0x1EA2, ("ả").data), (0x1EA4, ("ấ").data), (0x1EA6, ("ầ").data),
  (0x1EA8, ("ẩ").data), (0x1EAA, ("ẫ").data), (0x1EAC, ("ậ").data),
  (0x1EAE, ("ắ").data), (0x1EB0, ("ằ").data), (0x1EB2, ("ẳ").data),
  (0x1EB4, ("ẵ").data), (0x1EB6, ("ặ").data), (0x1EB8, ("ẹ").data),
  (0x1EBA, ("ẻ").data), (0x1EBC, ("ẽ").data), (0x1EBE, ("ế").data),
  (0x1EC0, ("ề").data), (0x1EC2, ("ể").data), (0x1EC4, ("ễ").data),
  (0x1EC6, ("ệ").data), (0x1EC8, ("ỉ").data), (0x1ECA, ("ị").data),
  (0x1ECC, ("ọ").data), (0x1ECE, ("ỏ").data), (0x1ED0, ("ố").data),
  (0x1ED2, ("ồ").data), (0x1ED4, ("ổ").data), (0x1ED6, ("ỗ").data),
  (0x1ED8, ("ộ").data), (0x1EDA, ("ớ").data), (0x1EDC, ("ờ").data),
  (0x1EDE, ("ở").data), (0x1EE0, ("ỡ").data), (0x1EE2, ("ợ").data),
  (0x1EE4, ("ụ").data), (0x1EE6, ("ủ").data), (0x1EE8, ("ứ").data),
  (0x1EEA, ("ừ").data), (0x1EEC, ("ử").data), (0x1EEE, ("ữ").data),
  (0x1EF0, ("ự").data), (0x1EF2, ("ỳ").data), (0x1EF4, ("ỵ").data),
  (0x1EF6, ("ỷ").data), (0x1EF8, ("ỹ").data), (0x1EFA, ("ỻ").data),
  (0x1EFC, ("ỽ").data), (0x1EFE, ("ỿ").data), (0x1F08, ("ἀ").data),
  (0x1F09, ("ἁ").data), (0x1F0A, ("ἂ").data), (0x1F0B, ("ἃ").data),
  (0x1F0C, ("ἄ").data), (0x1F0D, ("ἅ").data), (0x1F0E, ("ἆ").data),
  (0x1F0F, ("ἇ").data), (0x1F18, ("ἐ").data), (0x1F19, ("ἑ").data),
  (0x1F1A, ("ἒ").data), (0x1F1B, ("ἓ").data), (0x1F1C, ("ἔ").data),
  (0x1F1D, ("ἕ").data), (0x1F28, ("ἠ").data), (0x1F29, ("ἡ").data),
  (0x1F2A, ("ἢ").data), (0x1F2B, ("ἣ").data), (0x1F2C, ("ἤ").data),
  (0x1F2D, ("ἥ").data), (0x1F2E, ("ἦ").data), (0x1F2F, ("ἧ").data),
  (0x1F38, ("ἰ").data), (0x1F39, ("ἱ").data), (0x1F3A, ("ἲ").data),
  (0x1F3B, ("ἳ").data), (0x1F3C, ("ἴ").data), (0x1F3D, ("ἵ").data),
  (0x1F3E, ("ἶ").data), (0x1F3F, ("ἷ").data), (0x1F48, ("ὀ").data),
  (0x1F49, ("ὁ").data), (0x1F4A, ("ὂ").data), (0x1F4B, ("ὃ").data),
  (0x1F4C, ("ὄ").data), (0x1F4D, ("ὅ").data), (0x1F59, ("ὑ").data),
  (0x1F5B, ("ὓ").data), (0x1F5D, ("ὕ").data), (0x1F5F, ("ὗ").data),
  (0x1F68, ("ὠ").data), (0x1F69, ("ὡ").data), (0x1F6A, ("ὢ").data),
  (0x1F6B, ("ὣ").data), (0x1F6C, ("ὤ").data), (0x1F6D, ("ὥ").data),
  (0x1F6E, ("ὦ").data), (0x1F6F, ("ὧ").data), (0x1F88, ("ᾀ").data),
  (0x1F89, ("ᾁ").data), (0x1F8A, ("ᾂ").data), (0x1F8B, ("ᾃ").data),
  (0x1F8C, ("ᾄ").data), (0x1F8D, ("ᾅ").data), (0x1F8E, ("ᾆ").data),
  (0x1F8F, ("ᾇ").data), (0x1F98, ("ᾐ").data), (0x1F99, ("ᾑ").data),
  (0x1F9A, ("ᾒ").data), (0x1F9B, ("ᾓ").data), (0x1F9C, ("ᾔ").data),
  (0x1F9D, ("ᾕ").data), (0x1F9E, ("ᾖ").data), (0x1F9F, ("ᾗ").data),
  (0x1FA8, ("ᾠ").data), (0x1FA9, ("ᾡ").data), (0x1FAA, ("ᾢ").data),
  (0x1FAB, ("ᾣ").data), (0x1FAC, ("ᾤ").data), (0x1FAD, ("ᾥ").data),
  (0x1FAE, ("ᾦ").data), (0x1FAF, ("ᾧ").data), (0x1FB8, ("ᾰ").data),
  (0x1FB9, ("ᾱ").data), (0x1FBA, ("ὰ").data), (0x1FBB, ("ά").data),
  (0x1FBC, ("ᾳ").data), (0x1FC8, ("ὲ").data), (0x1FC9, ("έ").data),
  (0x1FCA, ("ὴ").data), (0x1FCB, ("ή").data), (0x1FCC, ("ῃ").data),
  (0x1FD8, ("ῐ").data), (0x1FD9, ("ῑ").data), (0x1FDA, ("ὶ").data),
  (0x1FDB, ("ί").data), (0x1FE8, ("ῠ").data), (0x1FE9, ("ῡ").data),
  (0x1FEA, ("ὺ").data), (0x1FEB, ("ύ").data), (0x1FEC, ("ῥ").data),
  (0x1FF8, ("ὸ").data), (0x1FF9, ("ό").data), (0x1FFA, ("ὼ").data),
  (0x1FFB, ("ώ").data), (0x1FFC, ("ῳ").data), (0x2126, ("ω").data),
  (0x212A, ("k").data), (0x212B, ("å").data), (0x2132, ("ⅎ").data),
  (0x2160, ("ⅰ").data), (0x2161, ("ⅱ").data), (0x2162, ("ⅲ").data),
  (0x2163, ("ⅳ").data), (0x2164, ("ⅴ").data), (0x2165, ("ⅵ").data),
  (0x2166, ("ⅶ").data), (0x2167, ("ⅷ").data), (0x2168, ("ⅸ").data),
  (0x2169, ("ⅹ").data), (0x216A, ("ⅺ").data), (0x216B, ("ⅻ").data),
  (0x216C, ("ⅼ").data), (0x216D, ("ⅽ").data), (0x216E, ("ⅾ").data),
  (0x216F, ("ⅿ").data), (0x2183, ("ↄ").data), (0x24B6, ("ⓐ").data),
  (0x24B7, ("ⓑ").data), (0x24B8, ("ⓒ").data), (0x24B9, ("ⓓ").data),
  (0x24BA, ("ⓔ").data), (0x24BB, ("ⓕ").data), (0x24BC, ("ⓖ").data),
  (0x24BD, ("ⓗ").data), (0x24BE, ("ⓘ").data), (0x24BF, ("ⓙ").data),
  (0x24C0, ("ⓚ").data), (0x24C1, ("ⓛ").data), (0x24C2, ("ⓜ").data),
  (0x24C3, ("ⓝ").data), (0x24C4, ("ⓞ").data), (0x24C5, ("ⓟ").data),
  (0x24C6, ("ⓠ").data), (0x24C7, ("ⓡ").data), (0x24C8, ("ⓢ").data),
  (0x24C9, ("ⓣ").data), (0x24CA, ("ⓤ").data), (0x24CB, ("ⓥ").data),
  (0x24CC, ("ⓦ").data), (0x24CD, ("ⓧ").data), (0x24CE, ("ⓨ").data),
  (0x24CF, ("ⓩ").data), (0x2C00, ("ⰰ").data), (0x2C01, ("ⰱ").data),
  (0x2C02, ("ⰲ").data), (0x2C03, ("ⰳ").data), (0x2C04, ("ⰴ").data),
  (0x2C05, ("ⰵ").data), (0x2C06, ("ⰶ").data), (0x2C07, ("ⰷ").data),
  (0x2C08, ("ⰸ").data), (0x2C09, ("ⰹ").data), (0x2C0A, ("ⰺ").data),
  (0x2C0B, ("ⰻ").data), (0x2C0C, ("ⰼ").data), (0x2C0D, ("ⰽ").data),
  (0x2C0E, ("ⰾ").data), (0x2C0F, ("ⰿ").data), (0x2C10, ("ⱀ").data),
  (0x2C11, ("ⱁ").data), (0x2C12, ("ⱂ").data), (0x2C13, ("ⱃ").data),
  (0x2C14, ("ⱄ").data), (0x2C15, ("ⱅ").data), (0x2C16, ("ⱆ").data),
  (0x2C17, ("ⱇ").data), (0x2C18, ("ⱈ").data), (0x2C19, ("ⱉ").data),
  (0x2C1A, ("ⱊ").data), (0x2C1B, ("ⱋ").data), (0x2C1C, ("ⱌ").data),
  (0x2C1D, ("ⱍ").data), (0x2C1E, ("ⱎ").data), (0x2C1F, ("ⱏ").data),
  (0x2C20, ("ⱐ").data), (0x2C21, ("ⱑ").data), (0x2C22, ("ⱒ").data),
  (0x2C23, ("ⱓ").data), (0x2C24, ("ⱔ").data), (0x2C25, ("ⱕ").data),
  (0x2C26, ("ⱖ").data), (0x2C27, ("ⱗ").data), (0x2C28, ("ⱘ").data),
  (0x2C29, ("ⱙ").data), (0x2C2A, ("ⱚ").data), (0x2C2B, ("ⱛ").data),
  (0x2C2C, ("ⱜ").data), (0x2C2D, ("ⱝ").data), (0x2C2E, ("ⱞ").data),
  (0x2C2F, ("ⱟ").data), (0x2C60, ("ⱡ").data), (0x2C62, ("ɫ").data),
  (0x2C63, ("ᵽ").data), (0x2C64, ("ɽ").data), (0x2C67, ("ⱨ").data),
  (0x2C69, ("ⱪ").data), (0x2C6B, ("ⱬ").data), (0x2C6D, ("ɑ").data),
  (0x2C6E, ("ɱ").data), (0x2C6F, ("ɐ").data), (0x2C70, ("ɒ").data),
  (0x2C72, ("ⱳ").data), (0x2C75, ("ⱶ").data), (0x2C7E, ("ȿ").data),
  (0x2C7F, ("ɀ").data), (0x2C80, ("ⲁ").data), (0x2C82, ("ⲃ").data),
  (0x2C84, ("ⲅ").data), (0x2C86, ("ⲇ").data), (0x2C88, ("ⲉ").data),
  (0x2C8A, ("ⲋ").data), (0x2C8C, ("ⲍ").data), (0x2C8E, ("ⲏ").data),
  (0x2C90, ("ⲑ").data), (0x2C92, ("ⲓ").data), (0x2C94, ("ⲕ").data),
  (0x2C96, ("ⲗ").data), (0x2C98, ("ⲙ").data), (0x2C9A, ("ⲛ").data),
  (0x2C9C, ("ⲝ").data), (0x2C9E, ("ⲟ").data), (0x2CA0, ("ⲡ").data),
  (0x2CA2, ("ⲣ").data), (0x2CA4, ("ⲥ").data), (0x2CA6, ("ⲧ").data),
  (0x2CA8, ("ⲩ").data), (0x2CAA, ("ⲫ").data), (0x2CAC, ("ⲭ").data),
  (0x2CAE, ("ⲯ").data), (0x2CB0, ("ⲱ").data), (0x2CB2, ("ⲳ").data),
  (0x2CB4, ("ⲵ").data), (0x2CB6, ("ⲷ").data), (0x2CB8, ("ⲹ").data),
  (0x2CBA, ("ⲻ").data), (0x2CBC, ("ⲽ").data), (0x2CBE, ("ⲿ").data),
  (0x2CC0, ("ⳁ").data), (0x2CC2, ("ⳃ").data), (0x2CC4, ("ⳅ").data),
  (0x2CC6, ("ⳇ").data), (0x2CC8, ("ⳉ").data), (0x2CCA, ("ⳋ").data),
  (0x2CCC, ("ⳍ").data), (0x2CCE, ("ⳏ").data), (0x2CD0, ("ⳑ").data),
  (0x2CD2, ("ⳓ").data), (0x2CD4, ("ⳕ").data), (0x2CD6, ("ⳗ").data),
  (0x2CD8, ("ⳙ").data), (0x2CDA, ("ⳛ").data), (0x2CDC, ("ⳝ").data),
  (0x2CDE, ("ⳟ").data), (0x2CE0, ("ⳡ").data), (0x2CE2, ("ⳣ").data),
  (0x2CEB, ("ⳬ").data), (0x2CED, ("ⳮ").data), (0x2CF2, ("ⳳ").data),
  (0xA640, ("ꙁ").data), (0xA642, ("ꙃ").data), (0xA644, ("ꙅ").data),
  (0xA646, ("ꙇ").data), (0xA648, ("ꙉ").data), (0xA64A, ("ꙋ").data),
  (0xA64C, ("ꙍ").data), (0xA64E, ("ꙏ").data), (0xA650, ("ꙑ").data),
  (0xA652, ("ꙓ").data), (0xA654, ("ꙕ").data), (0xA656, ("ꙗ").data),
  (0xA658, ("ꙙ").data), (0xA65A, ("ꙛ").data), (0xA65C, ("ꙝ").data),
  (0xA65E, ("ꙟ").data), (0xA660, ("ꙡ").data), (0xA662, ("ꙣ").data),
  (0xA664, ("ꙥ").data), (0xA666, ("ꙧ").data), (0xA668, ("ꙩ").data),
  (0xA66A, ("ꙫ").data), (0xA66C, ("ꙭ").data), (0xA680, ("ꚁ").data),
  (0xA682, ("ꚃ").data), (0xA684, ("ꚅ").data), (0xA686, ("ꚇ").data),
  (0xA688, ("ꚉ").data), (0xA68A, ("ꚋ").data), (0xA68C, ("ꚍ").data),
  (0xA68E, ("ꚏ").data), (0xA690, ("ꚑ").data), (0xA692, ("ꚓ").data),
  (0xA694, ("ꚕ").data), (0xA696, ("ꚗ").data), (0xA698, ("ꚙ").data),
  (0xA69A, ("ꚛ").data), (0xA722, ("ꜣ").data), (0xA724, ("ꜥ").data),
  (0xA726, ("ꜧ").data), (0xA728, ("ꜩ").data), (0xA72A, ("ꜫ").data),
  (0xA72C, ("ꜭ").data), (0xA72E, ("ꜯ").data), (0xA732, ("ꜳ").data),
  (0xA734, ("ꜵ").data), (0xA736, ("ꜷ").data), (0xA738, ("ꜹ").data),
  (0xA73A, ("ꜻ").data), (0xA73C, ("ꜽ").data), (0xA73E, ("ꜿ").data),
  (0xA740, ("ꝁ").data), (0xA742, ("ꝃ").data), (0xA744, ("ꝅ").data),
  (0xA746, ("ꝇ").data), (0xA748, ("ꝉ").data), (0xA74A, ("ꝋ").data),
  (0xA74C, ("ꝍ").data), (0xA74E, ("ꝏ").data), (0xA750, ("ꝑ").data),
  (0xA752, ("ꝓ").data), (0xA754, ("ꝕ").data), (0xA756, ("ꝗ").data),
  (0xA758, ("ꝙ").data), (0xA75A, ("ꝛ").data), (0xA75C, ("ꝝ").data),
  (0xA75E, ("ꝟ").data), (0xA760, ("ꝡ").data), (0xA762, ("ꝣ").data),
  (0xA764, ("ꝥ").data), (0xA766, ("ꝧ").data), (0xA768, ("ꝩ").data),
  (0xA76A, ("ꝫ").data), (0xA76C, ("ꝭ").data), (0xA76E, ("ꝯ").data),
  (0xA779, ("ꝺ").data), (0xA77B, ("ꝼ").data), (0xA77D, ("ᵹ").data),
  (0xA77E, ("ꝿ").data), (0xA780, ("ꞁ").data), (0xA782, ("ꞃ").data),
  (0xA784, ("ꞅ").data), (0xA786, ("ꞇ").data), (0xA78B, ("ꞌ").data),
  (0xA78D, ("ɥ").data), (0xA790, ("ꞑ").data), (0xA792, ("ꞓ").data),
  (0xA796, ("ꞗ").data), (0xA798, ("ꞙ").data), (0xA79A, ("ꞛ").data),
  (0xA79C, ("ꞝ").data), (0xA79E, ("ꞟ").data), (0xA7A0, ("ꞡ").data),
  (0xA7A2, ("ꞣ").data), (0xA7A4, ("ꞥ").data), (0xA7A6, ("ꞧ").data),
  (0xA7A8, ("ꞩ").data), (0xA7AA, ("ɦ").data), (0xA7AB, ("ɜ").data),
  (0xA7AC, ("ɡ").data), (0xA7AD, ("ɬ").data), (0xA7AE, ("ɪ").data),
  (0xA7B0, ("ʞ").data), (0xA7B1, ("ʇ").data), (0xA7B2, ("ʝ").data),
  (0xA7B3, ("ꭓ").data), (0xA7B4, ("ꞵ").data), (0xA7B6, ("ꞷ").data),
  (0xA7B8, ("ꞹ").data), (0xA7BA, ("ꞻ").data), (0xA7BC, ("ꞽ").data),
  (0xA7BE, ("ꞿ").data), (0xA7C0, ("ꟁ").data), (0xA7C2, ("ꟃ").data),
  (0xA7C4, ("ꞔ").data), (0xA7C5, ("ʂ").data), (0xA7C6, ("ᶎ").data),
  (0xA7C7, ("ꟈ").data), (0xA7C9, ("ꟊ").data), (0xA7D0, ("ꟑ").data),
  (0xA7D6, ("ꟗ").data), (0xA7D8, ("ꟙ").data), (0xA7F5, ("ꟶ").data),
  (0xFF21, ("ａ").data), (0xFF22, ("ｂ").data), (0xFF23, ("ｃ").data),
  (0xFF24, ("ｄ").data), (0xFF25, ("ｅ").data), (0xFF26, ("ｆ").data),
  (0xFF27, ("ｇ").data), (0xFF28, ("ｈ").data), (0xFF29, ("ｉ").data),
  (0xFF2A, ("ｊ").data), (0xFF2B, ("ｋ").data), (0xFF2C, ("ｌ").data),
  (0xFF2D, ("ｍ").data), (0xFF2E, ("ｎ").data), (0xFF2F, ("ｏ").data),
  (0xFF30, ("ｐ").data), (0xFF31, ("ｑ").data), (0xFF32, ("ｒ").data),
  (0xFF33, ("ｓ").data), (0xFF34, ("ｔ").data), (0xFF35, ("ｕ").data),
  (0xFF36, ("ｖ").data), (0xFF37, ("ｗ").data), (0xFF38, ("ｘ").data),
  (0xFF39, ("ｙ").data), (0xFF3A, ("ｚ").data), (0x10400, ("𐐨").data),
  (0x10401, ("𐐩").data), (0x10402, ("𐐪").data), (0x10403, ("𐐫").data),
  (0x10404, ("𐐬").data), (0x10405, ("𐐭").data), (0x10406, ("𐐮").data),
  (0x10407, ("𐐯").data), (0x10408, ("𐐰").data), (0x10409, ("𐐱").data),
  (0x1040A, ("𐐲").data), (0x1040B, ("𐐳").data), (0x1040C, ("𐐴").data),
  (0x1040D, ("𐐵").data), (0x1040E, ("𐐶").data), (0x1040F, ("𐐷").data),
  (0x10410, ("𐐸").data), (0x10411, ("𐐹").data), (0x10412, ("𐐺").data),
  (0x10413, ("𐐻").data), (0x10414, ("𐐼").data), (0x10415, ("𐐽").data),
  (0x10416, ("𐐾").data), (0x10417, ("𐐿").data), (0x10418, ("𐑀").data),
  (0x10419, ("𐑁").data), (0x1041A, ("𐑂").data), (0x1041B, ("𐑃").data),
  (0x1041C, ("𐑄").data), (0x1041D, ("𐑅").data), (0x1041E, ("𐑆").data),
  (0x1041F, ("𐑇").data), (0x10420, ("𐑈").data), (0x10421, ("𐑉").data),
  (0x10422, ("𐑊").data), (0x10423, ("𐑋").data), (0x10424, ("𐑌").data),
  (0x10425, ("𐑍").data), (0x10426, ("𐑎").data), (0x10427, ("𐑏").data),
  (0x104B0, ("𐓘").data), (0x104B1, ("𐓙").data), (0x104B2, ("𐓚").data),
  (0x104B3, ("𐓛").data), (0x104B4, ("𐓜").data), (0x104B5, ("𐓝").data),
  (0x104B6, ("𐓞").data), (0x104B7, ("𐓟").data), (0x104B8, ("𐓠").data),
  (0x104B9, ("𐓡").data), (0x104BA, ("𐓢").data), (0x104BB, ("𐓣").data),
  (0x104BC, ("𐓤").data), (0x104BD, ("𐓥").data), (0x104BE, ("𐓦").data),
  (0x104BF, ("𐓧").data), (0x104C0, ("𐓨").data), (0x104C1, ("𐓩").data),
  (0x104C2, ("𐓪").data), (0x104C3, ("𐓫").data), (0x104C4, ("𐓬").data),
  (0x104C5, ("𐓭").data), (0x104C6, ("𐓮").data), (0x104C7, ("𐓯").data),
  (0x104C8, ("𐓰").data), (0x104C9, ("𐓱").data), (0x104CA, ("𐓲").data),
  (0x104CB, ("𐓳").data), (0x104CC, ("𐓴").data), (0x104CD, ("𐓵").data),
  (0x104CE, ("𐓶").data), (0x104CF, ("𐓷").data), (0x104D0, ("𐓸").data),
  (0x104D1, ("𐓹").data), (0x104D2, ("𐓺").data), (0x104D3, ("𐓻").data),
  (0x10570, ("𐖗").data), (0x10571, ("𐖘").data), (0x10572, ("𐖙").data),
  (0x10573, ("𐖚").data), (0x10574, ("𐖛").data), (0x10575, ("𐖜").data),
  (0x10576, ("𐖝").data), (0x10577, ("𐖞").data), (0x10578, ("𐖟").data),
  (0x10579, ("𐖠").data), (0x1057A, ("𐖡").data), (0x1057C, ("𐖣").data),
  (0x1057D, ("𐖤").data), (0x1057E, ("𐖥").data), (0x1057F, ("𐖦").data),
  (0x10580, ("𐖧").data), (0x10581, ("𐖨").data), (0x10582, ("𐖩").data),
  (0x10583, ("𐖪").data), (0x10584, ("𐖫").data), (0x10585, ("𐖬").data),
  (0x10586, ("𐖭").data), (0x10587, ("𐖮").data), (0x10588, ("𐖯").data),
  (0x10589, ("𐖰").data), (0x1058A, ("𐖱").data), (0x1058C, ("𐖳").data),
  (0x1058D, ("𐖴").data), (0x1058E, ("𐖵").data), (0x1058F, ("𐖶").data),
  (0x10590, ("𐖷").data), (0x10591, ("𐖸").data), (0x10592, ("𐖹").data),
  (0x10594, ("𐖻").data), (0x10595, ("𐖼").data), (0x10C80, ("𐳀").data),
  (0x10C81, ("𐳁").data), (0x10C82, ("𐳂").data), (0x10C83, ("𐳃").data),
  (0x10C84, ("𐳄").data), (0x10C85, ("𐳅").data), (0x10C86, ("𐳆").data),
  (0x10C87, ("𐳇").data), (0x10C88, ("𐳈").data), (0x10C89, ("𐳉").data),
  (0x10C8A, ("𐳊").data), (0x10C8B, ("𐳋").data), (0x10C8C, ("𐳌").data),
  (0x10C8D, ("𐳍").data), (0x10C8E, ("𐳎").data), (0x10C8F, ("𐳏").data),
  (0x10C90, ("𐳐").data), (0x10C91, ("𐳑").data), (0x10C92, ("𐳒").data),
  (0x10C93, ("𐳓").data), (0x10C94, ("𐳔").data), (0x10C95, ("𐳕").data),
  (0x10C96, ("𐳖").data), (0x10C97, ("𐳗").data), (0x10C98, ("𐳘").data),
  (0x10C99, ("𐳙").data), (0x10C9A, ("𐳚").data), (0x10C9B, ("𐳛").data),
  (0x10C9C, ("𐳜").data), (0x10C9D, ("𐳝").data), (0x10C9E, ("𐳞").data),
  (0x10C9F, ("𐳟").data), (0x10CA0, ("𐳠").data), (0x10CA1, ("𐳡").data),
  (0x10CA2, ("𐳢").data), (0x10CA3, ("𐳣").data), (0x10CA4, ("𐳤").data),
  (0x10CA5, ("𐳥").data), (0x10CA6, ("𐳦").data), (0x10CA7, ("𐳧").data),
  (0x10CA8, ("𐳨").data), (0x10CA9, ("𐳩").data), (0x10CAA, ("𐳪").data),
  (0x10CAB, ("𐳫").data), (0x10CAC, ("𐳬").data), (0x10CAD, ("𐳭").data),
  (0x10CAE, ("𐳮").data), (0x10CAF, ("𐳯").data), (0x10CB0, ("𐳰").data),
  (0x10CB1, ("𐳱").data), (0x10CB2, ("𐳲").data), (0x118A0, ("𑣀").data),
  (0x118A1, ("𑣁").data), (0x118A2, ("𑣂").data), (0x118A3, ("𑣃").data),
  (0x118A4, ("𑣄").data), (0x118A5, ("𑣅").data), (0x118A6, ("𑣆").data),
  (0x118A7, ("𑣇").data), (0x118A8, ("𑣈").data), (0x118A9, ("𑣉").data),
  (0x118AA, ("𑣊").data), (0x118AB, ("𑣋").data), (0x118AC, ("𑣌").data),
  (0x118AD, ("𑣍").data), (0x118AE, ("𑣎").data), (0x118AF, ("𑣏").data),
  (0x118B0, ("𑣐").data), (0x118B1, ("𑣑").data), (0x118B2, ("𑣒").data),
  (0x118B3, ("𑣓").data), (0x118B4, ("𑣔").data), (0x118B5, ("𑣕").data),
  (0x118B6, ("𑣖").data), (0x118B7, ("𑣗").data), (0x118B8, ("𑣘").data),
  (0x118B9, ("𑣙").data), (0x118BA, ("𑣚").data), (0x118BB, ("𑣛").data),
  (0x118BC, ("𑣜").data), (0x118BD, ("𑣝").data), (0x118BE, ("𑣞").data),
  (0x118BF, ("𑣟").data), (0x16E40, ("𖹠").data), (0x16E41, ("𖹡").data),
  (0x16E42, ("𖹢").data), (0x16E43, ("𖹣").data), (0x16E44, ("𖹤").data),
  (0x16E45, ("𖹥").data), (0x16E46, ("𖹦").data), (0x16E47, ("𖹧").data),
  (0x16E48, ("𖹨").data), (0x16E49, ("𖹩").data), (0x16E4A, ("𖹪").data),
  (0x16E4B, ("𖹫").data), (0x16E4C, ("𖹬").data), (0x16E4D, ("𖹭").data),
  (0x16E4E, ("𖹮").data), (0x16E4F, ("𖹯").data), (0x16E50, ("𖹰").data),
  (0x16E51, ("𖹱").data), (0x16E52, ("𖹲").data), (0x16E53, ("𖹳").data),
  (0x16E54, ("𖹴").data), (0x16E55, ("𖹵").data), (0x16E56, ("𖹶").data),
  (0x16E57, ("𖹷").data), (0x16E58, ("𖹸").data), (0x16E59, ("𖹹").data),
  (0x16E5A, ("𖹺").data), (0x16E5B, ("𖹻").data), (0x16E5C, ("𖹼").data),
  (0x16E5D, ("𖹽").data), (0x16E5E, ("𖹾").data), (0x16E5F, ("𖹿").data),
  (0x1E900, ("𞤢").data), (0x1E901, ("𞤣").data), (0x1E902, ("𞤤").data),
  (0x1E903, ("𞤥").data), (0x1E904, ("𞤦").data), (0x1E905, ("𞤧").data),
  (0x1E906, ("𞤨").data), (0x1E907, ("𞤩").data), (0x1E908, ("𞤪").data),
  (0x1E909, ("𞤫").data), (0x1E90A, ("𞤬").data), (0x1E90B, ("𞤭").data),
  (0x1E90C, ("𞤮").data), (0x1E90D, ("𞤯").data), (0x1E90E, ("𞤰").data),
  (0x1E90F, ("𞤱").data), (0x1E910, ("𞤲").data), (0x1E911, ("𞤳").data),
  (0x1E912, ("𞤴").data), (0x1E913, ("𞤵").data), (0x1E914, ("𞤶").data),
  (0x1E915, ("𞤷").data), (0x1E916, ("𞤸").data), (0x1E917, ("𞤹").data),
  (0x1E918, ("𞤺").data), (0x1E919, ("𞤻").data), (0x1E91A, ("𞤼").data),
  (0x1E91B, ("𞤽").data), (0x1E91C, ("𞤾").data), (0x1E91D, ("𞤿").data),
  (0x1E91E, ("𞥀").data), (0x1E91F, ("𞥁").data), (0x1E920, ("𞥂").data),
  (0x1E921, ("𞥃").data)]

/-- The code-point ranges of the Unicode `Cased` property as the scans of
the `Final_Sigma` condition see them (characters that are both cased and
case-ignorable are skipped by those scans before their casedness is ever
tested, so they belong to the ignorable ranges instead). -/
def casedRanges : List (Nat × Nat) := [
  (0x41, 0x5A), (0x61, 0x7A), (0xAA, 0xAA), (0xB5, 0xB5), (0xBA, 0xBA), (0xC0, 0xD6),
  (0xD8, 0xF6), (0xF8, 0x1BA), (0x1BC, 0x1BF), (0x1C4, 0x293), (0x295, 0x2AF), (0x370, 0x373),
  (0x376, 0x377), (0x37B, 0x37D), (0x37F, 0x37F), (0x386, 0x386), (0x388, 0x38A), (0x38C, 0x38C),
  (0x38E, 0x3A1), (0x3A3, 0x3F5), (0x3F7, 0x481), (0x48A, 0x52F), (0x531, 0x556), (0x560, 0x588),
  (0x10A0, 0x10C5), (0x10C7, 0x10C7), (0x10CD, 0x10CD), (0x10D0, 0x10FA), (0x10FD, 0x10FF), (0x13A0, 0x13F5),
  (0x13F8, 0x13FD), (0x1C80, 0x1C88), (0x1C90, 0x1CBA), (0x1CBD, 0x1CBF), (0x1D00, 0x1D2B), (0x1D6B, 0x1D77),
  (0x1D79, 0x1D9A), (0x1E00, 0x1F15), (0x1F18, 0x1F1D), (0x1F20, 0x1F45), (0x1F48, 0x1F4D), (0x1F50, 0x1F57),
  (0x1F59, 0x1F59), (0x1F5B, 0x1F5B), (0x1F5D, 0x1F5D), (0x1F5F, 0x1F7D), (0x1F80, 0x1FB4), (0x1FB6, 0x1FBC),
  (0x1FBE, 0x1FBE), (0x1FC2, 0x1FC4), (0x1FC6, 0x1FCC), (0x1FD0, 0x1FD3), (0x1FD6, 0x1FDB), (0x1FE0, 0x1FEC),
  (0x1FF2, 0x1FF4), (0x1FF6, 0x1FFC), (0x2102, 0x2102), (0x2107, 0x2107), (0x210A, 0x2113), (0x2115, 0x2115),
  (0x2119, 0x211D), (0x2124, 0x2124), (0x2126, 0x2126), (0x2128, 0x2128), (0x212A, 0x212D), (0x212F, 0x2134),
  (0x2139, 0x2139), (0x213C, 0x213F), (0x2145, 0x2149), (0x214E, 0x214E), (0x2160, 0x217F), (0x2183, 0x2184),
  (0x24B6, 0x24E9), (0x2C00, 0x2C7B), (0x2C7E, 0x2CE4), (0x2CEB, 0x2CEE), (0x2CF2, 0x2CF3), (0x2D00, 0x2D25),
  (0x2D27, 0x2D27), (0x2D2D, 0x2D2D), (0xA640, 0xA66D), (0xA680, 0xA69B), (0xA722, 0xA76F), (0xA771, 0xA787),
  (0xA78B, 0xA78E), (0xA790, 0xA7CA), (0xA7D0, 0xA7D1), (0xA7D3, 0xA7D3), (0xA7D5, 0xA7D9), (0xA7F5, 0xA7F6),
  (0xA7FA, 0xA7FA), (0xAB30, 0xAB5A), (0xAB60, 0xAB68), (0xAB70, 0xABBF), (0xFB00, 0xFB06), (0xFB13, 0xFB17),
  (0xFF21, 0xFF3A), (0xFF41, 0xFF5A), (0x10400, 0x1044F), (0x104B0, 0x104D3), (0x104D8, 0x104FB), (0x10570, 0x1057A),
  (0x1057C, 0x1058A), (0x1058C, 0x10592), (0x10594, 0x10595), (0x10597, 0x105A1), (0x105A3, 0x105B1), (0x105B3, 0x105B9),
  (0x105BB, 0x105BC), (0x10C80, 0x10CB2), (0x10CC0, 0x10CF2), (0x118A0, 0x118DF), (0x16E40, 0x16E7F), (0x1D400, 0x1D454),
  (0x1D456, 0x1D49C), (0x1D49E, 0x1D49F), (0x1D4A2, 0x1D4A2), (0x1D4A5, 0x1D4A6), (0x1D4A9, 0x1D4AC), (0x1D4AE, 0x1D4B9),
  (0x1D4BB, 0x1D4BB), (0x1D4BD, 0x1D4C3), (0x1D4C5, 0x1D505), (0x1D507, 0x1D50A), (0x1D50D, 0x1D514), (0x1D516, 0x1D51C),
  (0x1D51E, 0x1D539), (0x1D53B, 0x1D53E), (0x1D540, 0x1D544), (0x1D546, 0x1D546), (0x1D54A, 0x1D550), (0x1D552, 0x1D6A5),
  (0x1D6A8, 0x1D6C0), (0x1D6C2, 0x1D6DA), (0x1D6DC, 0x1D6FA), (0x1D6FC, 0x1D714), (0x1D716, 0x1D734), (0x1D736, 0x1D74E),
  (0x1D750, 0x1D76E), (0x1D770, 0x1D788), (0x1D78A, 0x1D7A8), (0x1D7AA, 0x1D7C2), (0x1D7C4, 0x1D7CB), (0x1DF00, 0x1DF09),
  (0x1DF0B, 0x1DF1E), (0x1E900, 0x1E943), (0x1F130, 0x1F149), (0x1F150, 0x1F169), (0x1F170, 0x1F189)]

/-- The code-point ranges of the Unicode `Case_Ignorable` property (the
characters the `Final_Sigma` scans step over; note `:` is among them). -/
def caseIgnorableRanges : List (Nat × Nat) := [
  (0x27, 0x27), (0x2E, 0x2E), (0x3A, 0x3A), (0x5E, 0x5E), (0x60, 0x60), (0xA8, 0xA8),
  (0xAD, 0xAD), (0xAF, 0xAF), (0xB4, 0xB4), (0xB7, 0xB8), (0x2B0, 0x36F), (0x374, 0x375),
  (0x37A, 0x37A), (0x384, 0x385), (0x387, 0x387), (0x483, 0x489), (0x559, 0x559), (0x55F, 0x55F),
  (0x591, 0x5BD), (0x5BF, 0x5BF), (0x5C1, 0x5C2), (0x5C4, 0x5C5), (0x5C7, 0x5C7), (0x5F4, 0x5F4),
  (0x600, 0x605), (0x610, 0x61A), (0x61C, 0x61C), (0x640, 0x640), (0x64B, 0x65F), (0x670, 0x670),
  (0x6D6, 0x6DD), (0x6DF, 0x6E8), (0x6EA, 0x6ED), (0x70F, 0x70F), (0x711, 0x711), (0x730, 0x74A),
  (0x7A6, 0x7B0), (0x7EB, 0x7F5), (0x7FA, 0x7FA), (0x7FD, 0x7FD), (0x816, 0x82D), (0x859, 0x85B),
  (0x888, 0x888), (0x890, 0x891), (0x898, 0x89F), (0x8C9, 0x902), (0x93A, 0x93A), (0x93C, 0x93C),
  (0x941, 0x948), (0x94D, 0x94D), (0x951, 0x957), (0x962, 0x963), (0x971, 0x971), (0x981, 0x981),
  (0x9BC, 0x9BC), (0x9C1, 0x9C4), (0x9CD, 0x9CD), (0x9E2, 0x9E3), (0x9FE, 0x9FE), (0xA01, 0xA02),
  (0xA3C, 0xA3C), (0xA41, 0xA42), (0xA47, 0xA48), (0xA4B, 0xA4D), (0xA51, 0xA51), (0xA70, 0xA71),
  (0xA75, 0xA75), (0xA81, 0xA82), (0xABC, 0xABC), (0xAC1, 0xAC5), (0xAC7, 0xAC8), (0xACD, 0xACD),
  (0xAE2, 0xAE3), (0xAFA, 0xAFF), (0xB01, 0xB01), (0xB3C, 0xB3C), (0xB3F, 0xB3F), (0xB41, 0xB44),
  (0xB4D, 0xB4D), (0xB55, 0xB56), (0xB62, 0xB63), (0xB82, 0xB82), (0xBC0, 0xBC0), (0xBCD, 0xBCD),
  (0xC00, 0xC00), (0xC04, 0xC04), (0xC3C, 0xC3C), (0xC3E, 0xC40), (0xC46, 0xC48), (0xC4A, 0xC4D),
  (0xC55, 0xC56), (0xC62, 0xC63), (0xC81, 0xC81), (0xCBC, 0xCBC), (0xCBF, 0xCBF), (0xCC6, 0xCC6),
  (0xCCC, 0xCCD), (0xCE2, 0xCE3), (0xD00, 0xD01), (0xD3B, 0xD3C), (0xD41, 0xD44), (0xD4D, 0xD4D),
  (0xD62, 0xD63), (0xD81, 0xD81), (0xDCA, 0xDCA), (0xDD2, 0xDD4), (0xDD6, 0xDD6), (0xE31, 0xE31),
  (0xE34, 0xE3A), (0xE46, 0xE4E), (0xEB1, 0xEB1), (0xEB4, 0xEBC), (0xEC6, 0xEC6), (0xEC8, 0xECD),
  (0xF18, 0xF19), (0xF35, 0xF35), (0xF37, 0xF37), (0xF39, 0xF39), (0xF71, 0xF7E), (0xF80, 0xF84),
  (0xF86, 0xF87), (0xF8D, 0xF97), (0xF99, 0xFBC), (0xFC6, 0xFC6), (0x102D, 0x1030), (0x1032, 0x1037),
  (0x1039, 0x103A), (0x103D, 0x103E), (0x1058, 0x1059), (0x105E, 0x1060), (0x1071, 0x1074), (0x1082, 0x1082),
  (0x1085, 0x1086), (0x108D, 0x108D), (0x109D, 0x109D), (0x10FC, 0x10FC), (0x135D, 0x135F), (0x1712, 0x1714),
  (0x1732, 0x1733), (0x1752, 0x1753), (0x1772, 0x1773), (0x17B4, 0x17B5), (0x17B7, 0x17BD), (0x17C6, 0x17C6),
  (0x17C9, 0x17D3), (0x17D7, 0x17D7), (0x17DD, 0x17DD), (0x180B, 0x180F), (0x1843, 0x1843), (0x1885, 0x1886),
  (0x18A9, 0x18A9), (0x1920, 0x1922), (0x1927, 0x1928), (0x1932, 0x1932), (0x1939, 0x193B), (0x1A17, 0x1A18),
  (0x1A1B, 0x1A1B), (0x1A56, 0x1A56), (0x1A58, 0x1A5E), (0x1A60, 0x1A60), (0x1A62, 0x1A62), (0x1A65, 0x1A6C),
  (0x1A73, 0x1A7C), (0x1A7F, 0x1A7F), (0x1AA7, 0x1AA7), (0x1AB0, 0x1ACE), (0x1B00, 0x1B03), (0x1B34, 0x1B34),
  (0x1B36, 0x1B3A), (0x1B3C, 0x1B3C), (0x1B42, 0x1B42), (0x1B6B, 0x1B73), (0x1B80, 0x1B81), (0x1BA2, 0x1BA5),
  (0x1BA8, 0x1BA9), (0x1BAB, 0x1BAD), (0x1BE6, 0x1BE6), (0x1BE8, 0x1BE9), (0x1BED, 0x1BED), (0x1BEF, 0x1BF1),
  (0x1C2C, 0x1C33), (0x1C36, 0x1C37), (0x1C78, 0x1C7D), (0x1CD0, 0x1CD2), (0x1CD4, 0x1CE0), (0x1CE2, 0x1CE8),
  (0x1CED, 0x1CED), (0x1CF4, 0x1CF4), (0x1CF8, 0x1CF9), (0x1D2C, 0x1D6A), (0x1D78, 0x1D78), (0x1D9B, 0x1DFF),
  (0x1FBD, 0x1FBD), (0x1FBF, 0x1FC1), (0x1FCD, 0x1FCF), (0x1FDD, 0x1FDF), (0x1FED, 0x1FEF), (0x1FFD, 0x1FFE),
  (0x200B, 0x200F), (0x2018, 0x2019), (0x2024, 0x2024), (0x2027, 0x2027), (0x202A, 0x202E), (0x2060, 0x2064),
  (0x2066, 0x206F), (0x2071, 0x2071), (0x207F, 0x207F), (0x2090, 0x209C), (0x20D0, 0x20F0), (0x2C7C, 0x2C7D),
  (0x2CEF, 0x2CF1), (0x2D6F, 0x2D6F), (0x2D7F, 0x2D7F), (0x2DE0, 0x2DFF), (0x2E2F, 0x2E2F), (0x3005, 0x3005),
  (0x302A, 0x302D), (0x3031, 0x3035), (0x303B, 0x303B), (0x3099, 0x309E), (0x30FC, 0x30FE), (0xA015, 0xA015),
  (0xA4F8, 0xA4FD), (0xA60C, 0xA60C), (0xA66F, 0xA672), (0xA674, 0xA67D), (0xA67F, 0xA67F), (0xA69C, 0xA69F),
  (0xA6F0, 0xA6F1), (0xA700, 0xA721), (0xA770, 0xA770), (0xA788, 0xA78A), (0xA7F2, 0xA7F4), (0xA7F8, 0xA7F9),
  (0xA802, 0xA802), (0xA806, 0xA806), (0xA80B, 0xA80B), (0xA825, 0xA826), (0xA82C, 0xA82C), (0xA8C4, 0xA8C5),
  (0xA8E0, 0xA8F1), (0xA8FF, 0xA8FF), (0xA926, 0xA92D), (0xA947, 0xA951), (0xA980, 0xA982), (0xA9B3, 0xA9B3),
  (0xA9B6, 0xA9B9), (0xA9BC, 0xA9BD), (0xA9CF, 0xA9CF), (0xA9E5, 0xA9E6), (0xAA29, 0xAA2E), (0xAA31, 0xAA32),
  (0xAA35, 0xAA36), (0xAA43, 0xAA43), (0xAA4C, 0xAA4C), (0xAA70, 0xAA70), (0xAA7C, 0xAA7C), (0xAAB0, 0xAAB0),
  (0xAAB2, 0xAAB4), (0xAAB7, 0xAAB8), (0xAABE, 0xAABF), (0xAAC1, 0xAAC1), (0xAADD, 0xAADD), (0xAAEC, 0xAAED),
  (0xAAF3, 0xAAF4), (0xAAF6, 0xAAF6), (0xAB5B, 0xAB5F), (0xAB69, 0xAB6B), (0xABE5, 0xABE5), (0xABE8, 0xABE8),
  (0xABED, 0xABED), (0xFB1E, 0xFB1E), (0xFBB2, 0xFBC2), (0xFE00, 0xFE0F), (0xFE13, 0xFE13), (0xFE20, 0xFE2F),
  (0xFE52, 0xFE52), (0xFE55, 0xFE55), (0xFEFF, 0xFEFF), (0xFF07, 0xFF07), (0xFF0E, 0xFF0E), (0xFF1A, 0xFF1A),
  (0xFF3E, 0xFF3E), (0xFF40, 0xFF40), (0xFF70, 0xFF70), (0xFF9E, 0xFF9F), (0xFFE3, 0xFFE3), (0xFFF9, 0xFFFB),
  (0x101FD, 0x101FD), (0x102E0, 0x102E0), (0x10376, 0x1037A), (0x10780, 0x10785), (0x10787, 0x107B0), (0x107B2, 0x107BA),
  (0x10A01, 0x10A03), (0x10A05, 0x10A06), (0x10A0C, 0x10A0F), (0x10A38, 0x10A3A), (0x10A3F, 0x10A3F), (0x10AE5, 0x10AE6),
  (0x10D24, 0x10D27), (0x10EAB, 0x10EAC), (0x10F46, 0x10F50), (0x10F82, 0x10F85), (0x11001, 0x11001), (0x11038, 0x11046),
  (0x11070, 0x11070), (0x11073, 0x11074), (0x1107F, 0x11081), (0x110B3, 0x110B6), (0x110B9, 0x110BA), (0x110BD, 0x110BD),
  (0x110C2, 0x110C2), (0x110CD, 0x110CD), (0x11100, 0x11102), (0x11127, 0x1112B), (0x1112D, 0x11134), (0x11173, 0x11173),
  (0x11180, 0x11181), (0x111B6, 0x111BE), (0x111C9, 0x111CC), (0x111CF, 0x111CF), (0x1122F, 0x11231), (0x11234, 0x11234),
  (0x11236, 0x11237), (0x1123E, 0x1123E), (0x112DF, 0x112DF), (0x112E3, 0x112EA), (0x11300, 0x11301), (0x1133B, 0x1133C),
  (0x11340, 0x11340), (0x11366, 0x1136C), (0x11370, 0x11374), (0x11438, 0x1143F), (0x11442, 0x11444), (0x11446, 0x11446),
  (0x1145E, 0x1145E), (0x114B3, 0x114B8), (0x114BA, 0x114BA), (0x114BF, 0x114C0), (0x114C2, 0x114C3), (0x115B2, 0x115B5),
  (0x115BC, 0x115BD), (0x115BF, 0x115C0), (0x115DC, 0x115DD), (0x11633, 0x1163A), (0x1163D, 0x1163D), (0x1163F, 0x11640),
  (0x116AB, 0x116AB), (0x116AD, 0x116AD), (0x116B0, 0x116B5), (0x116B7, 0x116B7), (0x1171D, 0x1171F), (0x11722, 0x11725),
  (0x11727, 0x1172B), (0x1182F, 0x11837), (0x11839, 0x1183A), (0x1193B, 0x1193C), (0x1193E, 0x1193E), (0x11943, 0x11943),
  (0x119D4, 0x119D7), (0x119DA, 0x119DB), (0x119E0, 0x119E0), (0x11A01, 0x11A0A), (0x11A33, 0x11A38), (0x11A3B, 0x11A3E),
  (0x11A47, 0x11A47), (0x11A51, 0x11A56), (0x11A59, 0x11A5B), (0x11A8A, 0x11A96), (0x11A98, 0x11A99), (0x11C30, 0x11C36),
  (0x11C38, 0x11C3D), (0x11C3F, 0x11C3F), (0x11C92, 0x11CA7), (0x11CAA, 0x11CB0), (0x11CB2, 0x11CB3), (0x11CB5, 0x11CB6),
  (0x11D31, 0x11D36), (0x11D3A, 0x11D3A), (0x11D3C, 0x11D3D), (0x11D3F, 0x11D45), (0x11D47, 0x11D47), (0x11D90, 0x11D91),
  (0x11D95, 0x11D95), (0x11D97, 0x11D97), (0x11EF3, 0x11EF4), (0x13430, 0x13438), (0x16AF0, 0x16AF4), (0x16B30, 0x16B36),
  (0x16B40, 0x16B43), (0x16F4F, 0x16F4F), (0x16F8F, 0x16F9F), (0x16FE0, 0x16FE1), (0x16FE3, 0x16FE4), (0x1AFF0, 0x1AFF3),
  (0x1AFF5, 0x1AFFB), (0x1AFFD, 0x1AFFE), (0x1BC9D, 0x1BC9E), (0x1BCA0, 0x1BCA3), (0x1CF00, 0x1CF2D), (0x1CF30, 0x1CF46),
  (0x1D167, 0x1D169), (0x1D173, 0x1D182), (0x1D185, 0x1D18B), (0x1D1AA, 0x1D1AD), (0x1D242, 0x1D244), (0x1DA00, 0x1DA36),
  (0x1DA3B, 0x1DA6C), (0x1DA75, 0x1DA75), (0x1DA84, 0x1DA84), (0x1DA9B, 0x1DA9F), (0x1DAA1, 0x1DAAF), (0x1E000, 0x1E006),
  (0x1E008, 0x1E018), (0x1E01B, 0x1E021), (0x1E023, 0x1E024), (0x1E026, 0x1E02A), (0x1E130, 0x1E13D), (0x1E2AE, 0x1E2AE),
  (0x1E2EC, 0x1E2EF), (0x1E8D0, 0x1E8D6), (0x1E944, 0x1E94B), (0x1F3FB, 0x1F3FF), (0xE0001, 0xE0001), (0xE0020, 0xE007F),
  (0xE0100, 0xE01EF)]

/-- Membership of a code point in a list of inclusive ranges. -/
def inRanges (rs : List (Nat × Nat)) (n : Nat) : Bool :=
  rs.any (fun p => decide (p.1 ≤ n) && decide (n ≤ p.2))

/-- Whether the `Final_Sigma` scans treat `c` as cased. -/
def isCasedCh (c : Char) : Bool := inRanges casedRanges c.toNat

/-- Whether the `Final_Sigma` scans step over `c`. -/
def isCaseIgnorableCh (c : Char) : Bool := inRanges caseIgnorableRanges c.toNat

/-- The context-free lowercase image of one character (one character can
map to several, e.g. `İ`). -/
def jsLowerChar (c : Char) : Str :=
  match lowerDeltaTable.lookup c.toNat with
  | some l => l
  | none => [c]

/-- The look-ahead half of `Final_Sigma`: skipping case-ignorable
characters, is the next character cased? -/
def followedByCased : Str → Bool
  | [] => false
  | c :: rest => if isCaseIgnorableCh c then followedByCased rest else isCasedCh c

/-- `String.prototype.toLowerCase` (Unicode Default Case Conversion).  The
boolean state carries the look-behind half of `Final_Sigma`: whether the
position is preceded by a cased character followed only by case-ignorable
ones.  A capital sigma lowers to `ς` exactly when that state holds and no
cased character follows before the next non-ignorable one. -/
def jsToLowerAux (prevCased : Bool) : Str → Str
  | [] => []
  | c :: rest =>
    (if c = 'Σ' then
      if prevCased && !followedByCased rest then [('ς')] else [('σ')]
    else jsLowerChar c)
    ++ jsToLowerAux (if isCaseIgnorableCh c then prevCased else isCasedCh c) rest

/-- `s.toLowerCase()`. -/
def jsToLower (s : Str) : Str := jsToLowerAux false s

/-- The state of a `DeduplicationSet`: the recorded keys (a JavaScript
`Set<string>`; only membership matters). -/
abbrev DedupSet := List Str

/-- `getKey`: `` `${type}:${scope ?? ""}:${subject}`.toLowerCase() ``. -/
def dedupKey (c : ConventionalCommit) : Str :=
  jsToLower (c.type ++ ':' :: (match c.scope with
    | some s => s
    | none => []) ++ ':' :: c.subject)

/-- `DeduplicationSet.has`. -/
def dedupHas (set : DedupSet) (c : ConventionalCommit) : Bool :=
  set.contains (dedupKey c)

/-- `DeduplicationSet.add` (adding a present key changes nothing observable). -/
def dedupAdd (set : DedupSet) (c : ConventionalCommit) : DedupSet :=
  dedupKey c :: set

/-- `dedupeCommits`: keep each commit not yet seen, recording it at once so
later duplicates within the same call are filtered too; returns the kept
commits in order together with the grown set. -/
def dedupeCommits : List ConventionalCommit → DedupSet → (List ConventionalCommit × DedupSet)
  | [], set => ([], set)
  | c :: cs, set =>
    if dedupHas set c then dedupeCommits cs set
    else
      let r := dedupeCommits cs (dedupAdd set c)
      (c :: r.1, r.2)

/-!
## Tag normalization (`parser.ts`)
-/

/-- `TagInfo` from `parser.ts`. -/
structure TagInfo where
  original : Str
  clean : Str
  display : Str
deriving DecidableEq

/-- `TagMap` from `parser.ts`; the JavaScript `Map` is modelled as an
association list in insertion order. -/
structure TagMap where
  versions : List Str
  tags : List (Str × TagInfo)

/-- The `TagInfo` pushed for a tag with clean version `clean`. -/
def mkTagInfo (tag clean : Str) : TagInfo :=
  ⟨tag, clean, 'v' :: clean⟩

/-- `Map.set`-then-`push` on the grouping map: append to an existing key's
group, else append a fresh key at the end (JavaScript maps preserve
insertion order). -/
def insertVersionMap : List (Str × List TagInfo) → Str → TagInfo → List (Str × List TagInfo)
  | [], k, i => [(k, [i])]
  | (k', g) :: rest, k, i =>
    if k' = k then (k', g ++ [i]) :: rest
    else (k', g) :: insertVersionMap rest k i

/-- The grouping loop of `normalizeTags`: tags with no extractable or no
semver-valid version are dropped; the rest are grouped by clean version. -/
def buildVersionMap (tags : List Str) : List (Str × List TagInfo) :=
  tags.foldl (fun m tag =>
    match extractVersion tag with
    | none => m
    | some clean =>
      match semverParse clean with
      | none => m
      | some _ => insertVersionMap m clean (mkTagInfo tag clean)) []

/-- The test `original.match(/^v\d/)`. -/
def startsVDigit (s : Str) : Bool :=
  match s with
  | 'v' :: c :: _ => c.isDigit
  | _ => false

/-- The tie-break comparator of `normalizeTags`: a `v<digit>`-prefixed
original sorts first; among equals the shorter original sorts first. -/
def cmpTagInfo (a b : TagInfo) : Int :=
  if startsVDigit a.original && !startsVDigit b.original then -1
  else if !startsVDigit a.original && startsVDigit b.original then 1
  else (a.original.length : Int) - b.original.length

/-- `infos.sort(cmp)[0]` for a stable sort: the first element minimal under
the comparator's total preorder. -/
def selectCanonical : List TagInfo → TagInfo
  | [] => ⟨[], [], []⟩
  | x :: xs => xs.foldl (fun best y => if cmpTagInfo y best < 0 then y else best) x

/-- Stable insertion of `x` into a list sorted by the comparator: `x` lands
after every element it does not strictly precede. -/
def insertSortedBy (cmp : Str → Str → Int) (x : Str) : List Str → List Str
  | [] => [x]
  | y :: ys => if cmp x y < 0 then x :: y :: ys else y :: insertSortedBy cmp x ys

/-- A stable comparator sort (`Array.prototype.sort` is stable). -/
def sortByCmp (cmp : Str → Str → Int) (l : List Str) : List Str :=
  l.foldl (fun acc x => insertSortedBy cmp x acc) []

/-- `normalizeTags` from `parser.ts`. -/
def normalizeTags (tags : List Str) : TagMap :=
  let vm := buildVersionMap tags
  let canon := vm.map (fun p => (p.1, selectCanonical p.2))
  ⟨sortByCmp semverCompareStr (canon.map Prod.fst), canon⟩

/-- `isPreRelease` from `parser.ts`. -/
def isPreRelease (version : Str) : Bool :=
  match semverParse version with
  | some p => !p.prerelease.isEmpty
  | none => false

/-!
## The release assembler (`cli.ts`)

The git collaborator calls (`getCommits`, `getTagDate`) are abstracted as
oracle functions from the canonical original tag.
-/

/-- A release group. -/
structure TagChangelog where
  tag : Str
  displayTag : Str
  originalTag : Str
  date : Str
  commits : List ConventionalCommit
deriving DecidableEq

/-- The assembler's walk state: the shared deduplication set, the emitted
groups, and the pending pre-release accumulator pair. -/
structure AsmState where
  seen : DedupSet
  changelogs : List TagChangelog
  pendingCommits : List ConventionalCommit
  pendingTagInfo : Option (Str × Str × Str)

/-- `tagMap.tags.get(version)!`: inside the walk the version is always a
key, so the junk fallback is never reached. -/
def lookupTag (m : List (Str × TagInfo)) (v : Str) : TagInfo :=
  match m.find? (fun p => p.1 == v) with
  | some p => p.2
  | none => ⟨[], [], []⟩

/-- One iteration of the assembler loop in `run`. -/
def processVersion (commitsAt : Str → List RawCommit) (dateAt : Str → Str)
    (tagsMap : List (Str × TagInfo)) (st : AsmState) (version : Str) : AsmState :=
  let tagInfo := lookupTag tagsMap version
  let date := dateAt tagInfo.original
  let conventionalCommits := (commitsAt tagInfo.original).filterMap parseConventionalCommit
  let dd := dedupeCommits conventionalCommits st.seen
  if isPreRelease version then
    { seen := dd.2,
      changelogs := st.changelogs,
      pendingCommits := st.pendingCommits ++ dd.1,
      pendingTagInfo := match st.pendingTagInfo with
        | some i => some i
        | none => some (tagInfo.display, tagInfo.original, date) }
  else
    { seen := dd.2,
      changelogs := st.changelogs ++
        [⟨version, tagInfo.display, tagInfo.original, date, st.pendingCommits ++ dd.1⟩],
      pendingCommits := [],
      pendingTagInfo := none }

/-- The assembler of `run`: walk the normalized versions in order, then
flush a trailing pre-release chain. -/
def assembleChangelogs (tagMap : TagMap) (commitsAt : Str → List RawCommit)
    (dateAt : Str → Str) : List TagChangelog :=
  let st := tagMap.versions.foldl (processVersion commitsAt dateAt tagMap.tags)
    ⟨[], [], [], none⟩
  match st.pendingTagInfo with
  | some i =>
    if st.pendingCommits.length > 0 then
      st.changelogs ++ [⟨stripLeadingV i.1, i.1, i.2.1, i.2.2, st.pendingCommits⟩]
    else st.changelogs
  | none => st.changelogs

/-!
## The version-bump advisor (`bump.ts`)
-/

/-- `BumpResult` from `bump.ts`. -/
structure BumpResult where
  currentVersion : Str
  nextVersion : Str
  bumpType : BumpType
  hasBreaking : Bool
  hasFeatures : Bool
  hasFixes : Bool
deriving DecidableEq

/-- The capture of `\d+\.\d+\.\d+` preceded by an optional greedy `v`,
matched at the start of `s`. -/
def matchTripleCoreAt (s : Str) : Option Str :=
  match s with
  | 'v' :: t =>
    match matchTriple t with
    | some p => some p.1
    | none =>
      match matchTriple s with
      | some p => some p.1
      | none => none
  | _ =>
    match matchTriple s with
    | some p => some p.1
    | none => none

/-- Unanchored leftmost search for `v?(\d+\.\d+\.\d+)`. -/
def firstTripleCore : Str → Option Str
  | [] => none
  | c :: rest =>
    match matchTripleCoreAt (c :: rest) with
    | some r => some r
    | none => firstTripleCore rest

/-- `extractVersionFromTag` from `bump.ts`: `tag.match(/v?(\d+\.\d+\.\d+)/)`
with a `"0.0.0"` fallback. -/
def extractVersionFromTag (tag : Str) : Str :=
  match firstTripleCore tag with
  | some v => v
  | none => ("0.0.0").data

/-- `suggestNextVersion` from `bump.ts`. -/
def suggestNextVersion (commits : List RawCommit) (lastTag : Option Str) : BumpResult :=
  let currentVersion := match lastTag with
    | some t => extractVersionFromTag t
    | none => ("0.0.0").data
  let isPrerelease := match lastTag with
    | some t => t.contains '-'
    | none => false
  let ccs := commits.filterMap parseConventionalCommit
  let hasBreaking := ccs.any (fun c => c.breaking)
  let hasFeatures := ccs.any (fun c => c.type = ("feat").data)
  let hasFixes := ccs.any (fun c => c.type = ("fix").data || c.type = ("perf").data)
  let bumpType :=
    if hasBreaking then
      match semverParse currentVersion with
      | some p => if p.major = 0 then BumpType.minor else BumpType.major
      | none => BumpType.major
    else if hasFeatures then BumpType.minor
    else if hasFixes then BumpType.patch
    else BumpType.none
  let nextVersion :=
    if isPrerelease && bumpType = BumpType.patch then currentVersion
    else if bumpType = BumpType.none then currentVersion
    else
      match semverIncStr currentVersion bumpType with
      | some v => v
      | none => currentVersion
  ⟨currentVersion, nextVersion, bumpType, hasBreaking, hasFeatures, hasFixes⟩

/-- The suffix normalization `suffix.replace` with an anchored hyphen
pattern: drop one leading hyphen. -/
def stripLeadingHyphen (s : Str) : Str :=
  match s with
  | '-' :: t => t
  | _ => s

/-- `s.replace(/\.\d+$/, "")`: drop a trailing `.`-plus-digits run. -/
def stripTrailingDotNum (s : Str) : Str :=
  let r := s.reverse
  let ds := r.takeWhile Char.isDigit
  if ds ≠ [] ∧ (r.drop ds.length).head? = some ('.')
  then (r.drop (ds.length + 1)).reverse
  else s

/-- `parseInt` on an all-digit string: the mathematical value of the
digits, rounded to the nearest double. -/
def jsParseIntDigits (s : Str) : Nat := roundToDouble (natOfDigits s)

/-- The gap from the integer-valued double `n` up to the next double.
Below `2^53` the true gap is at most one; it is taken as one here because
the gaps only ever decide which integers round to `n`, and sub-integer
gaps never contain another integer. -/
def dblGapAbove (n : Nat) : Nat :=
  if n < 2 ^ 53 then 1 else 2 ^ (log2floor n - 52)

/-- The gap from the integer-valued double `n` down to the previous double
(half the upward gap when `n` sits at the bottom of its binade). -/
def dblGapBelow (n : Nat) : Nat :=
  if n ≤ 2 ^ 53 then 1
  else if n = 2 ^ log2floor n then 2 ^ (log2floor n - 53)
  else 2 ^ (log2floor n - 52)

/-- Whether the significand of the integer-valued double `n` is even
(decides round-half ties toward `n`). -/
def dblMantissaEven (n : Nat) : Bool :=
  n / dblGapAbove n % 2 = 0

/-- Whether the integer `d` rounds to the integer-valued double `n` under
round-to-nearest, ties-to-even.  Everything is scaled by two so the
half-gap interval endpoints stay integral; an endpoint tie goes to `n`
exactly when its significand is even (the neighbouring double's is then
odd). -/
def roundsTo (d n : Nat) : Bool :=
  (2 * d < 2 * n + dblGapAbove n
    || (2 * d = 2 * n + dblGapAbove n && dblMantissaEven n))
  && (2 * n < 2 * d + dblGapBelow n
    || (2 * n = 2 * d + dblGapBelow n && dblMantissaEven n))

/-- The round-trip candidates with `k` significant digits for the double
`n` whose decimal expansion has `L` digits: the two nearest multiples of
`10^(L-k)`.  When both round back to `n` the closer wins, a tie preferring
the even significand (the ECMAScript `Number::toString` digit search). -/
def jsShortestAt (n L k : Nat) : Option Nat :=
  let p := 10 ^ (L - k)
  let s0 := n / p
  let okLo := decide (10 ^ (k - 1) ≤ s0) && roundsTo (s0 * p) n
  let okHi := decide (s0 + 1 < 10 ^ k) && roundsTo ((s0 + 1) * p) n
  if okLo && okHi then
    if (s0 + 1) * p - n < n - s0 * p then some ((s0 + 1) * p)
    else if n - s0 * p < (s0 + 1) * p - n then some (s0 * p)
    else if s0 % 2 = 0 then some (s0 * p) else some ((s0 + 1) * p)
  else if okLo then some (s0 * p)
  else if okHi then some ((s0 + 1) * p)
  else none

/-- The integer ECMAScript prints for the integer-valued double `n`: the
decimal with the fewest significant digits that rounds back to `n`.  The
search over the digit counts always succeeds at the full width, where the
exact expansion round-trips, so the fallback is never reached. -/
def jsShortest (n : Nat) : Nat :=
  let L := (natToStr n).length
  match (List.range L).findSome? (fun i => jsShortestAt n L (i + 1)) with
  | some m => m
  | none => n

/-- ECMAScript `Number::toString` on a nonnegative integer-valued double:
below `10^21` the shortest round-trip integer is printed in full; from
`10^21` on, its significant digits appear in exponential notation
`d.dd…e+NN`. -/
def jsNumToString (n : Nat) : Str :=
  if n = 0 then [('0')]
  else
    let m := jsShortest n
    if n < 10 ^ 21 then natToStr m
    else
      let ds := natToStr m
      let sig := (ds.reverse.dropWhile (fun c => c = '0')).reverse
      (match sig with
       | [] => [('0')]
       | [d] => [d]
       | d :: rest => d :: '.' :: rest) ++ 'e' :: '+' :: natToStr (ds.length - 1)

/-- The anchored pattern `^v?<base>-<suffixBase>\.(\d+)$` (both inserts are
regex-escaped in the source, hence literal), returning the counter parsed
by `parseInt` — rounded to a double once the digits exceed `2^53`. -/
def matchPrereleaseTag (base suffixBase t : Str) : Option Nat :=
  let core (u : Str) : Option Nat :=
    let lit := base ++ '-' :: suffixBase ++ [('.')]
    if lit.isPrefixOf u then
      let ds := u.drop lit.length
      if decide (ds ≠ []) && ds.all Char.isDigit then some (jsParseIntDigits ds) else none
    else none
  match t with
  | 'v' :: rest =>
    match core rest with
    | some n => some n
    | none => core t
  | _ => core t

/-- `getNextPrereleaseVersion` from `bump.ts`.  The counters compared by
the loop are doubles, `maxNum + 1` is float addition (the exact sum
re-rounded, which at `2^53` can collapse back to `maxNum`), and the
template literal stringifies the result with `Number::toString`. -/
def getNextPrereleaseVersion (baseVersion suffix : Str) (allTags : List Str) : Str :=
  let suffixBase := stripTrailingDotNum (stripLeadingHyphen suffix)
  let maxNum := allTags.foldl (fun m t =>
    match matchPrereleaseTag baseVersion suffixBase t with
    | some n => if n > m then n else m
    | none => m) 0
  baseVersion ++ '-' :: suffixBase ++ '.' :: jsNumToString (roundToDouble (maxNum + 1))

/-!
## Claims about the release assembler
-/

/-- C1: over the normalized sequence of `["v1.0.0-rc.1", "v1.0.0"]` — the
versions `["1.0.0-rc.1", "1.0.0"]` — with the pre-release contributing
`fix: a` and the stable tag contributing `feat: b`, the assembler emits
exactly one `TagChangelog`, carrying the stable version's label, display
tag, original tag and date, and the full accumulated commit list
`[fix: a, feat: b]` in walk order. -/
theorem claim_C1 (h1 h2 : Str) (dateAt : Str → Str) :
    assembleChangelogs (normalizeTags [("v1.0.0-rc.1").data, ("v1.0.0").data])
      (fun t =>
        if t = ("v1.0.0-rc.1").data then [⟨h1, ("fix: a").data, []⟩]
        else if t = ("v1.0.0").data then [⟨h2, ("feat: b").data, []⟩]
        else [])
      dateAt
    = [⟨("1.0.0").data, ("v1.0.0").data, ("v1.0.0").data, dateAt (("v1.0.0").data),
        [⟨h1, ("fix").data, none, ("a").data, ("fix: a").data, false⟩,
         ⟨h2, ("feat").data, none, ("b").data, ("feat: b").data, false⟩]⟩] := by
  rfl

/-- C4: a trailing pre-release chain never followed by a stable version is
flushed as exactly one final `TagChangelog` carrying the identity captured
from the first pre-release of the chain, its version label being that
display tag with the leading `v` stripped: first for the single tag
`v1.0.0-rc.1` with `feat: a`, then for the chain
`["v1.0.0-rc.1", "v1.0.0-rc.2"]`. -/
theorem claim_C4 (ha hb : Str) (dateAt : Str → Str) :
    (assembleChangelogs (normalizeTags [("v1.0.0-rc.1").data])
      (fun t => if t = ("v1.0.0-rc.1").data then [⟨ha, ("feat: a").data, []⟩] else [])
      dateAt
    = [⟨("1.0.0-rc.1").data, ("v1.0.0-rc.1").data, ("v1.0.0-rc.1").data,
        dateAt (("v1.0.0-rc.1").data),
        [⟨ha, ("feat").data, none, ("a").data, ("feat: a").data, false⟩]⟩])
    ∧
    (assembleChangelogs (normalizeTags [("v1.0.0-rc.1").data, ("v1.0.0-rc.2").data])
      (fun t =>
        if t = ("v1.0.0-rc.1").data then [⟨ha, ("fix: a").data, []⟩]
        else if t = ("v1.0.0-rc.2").data then [⟨hb, ("feat: b").data, []⟩]
        else [])
      dateAt
    = [⟨("1.0.0-rc.1").data, ("v1.0.0-rc.1").data, ("v1.0.0-rc.1").data,
        dateAt (("v1.0.0-rc.1").data),
        [⟨ha, ("fix").data, none, ("a").data, ("fix: a").data, false⟩,
         ⟨hb, ("feat").data, none, ("b").data, ("feat: b").data, false⟩]⟩]) :=
  ⟨rfl, rfl⟩

/-- Counterexample to C10 as stated: the tag `release-candidate` has no
extractable `MAJOR.MINOR.PATCH` substring, yet the advisor does not behave
as with no prior tag: its hyphen makes the tag count as a pre-release, so
a fix-only commit list leaves the suggested next version at the `0.0.0`
baseline where the no-tag path suggests `0.0.1`. -/
theorem claim_C10_counterexample :
    firstTripleCore (("release-candidate").data) = none ∧
    (suggestNextVersion [⟨("h").data, ("fix: a").data, []⟩]
        (some (("release-candidate").data))).nextVersion = ("0.0.0").data ∧
    (suggestNextVersion [⟨("h").data, ("fix: a").data, []⟩] none).nextVersion
      = ("0.0.1").data ∧
    suggestNextVersion [⟨("h").data, ("fix: a").data, []⟩]
        (some (("release-candidate").data))
      ≠ suggestNextVersion [⟨("h").data, ("fix: a").data, []⟩] none :=
  ⟨rfl, rfl, rfl, by decide⟩

/-- C10 (amended): a last tag with no extractable `MAJOR.MINOR.PATCH`
substring never fails — `"0.0.0"` is silently used and reported as the
current version — but it behaves exactly as if no prior tag existed only
when the tag is hyphen-free (such as `"foo"`); a hyphen in the tag routes
patch bumps through the pre-release collapse, unlike the no-tag path. -/
theorem claim_C10_amended (commits : List RawCommit) (t : Str)
    (hext : firstTripleCore t = none) :
    (suggestNextVersion commits (some t)).currentVersion = ("0.0.0").data ∧
    (t.contains '-' = false →
      suggestNextVersion commits (some t) = suggestNextVersion commits none) := by
  have hcv : extractVersionFromTag t = ("0.0.0").data := by
    unfold extractVersionFromTag
    rw [hext]
  constructor
  · simp only [suggestNextVersion]
    rw [hcv]
  · intro hdash
    simp only [suggestNextVersion, hcv, hdash]

/-- Witness for the amended C10 at the tag `"foo"` of the claim. -/
theorem claim_C10_amended_witness :
    (suggestNextVersion [] (some (("foo").data))).currentVersion = ("0.0.0").data ∧
    suggestNextVersion [] (some (("foo").data)) = suggestNextVersion [] none := by
  have h := claim_C10_amended [] (("foo").data) (by decide)
  exact ⟨h.1, h.2 (by decide)⟩

/-!
## Claims about the classifier (C2)
-/

/-- The body split at every line terminator (so the piece boundaries are
exactly the positions where `^` matches in multiline mode). -/
def splitLines : Str → List Str
  | [] => [[]]
  | c :: rest =>
    if lineTerm c then [] :: splitLines rest
    else
      match splitLines rest with
      | [] => [[c]]
      | h :: t => (c :: h) :: t

/-- Modelled from the claim's wording: the `!` marker appearing directly
before the colon that terminates the type/scope header of the subject. -/
def headerBangOf (s : Str) : Bool :=
  match matchTypeTok s with
  | none => false
  | some p =>
    match matchScopeTok p.2 with
    | none => false
    | some q =>
      match q.2 with
      | '!' :: ':' :: _ => true
      | _ => false

lemma hasBangColon_cons (c : Char) (r : Str) :
    hasBangColon (c :: r) = ((decide (c = '!') && (r.head? == some (':'))) || hasBangColon r) := by
  rcases r with _ | ⟨c2, r2⟩
  · by_cases h : c = '!' <;> simp [hasBangColon, h]
  · rcases r2 with _ | ⟨c3, r3⟩
    · by_cases h1 : c = '!' <;> by_cases h2 : c2 = ':' <;> by_cases h3 : c = ')' <;>
        by_cases h4 : c2 = '!' <;> simp [hasBangColon, *]
    · by_cases h1 : c = '!' <;> by_cases h2 : c2 = ':' <;> by_cases h3 : c = ')' <;>
        by_cases h4 : c2 = '!' <;> by_cases h5 : c3 = ':' <;> simp [hasBangColon, *]

/-- The unanchored bang test succeeds exactly when the subject contains the
substring `!:`. -/
lemma hasBangColon_iff {s : Str} : hasBangColon s = true ↔ ['!', ':'] <:+: s := by
  induction s with
  | nil => simp [hasBangColon]
  | cons c rest ih =>
    rw [hasBangColon_cons]
    simp only [List.infix_cons_iff, Bool.or_eq_true, Bool.and_eq_true, decide_eq_true_eq,
      beq_iff_eq, ih]
    constructor
    · rintro (⟨hc, hh⟩ | h)
      · subst hc
        rcases rest with _ | ⟨d, r⟩
        · simp at hh
        · simp at hh
          subst hh
          exact Or.inl (by simp)
      · exact Or.inr h
    · rintro (h | h)
      · rcases h with ⟨t, ht⟩
        left
        rcases rest with _ | ⟨d, r⟩
        · simp at ht
        · simp only [List.cons_append] at ht
          cases ht
          simp
      · exact Or.inr h

/-- Lowercasing fixes line terminators (they are not uppercase letters). -/
lemma toLower_lineTerm {c : Char} (h : lineTerm c = true) : Char.toLower c = c := by
  unfold Char.toLower
  rw [if_neg]
  intro hc
  simp only [lineTerm, Bool.or_eq_true, decide_eq_true_eq] at h
  rcases h with ((h | h) | h) | h
  · subst h; exact absurd hc (by decide)
  · subst h; exact absurd hc (by decide)
  · omega
  · omega

/-- A character whose lowercasing lands in a terminator-free pattern is not
a line terminator. -/
lemma nonterm_of_toLower_mem {q pat : Str} (hq : toLowerStr q = pat)
    (hpat : ∀ d ∈ pat, lineTerm d = false) {c : Char} (hc : c ∈ q) :
    lineTerm c = false := by
  by_contra hct
  have hct' : lineTerm c = true := by revert hct; cases lineTerm c <;> simp
  have hmem : Char.toLower c ∈ pat := hq ▸ List.mem_map_of_mem Char.toLower hc
  rw [toLower_lineTerm hct'] at hmem
  rw [hpat c hmem] at hct'
  cases hct'

/-- `startsWithCI` as a structural decomposition. -/
lemma startsWithCI_iff {p s : Str} :
    startsWithCI p s = true ↔ ∃ q rest, s = q ++ rest ∧ toLowerStr q = p := by
  constructor
  · intro h
    refine ⟨s.take p.length, s.drop p.length, (s.take_append_drop p.length).symm, ?_⟩
    simpa [startsWithCI] using h
  · rintro ⟨q, rest, rfl, hq⟩
    have hlen : q.length = p.length := by
      rw [← hq]; simp [toLowerStr]
    have htake : (q ++ rest).take p.length = q := List.take_left' hlen
    simp [startsWithCI, htake, hq]

/-- `breakingChangeAt` as a structural decomposition of the examined
16-character window. -/
lemma breakingChangeAt_iff {s : Str} :
    breakingChangeAt s = true ↔
      ∃ (q1 : Str) (c : Char) (q2 rest : Str),
        s = q1 ++ c :: (q2 ++ rest) ∧ toLowerStr q1 = ("breaking").data ∧
        (c = ' ' ∨ c = '-') ∧ toLowerStr q2 = ("change:").data := by
  constructor
  · intro h
    unfold breakingChangeAt at h
    rcases hd : s.drop 8 with _ | ⟨c, r⟩
    · rw [hd] at h; cases h
    · rw [hd] at h
      simp only [Bool.and_eq_true] at h
      obtain ⟨⟨h1, h2⟩, h3⟩ := h
      obtain ⟨q1, rest1, hs1, hq1⟩ := startsWithCI_iff.mp h1
      obtain ⟨q2, rest2, hs2, hq2⟩ := startsWithCI_iff.mp h3
      have hq1len : q1.length = 8 := by
        have := congrArg List.length hq1
        simpa [toLowerStr] using this
      have hrest1 : rest1 = c :: r := by
        have : s.drop 8 = rest1 := by
          rw [hs1, ← hq1len, List.drop_left]
        rw [hd] at this; exact this.symm
      refine ⟨q1, c, q2, rest2, ?_, hq1, ?_, hq2⟩
      · rw [hs1, hrest1, hs2]
      · simpa using h2
  · rintro ⟨q1, c, q2, rest, rfl, hq1, hc, hq2⟩
    have hq1len : q1.length = 8 := by
      have := congrArg List.length hq1
      simpa [toLowerStr] using this
    have hdrop : (q1 ++ c :: (q2 ++ rest)).drop 8 = c :: (q2 ++ rest) := by
      rw [← hq1len, List.drop_left]
    unfold breakingChangeAt
    rw [hdrop]
    simp only [Bool.and_eq_true]
    refine ⟨⟨?_, by simpa using hc⟩, ?_⟩
    · exact startsWithCI_iff.mpr ⟨q1, c :: (q2 ++ rest), rfl, hq1⟩
    · exact startsWithCI_iff.mpr ⟨q2, rest, rfl, hq2⟩

/-- The current line: everything up to the first line terminator. -/
def firstLine (s : Str) : Str := s.takeWhile (fun c => !lineTerm c)

/-- The 16-character window examined by `breakingChangeAt` never spans a
line terminator, so the test only sees the current line. -/
lemma breakingChangeAt_firstLine (s : Str) :
    breakingChangeAt s = breakingChangeAt (firstLine s) := by
  by_cases h : breakingChangeAt s = true
  · rw [h]
    obtain ⟨q1, c, q2, rest, hs, hq1, hc, hq2⟩ := breakingChangeAt_iff.mp h
    have hq1nt : ∀ x ∈ q1, (fun c => !lineTerm c) x = true := by
      intro x hx
      simp [nonterm_of_toLower_mem hq1 (by decide) hx]
    have hcnt : (fun c => !lineTerm c) c = true := by
      rcases hc with rfl | rfl <;> decide
    have hq2nt : ∀ x ∈ q2, (fun c => !lineTerm c) x = true := by
      intro x hx
      simp [nonterm_of_toLower_mem hq2 (by decide) hx]
    have : firstLine s = q1 ++ c :: (q2 ++ rest.takeWhile (fun c => !lineTerm c)) := by
      rw [hs]
      unfold firstLine
      have e1 : List.takeWhile (fun x => !lineTerm x) (q1 ++ c :: (q2 ++ rest))
          = q1 ++ List.takeWhile (fun x => !lineTerm x) (c :: (q2 ++ rest)) :=
        List.takeWhile_append_of_pos hq1nt
      have e2 : List.takeWhile (fun x => !lineTerm x) (c :: (q2 ++ rest))
          = c :: List.takeWhile (fun x => !lineTerm x) (q2 ++ rest) :=
        List.takeWhile_cons_of_pos hcnt
      have e3 : List.takeWhile (fun x => !lineTerm x) (q2 ++ rest)
          = q2 ++ List.takeWhile (fun x => !lineTerm x) rest :=
        List.takeWhile_append_of_pos hq2nt
      rw [e1, e2, e3]
    exact (breakingChangeAt_iff.mpr
      ⟨q1, c, q2, rest.takeWhile (fun c => !lineTerm c), this, hq1, hc, hq2⟩).symm
  · by_cases h2 : breakingChangeAt (firstLine s) = true
    · exfalso
      apply h
      obtain ⟨q1, c, q2, rest, hs, hq1, hc, hq2⟩ := breakingChangeAt_iff.mp h2
      apply breakingChangeAt_iff.mpr
      refine ⟨q1, c, q2, rest ++ s.dropWhile (fun c => !lineTerm c), ?_, hq1, hc, hq2⟩
      conv_lhs => rw [← List.takeWhile_append_dropWhile (p := fun c => !lineTerm c) (l := s)]
      rw [show s.takeWhile (fun c => !lineTerm c) = firstLine s from rfl, hs]
      simp
    · rw [Bool.eq_false_iff.mpr h, Bool.eq_false_iff.mpr h2]

lemma splitLines_cons_term {c : Char} (rest : Str) (h : lineTerm c = true) :
    splitLines (c :: rest) = [] :: splitLines rest := by
  simp only [splitLines, h, if_true]

lemma splitLines_cons_nonterm {c : Char} {rest : Str} {hd : Str} {t : List Str}
    (h : lineTerm c = false) (hr : splitLines rest = hd :: t) :
    splitLines (c :: rest) = (c :: hd) :: t := by
  simp only [splitLines, h, hr]
  rfl

lemma splitLines_ne_nil (s : Str) : splitLines s ≠ [] := by
  cases s with
  | nil => simp [splitLines]
  | cons c rest =>
    by_cases h : lineTerm c = true
    · rw [splitLines_cons_term rest h]; simp
    · have h' : lineTerm c = false := by revert h; cases lineTerm c <;> simp
      rcases hr : splitLines rest with _ | ⟨hd, t⟩
      · exact absurd hr (splitLines_ne_nil rest)
      · rw [splitLines_cons_nonterm h' hr]; simp

lemma splitLines_head (s : Str) : (splitLines s).head? = some (firstLine s) := by
  induction s with
  | nil => simp [splitLines, firstLine]
  | cons c rest ih =>
    by_cases h : lineTerm c = true
    · have hfl : firstLine (c :: rest) = [] := by
        unfold firstLine
        rw [List.takeWhile_cons_of_neg (by simp [h])]
      rw [splitLines_cons_term rest h, hfl]; rfl
    · have h' : lineTerm c = false := by revert h; cases lineTerm c <;> simp
      rcases hr : splitLines rest with _ | ⟨hd, t⟩
      · exact absurd hr (splitLines_ne_nil rest)
      · have hhd : hd = firstLine rest := by
          rw [hr] at ih; simpa using ih

        have hfl : firstLine (c :: rest) = c :: firstLine rest := by
          unfold firstLine
          rw [List.takeWhile_cons_of_pos (by simp [h'])]
        rw [splitLines_cons_nonterm h' hr, hfl, hhd]; rfl

/-- The multiline footer scan finds a match exactly when some line starts
with the breaking-change marker. -/
lemma footerScanAux_spec (s : Str) :
    (footerScanAux true s = true ↔ ∃ l ∈ splitLines s, breakingChangeAt l = true) ∧
    (footerScanAux false s = true ↔ ∃ l ∈ (splitLines s).tail, breakingChangeAt l = true) := by
  induction s with
  | nil =>
    constructor
    · simp [footerScanAux, splitLines]
      decide
    · simp [footerScanAux, splitLines]
  | cons c rest ih =>
    have hsplit : ∀ (hnt : lineTerm c = false), ∃ hd t, splitLines rest = hd :: t ∧
        splitLines (c :: rest) = (c :: hd) :: t ∧ hd = firstLine rest := by
      intro hnt
      rcases hr : splitLines rest with _ | ⟨hd, t⟩
      · exact absurd hr (splitLines_ne_nil rest)
      · refine ⟨hd, t, rfl, splitLines_cons_nonterm hnt hr, ?_⟩
        have := splitLines_head rest
        rw [hr] at this
        simpa using this
    by_cases hc : lineTerm c = true
    · have hbca : breakingChangeAt (c :: rest) = false := by
        rw [breakingChangeAt_firstLine]
        unfold firstLine
        rw [List.takeWhile_cons_of_neg (by simp [hc])]
        decide
      have hsl : splitLines (c :: rest) = [] :: splitLines rest :=
        splitLines_cons_term rest hc
      constructor
      · rw [show footerScanAux true (c :: rest) =
            (breakingChangeAt (c :: rest) || footerScanAux (lineTerm c) rest) from rfl]
        rw [hbca, hc, hsl]
        simp only [Bool.false_or]
        rw [(ih).1]
        constructor
        · rintro ⟨l, hl, hb⟩
          exact ⟨l, List.mem_cons_of_mem _ hl, hb⟩
        · rintro ⟨l, hl, hb⟩
          rcases List.mem_cons.mp hl with rfl | hl
          · cases hb
          · exact ⟨l, hl, hb⟩
      · rw [show footerScanAux false (c :: rest) = footerScanAux (lineTerm c) rest from by
          simp [footerScanAux]]
        rw [hc, hsl]
        exact (ih).1
    · have hc' : lineTerm c = false := by revert hc; cases lineTerm c <;> simp
      obtain ⟨hd, t, hr, hsl, hhd⟩ := hsplit hc'
      constructor
      · rw [show footerScanAux true (c :: rest) =
            (breakingChangeAt (c :: rest) || footerScanAux (lineTerm c) rest) from rfl]
        rw [hc', hsl]
        have hwin : breakingChangeAt (c :: rest) = breakingChangeAt (c :: hd) := by
          rw [breakingChangeAt_firstLine]
          unfold firstLine
          rw [List.takeWhile_cons_of_pos (by simp [hc'])]
          rw [hhd]
          rfl
        rw [hwin]
        rw [Bool.or_eq_true, (ih).2, hr]
        simp only [List.tail_cons]
        constructor
        · rintro (hb | ⟨l, hl, hb⟩)
          · exact ⟨c :: hd, List.mem_cons_self _ _, hb⟩
          · exact ⟨l, List.mem_cons_of_mem _ hl, hb⟩
        · rintro ⟨l, hl, hb⟩
          rcases List.mem_cons.mp hl with rfl | hl
          · exact Or.inl hb
          · exact Or.inr ⟨l, hl, hb⟩
      · rw [show footerScanAux false (c :: rest) = footerScanAux (lineTerm c) rest from by
          simp [footerScanAux]]
        rw [hc', hsl]
        simp only [List.tail_cons]
        rw [(ih).2, hr]
        rfl

/-- Counterexample to C2 as stated: in `fix: a!: b` the `!:` occurs only
inside the description text — there is no bang before the header colon and
no breaking footer — yet the parsed commit's breaking flag is `true`. -/
theorem claim_C2_counterexample :
    parseConventionalCommit ⟨("h").data, ("fix: a!: b").data, []⟩
      = some ⟨("h").data, ("fix").data, none, ("a!: b").data, ("fix: a!: b").data, true⟩ ∧
    ¬((true : Bool) = true ↔
       (headerBangOf (("fix: a!: b").data) = true ∨ hasBreakingFooter [] = true)) := by
  constructor
  · rfl
  · decide

/-- C2 (amended): for every raw commit whose subject matches the
conventional grammar, the parsed breaking flag is true iff the subject
contains the substring `!:` anywhere — not only directly before the header
colon — or the body contains a line beginning with `BREAKING CHANGE:` or
`BREAKING-CHANGE:` case-insensitively. -/
theorem claim_C2_amended (rc : RawCommit) (c : ConventionalCommit)
    (h : parseConventionalCommit rc = some c) :
    c.breaking = true ↔
      (['!', ':'] <:+: rc.subject ∨ ∃ l ∈ splitLines rc.body, breakingChangeAt l = true) := by
  have hbreak : c.breaking = (hasBangColon rc.subject || hasBreakingFooter rc.body) := by
    unfold parseConventionalCommit at h
    split at h
    · cases h
    · split at h
      · cases h
      · split at h
        · cases h
        · split at h
          · cases h
          · cases h
            rfl
  rw [hbreak, Bool.or_eq_true, hasBangColon_iff]
  rw [show hasBreakingFooter rc.body = footerScanAux true rc.body from rfl,
    (footerScanAux_spec rc.body).1]

/-- Witness for the amended C2 at `feat!: x` (bang present in the header)
and at the counterexample's own shape. -/
theorem claim_C2_amended_witness :
    (['!', ':'] <:+: ("feat!: x").data ∨
      ∃ l ∈ splitLines ([] : Str), breakingChangeAt l = true) := by
  have h := claim_C2_amended ⟨("h").data, ("feat!: x").data, []⟩
    ⟨("h").data, ("feat").data, none, ("x").data, ("feat!: x").data, true⟩ (by rfl)
  exact h.mp (by rfl)

/-!
## Claims about the version-bump advisor (C3, C6)
-/

lemma matchTriple_chars {s t r : Str} (h : matchTriple s = some (t, r)) :
    ∀ c ∈ t, c.isDigit = true ∨ c = '.' := by
  intro c hc
  unfold matchTriple at h
  dsimp only at h
  split at h
  · cases h
  · split at h
    · split at h
      · cases h
      · split at h
        · split at h
          · cases h
          · rename_i r2 _ r4 _
            cases h
            rcases List.mem_append.mp hc with hc | hc
            · rcases List.mem_append.mp hc with hc | hc
              · exact Or.inl (List.mem_takeWhile_imp hc)
              · rcases List.mem_cons.mp hc with rfl | hc
                · exact Or.inr rfl
                · exact Or.inl (List.mem_takeWhile_imp hc)
            · rcases List.mem_cons.mp hc with rfl | hc
              · exact Or.inr rfl
              · exact Or.inl (List.mem_takeWhile_imp hc)
        · cases h
    · cases h

lemma matchTripleCoreAt_spec {s v : Str} (h : matchTripleCoreAt s = some v) :
    ∃ x r, matchTriple x = some (v, r) := by
  unfold matchTripleCoreAt at h
  split at h
  · rename_i t
    rcases h1 : matchTriple t with _ | p
    · rw [h1] at h
      rcases h2 : matchTriple ('v' :: t) with _ | q
      · rw [h2] at h; cases h
      · rw [h2] at h
        cases h
        exact ⟨'v' :: t, q.2, by rw [h2]⟩
    · rw [h1] at h
      cases h
      exact ⟨t, p.2, by rw [h1]⟩
  · rename_i hnv
    rcases h2 : matchTriple s with _ | q
    · rw [h2] at h; cases h
    · rw [h2] at h
      cases h
      exact ⟨s, q.2, by rw [h2]⟩

lemma matchTripleCoreAt_chars {s v : Str} (h : matchTripleCoreAt s = some v) :
    ∀ c ∈ v, c.isDigit = true ∨ c = '.' := by
  obtain ⟨x, r, hx⟩ := matchTripleCoreAt_spec h
  exact matchTriple_chars hx

lemma firstTripleCore_chars {s v : Str} (h : firstTripleCore s = some v) :
    ∀ c ∈ v, c.isDigit = true ∨ c = '.' := by
  induction s with
  | nil => cases h
  | cons c0 rest ih =>
    unfold firstTripleCore at h
    split at h
    · cases h
      rename_i heq
      exact fun c hc => matchTripleCoreAt_chars heq c hc
    · exact ih h

lemma extractVersionFromTag_chars (tag : Str) :
    ∀ c ∈ extractVersionFromTag tag, c.isDigit = true ∨ c = '.' := by
  unfold extractVersionFromTag
  split
  · rename_i heq
    exact fun c hc => firstTripleCore_chars heq c hc
  · intro c hc
    rw [show ("0.0.0").data = ['0', '.', '0', '.', '0'] from rfl] at hc
    simp only [List.mem_cons, List.not_mem_nil, or_false] at hc
    rcases hc with rfl | rfl | rfl | rfl | rfl <;> simp

lemma splitAtFirst_eq_none_of_not_mem {c : Char} {s : Str} (h : c ∉ s) :
    splitAtFirst c s = none := by
  induction s with
  | nil => rfl
  | cons x xs ih =>
    have hx : ¬(x = c) := fun he => h (he ▸ List.mem_cons_self x xs)
    have ih' := ih (fun hm => h (List.mem_cons_of_mem x hm))
    simp [splitAtFirst, hx, ih']

lemma stripLeadingV_sublist {s : Str} {c : Char} (h : c ∈ stripLeadingV s) : c ∈ s := by
  unfold stripLeadingV at h
  split at h
  · exact List.mem_cons_of_mem _ h
  · exact h

/-- Parsing a string with no hyphen and no plus yields empty pre-release and
build components. -/
lemma semverParse_parts {s : Str} (h1 : '-' ∉ s) (h2 : '+' ∉ s) {p : SemVer}
    (hp : semverParse s = some p) : p.prerelease = [] ∧ p.build = [] := by
  unfold semverParse at hp
  split at hp
  · cases hp
  · dsimp only at hp
    rw [splitAtFirst_eq_none_of_not_mem (fun hm => h2 (stripLeadingV_sublist hm))] at hp
    dsimp only at hp
    rw [splitAtFirst_eq_none_of_not_mem (fun hm => h1 (stripLeadingV_sublist hm))] at hp
    dsimp only at hp
    split at hp
    · split at hp
      · cases hp
        exact ⟨rfl, rfl⟩
      · cases hp
    · cases hp

lemma currentVersion_chars (commits : List RawCommit) (lastTag : Option Str) :
    ∀ ch ∈ (suggestNextVersion commits lastTag).currentVersion,
      ch.isDigit = true ∨ ch = '.' := by
  rcases lastTag with _ | t
  · intro ch hch
    rw [show (suggestNextVersion commits none).currentVersion = ("0.0.0").data from rfl] at hch
    rw [show ("0.0.0").data = ['0', '.', '0', '.', '0'] from rfl] at hch
    simp only [List.mem_cons, List.not_mem_nil, or_false] at hch
    rcases hch with rfl | rfl | rfl | rfl | rfl <;> simp
  · intro ch hch
    rw [show (suggestNextVersion commits (some t)).currentVersion
        = extractVersionFromTag t from rfl] at hch
    exact extractVersionFromTag_chars t ch hch

/-- The baseline version the advisor extracts always parses with empty
pre-release and build components (it is digits and dots only). -/
lemma currentVersion_parts (commits : List RawCommit) (lastTag : Option Str) {p : SemVer}
    (hp : semverParse (suggestNextVersion commits lastTag).currentVersion = some p) :
    p.prerelease = [] ∧ p.build = [] := by
  refine semverParse_parts ?_ ?_ hp
  · intro hm
    rcases currentVersion_chars commits lastTag '-' hm with h | h
    · exact absurd h (by decide)
    · exact absurd h (by decide)
  · intro hm
    rcases currentVersion_chars commits lastTag '+' hm with h | h
    · exact absurd h (by decide)
    · exact absurd h (by decide)

/-- Counterexample to C3 as stated: the commit list `[fix: a]` against the
dirty non-pre-release tag `release-1.0.0` computes category patch but
returns the baseline `1.0.0` unchanged, not the patch increment `1.0.1`
the claim requires for non-pre-release last tags. -/
theorem claim_C3_counterexample :
    (suggestNextVersion [⟨("h").data, ("fix: a").data, []⟩]
        (some (("release-1.0.0").data))).bumpType = BumpType.patch ∧
    (suggestNextVersion [⟨("h").data, ("fix: a").data, []⟩]
        (some (("release-1.0.0").data))).nextVersion = ("1.0.0").data ∧
    ("1.0.0").data ≠ ("1.0.1").data :=
  ⟨rfl, rfl, by decide⟩

/-- C3 (amended): with fix or perf commits present and neither breaking nor
feature commits, the bump category is patch; the suggested next version is
the baseline with the pre-release component stripped whenever the last
tag's string contains a hyphen anywhere — which includes dirty
non-pre-release tags such as `release-1.0.0` — and, when the last tag
contains no hyphen, the patch-incremented baseline if the baseline parses
as a semantic version and the baseline unchanged if it does not (the
`semver.inc` null fallback, met e.g. by `v01.2.3`, whose extracted
baseline `01.2.3` fails the strict parse). -/
theorem claim_C3_amended (commits : List RawCommit) (lastTag : Str)
    (hfix : (commits.filterMap parseConventionalCommit).any
      (fun c => c.type = ("fix").data || c.type = ("perf").data) = true)
    (hbr : (commits.filterMap parseConventionalCommit).any (fun c => c.breaking) = false)
    (hft : (commits.filterMap parseConventionalCommit).any
      (fun c => c.type = ("feat").data) = false) :
    (suggestNextVersion commits (some lastTag)).bumpType = BumpType.patch ∧
    (lastTag.contains '-' = true →
      (suggestNextVersion commits (some lastTag)).nextVersion
        = (suggestNextVersion commits (some lastTag)).currentVersion) ∧
    (lastTag.contains '-' = false → ∀ p : SemVer,
      semverParse (suggestNextVersion commits (some lastTag)).currentVersion = some p →
      (suggestNextVersion commits (some lastTag)).nextVersion
        = semverRender ⟨p.major, p.minor, p.patch + 1, [], []⟩) ∧
    (lastTag.contains '-' = false →
      semverParse (suggestNextVersion commits (some lastTag)).currentVersion = none →
      (suggestNextVersion commits (some lastTag)).nextVersion
        = (suggestNextVersion commits (some lastTag)).currentVersion) := by
  refine ⟨?_, ?_, ?_, ?_⟩
  · simp only [suggestNextVersion]
    rw [hbr, hft, hfix]
    simp
  · intro hdash
    simp only [suggestNextVersion]
    rw [hbr, hft, hfix, hdash]
    simp
  · intro hdash p hp
    have hIncEq : semverIncStr
        (suggestNextVersion commits (some lastTag)).currentVersion BumpType.patch
        = some (semverRender ⟨p.major, p.minor, p.patch + 1, [], p.build⟩) := by
      unfold semverIncStr
      rw [hp]
      simp only [semverIncSem]
      rw [if_pos (currentVersion_parts commits (some lastTag) hp).1]
    simp only [suggestNextVersion] at hIncEq ⊢
    rw [hbr, hft, hfix, hdash]
    simp only [Bool.false_eq_true, if_false, if_true, Bool.false_and, Bool.and_false,
      reduceIte]
    rw [hIncEq, if_neg (show ¬(BumpType.patch = BumpType.none) from by decide)]
    rfl
  · intro hdash hnone
    have hIncEq : semverIncStr
        (suggestNextVersion commits (some lastTag)).currentVersion BumpType.patch
        = Option.none := by
      unfold semverIncStr
      rw [hnone]
    simp only [suggestNextVersion] at hIncEq ⊢
    rw [hbr, hft, hfix, hdash]
    simp only [Bool.false_eq_true, if_false, if_true, Bool.false_and, Bool.and_false,
      reduceIte]
    rw [hIncEq, if_neg (show ¬(BumpType.patch = BumpType.none) from by decide)]

/-- Witness for the amended C3: `[fix: a]` against `v1.0.0` yields category
patch and next version `1.0.1`, and against the hyphen-free but unparsable
`v01.2.3` it leaves the baseline `01.2.3` unchanged. -/
theorem claim_C3_amended_witness :
    ((suggestNextVersion [⟨("h").data, ("fix: a").data, []⟩]
        (some (("v1.0.0").data))).bumpType = BumpType.patch ∧
     (suggestNextVersion [⟨("h").data, ("fix: a").data, []⟩]
        (some (("v1.0.0").data))).nextVersion = ("1.0.1").data) ∧
    (suggestNextVersion [⟨("h").data, ("fix: a").data, []⟩]
        (some (("v01.2.3").data))).nextVersion = ("01.2.3").data := by
  constructor
  · have h := claim_C3_amended [⟨("h").data, ("fix: a").data, []⟩] (("v1.0.0").data)
      (by decide) (by decide) (by decide)
    refine ⟨h.1, ?_⟩
    have h2 := h.2.2.1 (by decide) ⟨1, 0, 0, [], []⟩ (by decide)
    rw [h2]
    decide
  · have h := claim_C3_amended [⟨("h").data, ("fix: a").data, []⟩] (("v01.2.3").data)
      (by decide) (by decide) (by decide)
    have h2 := h.2.2.2 (by decide) (by decide)
    rw [h2]
    decide

/-- C6: with a breaking commit present, the advisor bumps major — the next
version is the major increment of the (validly parsed) baseline — unless
the baseline's major component is 0, in which case it bumps minor instead. -/
theorem claim_C6 (commits : List RawCommit) (lastTag : Option Str) (p : SemVer)
    (hbr : (commits.filterMap parseConventionalCommit).any (fun c => c.breaking) = true)
    (hp : semverParse (suggestNextVersion commits lastTag).currentVersion = some p) :
    (p.major = 0 →
      (suggestNextVersion commits lastTag).bumpType = BumpType.minor ∧
      (suggestNextVersion commits lastTag).nextVersion
        = semverRender ⟨p.major, p.minor + 1, 0, [], []⟩) ∧
    (p.major ≠ 0 →
      (suggestNextVersion commits lastTag).bumpType = BumpType.major ∧
      (suggestNextVersion commits lastTag).nextVersion
        = semverRender ⟨p.major + 1, 0, 0, [], []⟩) := by
  have hpre : p.prerelease = [] := (currentVersion_parts commits lastTag hp).1
  have hIncMinor : semverIncStr
      (suggestNextVersion commits lastTag).currentVersion BumpType.minor
      = some (semverRender ⟨p.major, p.minor + 1, 0, [], p.build⟩) := by
    unfold semverIncStr
    rw [hp]
    simp only [semverIncSem]
    rw [if_pos (Or.inr hpre)]
  have hIncMajor : semverIncStr
      (suggestNextVersion commits lastTag).currentVersion BumpType.major
      = some (semverRender ⟨p.major + 1, 0, 0, [], p.build⟩) := by
    unfold semverIncStr
    rw [hp]
    simp only [semverIncSem]
    rw [if_pos (Or.inr (Or.inr hpre))]
  simp only [suggestNextVersion] at hp hIncMinor hIncMajor ⊢
  rw [hbr, hp]
  simp only [if_true, reduceIte]
  constructor
  · intro hmaj
    rw [if_pos hmaj]
    refine ⟨rfl, ?_⟩
    simp only [show (BumpType.minor = BumpType.patch) = False from by simp,
      show (BumpType.minor = BumpType.none) = False from by simp,
      decide_False, if_false, Bool.and_false, Bool.false_eq_true, reduceIte]
    rw [hIncMinor]
    rfl
  · intro hmaj
    rw [if_neg hmaj]
    refine ⟨rfl, ?_⟩
    simp only [show (BumpType.major = BumpType.patch) = False from by simp,
      show (BumpType.major = BumpType.none) = False from by simp,
      decide_False, if_false, Bool.and_false, Bool.false_eq_true, reduceIte]
    rw [hIncMajor]
    rfl

/-- Witness for C6 at the claim's examples: `[feat!: x]` against `v0.1.0`
yields `0.2.0` with category minor, and against `v1.0.0` yields `2.0.0`
with category major. -/
theorem claim_C6_witness :
    ((suggestNextVersion [⟨("h").data, ("feat!: x").data, []⟩]
        (some (("v0.1.0").data))).bumpType = BumpType.minor ∧
     (suggestNextVersion [⟨("h").data, ("feat!: x").data, []⟩]
        (some (("v0.1.0").data))).nextVersion = ("0.2.0").data) ∧
    ((suggestNextVersion [⟨("h").data, ("feat!: x").data, []⟩]
        (some (("v1.0.0").data))).bumpType = BumpType.major ∧
     (suggestNextVersion [⟨("h").data, ("feat!: x").data, []⟩]
        (some (("v1.0.0").data))).nextVersion = ("2.0.0").data) := by
  constructor
  · have h := (claim_C6 [⟨("h").data, ("feat!: x").data, []⟩] (some (("v0.1.0").data))
      ⟨0, 1, 0, [], []⟩ (by decide) (by decide)).1 rfl
    refine ⟨h.1, ?_⟩
    rw [h.2]
    decide
  · have h := (claim_C6 [⟨("h").data, ("feat!: x").data, []⟩] (some (("v1.0.0").data))
      ⟨1, 0, 0, [], []⟩ (by decide) (by decide)).2 (by decide)
    refine ⟨h.1, ?_⟩
    rw [h.2]
    decide

/-!
## Claim C7: the pre-release counter
-/

lemma prereleaseFold_ge (f : Str → Option Nat) (tags : List Str) (acc : Nat) :
    acc ≤ tags.foldl (fun m t => match f t with
      | some n => if n > m then n else m
      | none => m) acc := by
  induction tags generalizing acc with
  | nil => exact le_refl acc
  | cons t ts ih =>
    rw [List.foldl_cons]
    try dsimp only
    refine le_trans ?_ (ih _)
    rcases f t with _ | n
    · exact le_refl acc
    · try dsimp only
      by_cases hn : n > acc
      · rw [if_pos hn]; omega
      · rw [if_neg hn]

lemma prereleaseFold_bound (f : Str → Option Nat) (tags : List Str) (acc : Nat) :
    ∀ t ∈ tags, ∀ k, f t = some k →
      k ≤ tags.foldl (fun m t => match f t with
        | some n => if n > m then n else m
        | none => m) acc := by
  induction tags generalizing acc with
  | nil => intro t ht; cases ht
  | cons t ts ih =>
    intro u hu k hk
    rcases List.mem_cons.mp hu with rfl | hu
    · rw [List.foldl_cons]
      try dsimp only
      refine le_trans ?_ (prereleaseFold_ge f ts _)
      rw [hk]
      try dsimp only
      by_cases hn : k > acc
      · rw [if_pos hn]
      · rw [if_neg hn]; omega
    · rw [List.foldl_cons]
      exact ih _ u hu k hk

lemma prereleaseFold_attained (f : Str → Option Nat) (tags : List Str) (acc : Nat) :
    tags.foldl (fun m t => match f t with
      | some n => if n > m then n else m
      | none => m) acc = acc ∨
    ∃ t ∈ tags, f t = some (tags.foldl (fun m t => match f t with
      | some n => if n > m then n else m
      | none => m) acc) := by
  induction tags generalizing acc with
  | nil => exact Or.inl rfl
  | cons t ts ih =>
    rcases hf : f t with _ | n
    · have hstep : (t :: ts).foldl (fun m t => match f t with
          | some n => if n > m then n else m
          | none => m) acc = ts.foldl (fun m t => match f t with
          | some n => if n > m then n else m
          | none => m) acc := by
        rw [List.foldl_cons]
        try dsimp only
        rw [hf]
      rcases ih acc with h | ⟨u, hu, hk⟩
      · rw [hstep, h]; exact Or.inl rfl
      · rw [hstep]; exact Or.inr ⟨u, List.mem_cons_of_mem t hu, hk⟩
    · by_cases hn : n > acc
      · have hstep : (t :: ts).foldl (fun m t => match f t with
            | some n => if n > m then n else m
            | none => m) acc = ts.foldl (fun m t => match f t with
            | some n => if n > m then n else m
            | none => m) n := by
          rw [List.foldl_cons]
          try dsimp only
          rw [hf]
          try dsimp only
          rw [if_pos hn]
        rcases ih n with h | ⟨u, hu, hk⟩
        · rw [hstep, h]
          exact Or.inr ⟨t, List.mem_cons_self t ts, hf⟩
        · rw [hstep]
          exact Or.inr ⟨u, List.mem_cons_of_mem t hu, hk⟩
      · have hstep : (t :: ts).foldl (fun m t => match f t with
            | some n => if n > m then n else m
            | none => m) acc = ts.foldl (fun m t => match f t with
            | some n => if n > m then n else m
            | none => m) acc := by
          rw [List.foldl_cons]
          try dsimp only
          rw [hf]
          try dsimp only
          rw [if_neg hn]
        rcases ih acc with h | ⟨u, hu, hk⟩
        · rw [hstep, h]; exact Or.inl rfl
        · rw [hstep]; exact Or.inr ⟨u, List.mem_cons_of_mem t hu, hk⟩

lemma roundsTo_small {d m : Nat} (hm : m < 2 ^ 53) (h : roundsTo d m = true) : d = m := by
  have h1 : dblGapAbove m = 1 := if_pos hm
  have h2 : dblGapBelow m = 1 := if_pos (le_of_lt hm)
  unfold roundsTo at h
  rw [h1, h2] at h
  simp only [Bool.and_eq_true, Bool.or_eq_true, decide_eq_true_eq] at h
  obtain ⟨hu, hl⟩ := h
  rcases hu with hu | ⟨hu, -⟩ <;> rcases hl with hl | ⟨hl, -⟩ <;> omega

lemma jsShortestAt_small {m L k : Nat} (hm : m < 2 ^ 53) {v : Nat}
    (h : jsShortestAt m L k = some v) : v = m := by
  unfold jsShortestAt at h
  dsimp only at h
  split at h
  · rename_i hboth
    simp only [Bool.and_eq_true, decide_eq_true_eq] at hboth
    have e1 := roundsTo_small hm hboth.1.2
    have e2 := roundsTo_small hm hboth.2.2
    have hp : 0 < 10 ^ (L - k) := Nat.pos_pow_of_pos _ (by omega)
    have hstep : (m / 10 ^ (L - k) + 1) * 10 ^ (L - k)
        = m / 10 ^ (L - k) * 10 ^ (L - k) + 10 ^ (L - k) := by ring
    omega
  · rename_i hnb
    split at h
    · rename_i hlo
      simp only [Bool.and_eq_true, decide_eq_true_eq] at hlo
      injection h with hv
      rw [← hv]
      exact roundsTo_small hm hlo.2
    · split at h
      · rename_i hhi
        simp only [Bool.and_eq_true, decide_eq_true_eq] at hhi
        injection h with hv
        rw [← hv]
        exact roundsTo_small hm hhi.2
      · cases h

lemma findSome?_some_mem {α β : Type} {l : List α} {f : α → Option β} {b : β}
    (h : l.findSome? f = some b) : ∃ a ∈ l, f a = some b := by
  induction l with
  | nil => cases h
  | cons x xs ih =>
    rw [List.findSome?_cons] at h
    rcases hf : f x with _ | y
    · rw [hf] at h
      obtain ⟨a, ha, hfa⟩ := ih h
      exact ⟨a, List.mem_cons_of_mem x ha, hfa⟩
    · rw [hf] at h
      cases h
      exact ⟨x, List.mem_cons_self x xs, hf⟩

/-- Below `2^53` (inclusive) the shortest round-trip decimal of an integer
double is its exact expansion: the rounding interval holds no other
integer (and at `2^53` itself only the strictly farther `2^53 + 1`). -/
lemma jsShortest_small {m : Nat} (hm : m ≤ 2 ^ 53) : jsShortest m = m := by
  rcases Nat.lt_or_ge m (2 ^ 53) with hlt | hge
  · unfold jsShortest
    dsimp only
    rcases h : (List.range ((natToStr m).length)).findSome?
        (fun i => jsShortestAt m (natToStr m).length (i + 1)) with _ | v
    · rfl
    · obtain ⟨i, -, hfa⟩ := findSome?_some_mem h
      exact jsShortestAt_small hlt hfa
  · have he : m = 2 ^ 53 := by omega
    subst he
    decide

lemma jsRender_small {n : Nat} (h : n ≤ 2 ^ 53) (h0 : n ≠ 0) :
    jsNumToString n = natToStr n := by
  unfold jsNumToString
  rw [if_neg h0]
  dsimp only
  rw [if_pos (show n < 10 ^ 21 from lt_of_le_of_lt h (by norm_num))]
  rw [jsShortest_small h]

/-- C7 (amended): `getNextPrereleaseVersion` normalizes the suffix by
dropping a leading hyphen and a trailing dot-digits run and determines the
maximum matched counter `N` (zero when no tag matches, tags of a different
base or suffix being ignored) — but the counters are `parseInt` doubles
and `N + 1` is float arithmetic, so the returned `<base>-<suffixName>.<N+1>`
carries the exact decimal of `N + 1` only while `N` stays below `2^53`;
beyond that the increment and the parse both round.  Concretely
`("1.0.0", "-rc", [v1.0.0-rc.1, v1.0.0-rc.5])` gives `1.0.0-rc.6` and an
empty tag list gives `1.0.0-rc.1`. -/
theorem claim_C7_amended :
    (∀ (base suffix : Str) (tags : List Str),
      ∃ n : Nat,
        (n < 2 ^ 53 →
          getNextPrereleaseVersion base suffix tags
            = base ++ '-' :: stripTrailingDotNum (stripLeadingHyphen suffix)
                ++ '.' :: natToStr (n + 1)) ∧
        (∀ t ∈ tags, ∀ k,
          matchPrereleaseTag base (stripTrailingDotNum (stripLeadingHyphen suffix)) t
            = some k → k ≤ n) ∧
        (n = 0 ∨ ∃ t ∈ tags,
          matchPrereleaseTag base (stripTrailingDotNum (stripLeadingHyphen suffix)) t
            = some n)) ∧
    getNextPrereleaseVersion (("1.0.0").data) (("-rc").data)
        [("v1.0.0-rc.1").data, ("v1.0.0-rc.5").data] = ("1.0.0-rc.6").data ∧
    getNextPrereleaseVersion (("1.0.0").data) (("-rc").data) [] = ("1.0.0-rc.1").data := by
  refine ⟨?_, by decide, by decide⟩
  intro base suffix tags
  refine ⟨tags.foldl (fun m t =>
      match matchPrereleaseTag base (stripTrailingDotNum (stripLeadingHyphen suffix)) t with
      | some n => if n > m then n else m
      | none => m) 0, ?_, ?_, ?_⟩
  · intro hn
    have hdef : getNextPrereleaseVersion base suffix tags
        = base ++ '-' :: stripTrailingDotNum (stripLeadingHyphen suffix)
            ++ '.' :: jsNumToString (roundToDouble ((tags.foldl (fun m t =>
              match matchPrereleaseTag base
                  (stripTrailingDotNum (stripLeadingHyphen suffix)) t with
              | some n => if n > m then n else m
              | none => m) 0) + 1)) := rfl
    rw [hdef, roundToDouble_small (by omega), jsRender_small (by omega) (by omega)]
  · exact prereleaseFold_bound _ tags 0
  · rcases prereleaseFold_attained
      (matchPrereleaseTag base (stripTrailingDotNum (stripLeadingHyphen suffix))) tags 0 with
      h | h
    · exact Or.inl h
    · exact Or.inr h

/-- Counterexample to C7 as stated: for the tag
`v1.0.0-rc.9007199254740993` the matched counter parses to the double
`2^53 = 9007199254740992`, float `+ 1` ties back to the same even value,
and the program returns the existing maximum
`1.0.0-rc.9007199254740992` instead of a `<N+1>` counter. -/
theorem claim_C7_counterexample :
    matchPrereleaseTag (("1.0.0").data) (("rc").data)
        (("v1.0.0-rc.9007199254740993").data) = some 9007199254740992 ∧
    getNextPrereleaseVersion (("1.0.0").data) (("-rc").data)
        [("v1.0.0-rc.9007199254740993").data]
      = ("1.0.0-rc.9007199254740992").data ∧
    ("1.0.0-rc.9007199254740992").data ≠ ("1.0.0-rc.9007199254740994").data :=
  ⟨by decide, by decide, by decide⟩

/-- Witness for the amended C7: instantiating the general clause at the
claim's example bounds the matched counters by the fold result. -/
theorem claim_C7_witness :
    ∃ n : Nat,
      (n < 2 ^ 53 →
        getNextPrereleaseVersion (("1.0.0").data) (("-rc").data)
            [("v1.0.0-rc.1").data, ("v1.0.0-rc.5").data]
          = ("1.0.0").data ++ '-' :: stripTrailingDotNum (stripLeadingHyphen (("-rc").data))
              ++ '.' :: natToStr (n + 1)) ∧
      (∀ t ∈ [("v1.0.0-rc.1").data, ("v1.0.0-rc.5").data], ∀ k,
        matchPrereleaseTag (("1.0.0").data)
          (stripTrailingDotNum (stripLeadingHyphen (("-rc").data))) t = some k → k ≤ n) ∧
      (n = 0 ∨ ∃ t ∈ [("v1.0.0-rc.1").data, ("v1.0.0-rc.5").data],
        matchPrereleaseTag (("1.0.0").data)
          (stripTrailingDotNum (stripLeadingHyphen (("-rc").data))) t = some n) :=
  claim_C7_amended.1 (("1.0.0").data) (("-rc").data)
    [("v1.0.0-rc.1").data, ("v1.0.0-rc.5").data]

/-!
## Digit strings

Facts about `natOfDigits` on numeric-identifier strings: the value of a
leading-zero-free digit string determines the string.
-/

lemma isDigit_bounds {c : Char} (h : c.isDigit = true) :
    48 ≤ c.toNat ∧ c.toNat ≤ 57 := by
  simp only [Char.isDigit, Bool.and_eq_true, decide_eq_true_eq] at h
  obtain ⟨h1, h2⟩ := h
  rw [GE.ge, UInt32.le_def, BitVec.le_def] at h1
  rw [UInt32.le_def, BitVec.le_def] at h2
  exact ⟨h1, h2⟩

lemma zeroChar_toNat : ('0').toNat = 48 := rfl

lemma natOfDigits_lt {s : Str} (h : ∀ c ∈ s, c.isDigit = true) :
    natOfDigits s < 10 ^ s.length := by
  induction s with
  | nil => simp [natOfDigits]
  | cons c cs ih =>
    have hc : c.isDigit = true := h c (List.mem_cons_self c cs)
    have hd : c.toNat - ('0').toNat < 10 := by
      obtain ⟨h1, h2⟩ := isDigit_bounds hc
      rw [zeroChar_toNat]
      omega
    have ih' := ih (fun x hx => h x (List.mem_cons_of_mem c hx))
    calc natOfDigits (c :: cs)
        = (c.toNat - ('0').toNat) * 10 ^ cs.length + natOfDigits cs := rfl
      _ < (c.toNat - ('0').toNat) * 10 ^ cs.length + 10 ^ cs.length := by omega
      _ = (c.toNat - ('0').toNat + 1) * 10 ^ cs.length := by ring
      _ ≤ 10 * 10 ^ cs.length := by
          apply Nat.mul_le_mul_right
          omega
      _ = 10 ^ (cs.length + 1) := by ring
      _ = 10 ^ (c :: cs).length := by simp

lemma natOfDigits_ge {c : Char} {cs : Str} (hc : c.isDigit = true) (h0 : c ≠ '0') :
    10 ^ cs.length ≤ natOfDigits (c :: cs) := by
  have hd : 1 ≤ c.toNat - ('0').toNat := by
    obtain ⟨h1, h2⟩ := isDigit_bounds hc
    have hne : c.toNat ≠ 48 := by
      intro he
      apply h0
      calc c = Char.ofNat c.toNat := (Char.ofNat_toNat c).symm
        _ = Char.ofNat 48 := by rw [he]
        _ = '0' := rfl
    rw [zeroChar_toNat]
    omega
  calc 10 ^ cs.length = 1 * 10 ^ cs.length := by ring
    _ ≤ (c.toNat - ('0').toNat) * 10 ^ cs.length := Nat.mul_le_mul_right _ hd
    _ ≤ natOfDigits (c :: cs) := Nat.le_add_right _ _

lemma digit_char_inj {c d : Char} (hc : c.isDigit = true) (hd : d.isDigit = true)
    (h : c.toNat - ('0').toNat = d.toNat - ('0').toNat) : c = d := by
  obtain ⟨hc1, hc2⟩ := isDigit_bounds hc
  obtain ⟨hd1, hd2⟩ := isDigit_bounds hd
  rw [zeroChar_toNat] at h
  have : c.toNat = d.toNat := by omega
  calc c = Char.ofNat c.toNat := (Char.ofNat_toNat c).symm
    _ = Char.ofNat d.toNat := by rw [this]
    _ = d := Char.ofNat_toNat d

lemma natOfDigits_inj_of_length {s t : Str} (hs : ∀ c ∈ s, c.isDigit = true)
    (ht : ∀ c ∈ t, c.isDigit = true) (hl : s.length = t.length)
    (h : natOfDigits s = natOfDigits t) : s = t := by
  induction s generalizing t with
  | nil =>
    cases t with
    | nil => rfl
    | cons d ds => simp at hl
  | cons c cs ih =>
    cases t with
    | nil => simp at hl
    | cons d ds =>
      have hlen : cs.length = ds.length := by simpa using hl
      have h1 : natOfDigits cs < 10 ^ cs.length :=
        natOfDigits_lt (fun x hx => hs x (List.mem_cons_of_mem c hx))
      have h2 : natOfDigits ds < 10 ^ ds.length :=
        natOfDigits_lt (fun x hx => ht x (List.mem_cons_of_mem d hx))
      have he : (c.toNat - ('0').toNat) * 10 ^ cs.length + natOfDigits cs
          = (d.toNat - ('0').toNat) * 10 ^ ds.length + natOfDigits ds := h
      rw [← hlen] at he h2
      have hdig : c.toNat - ('0').toNat = d.toNat - ('0').toNat := by
        by_contra hne
        rcases Nat.lt_or_ge (c.toNat - ('0').toNat) (d.toNat - ('0').toNat) with hlt | hge
        · have : (c.toNat - ('0').toNat) * 10 ^ cs.length + natOfDigits cs
              < (d.toNat - ('0').toNat) * 10 ^ cs.length := by
            calc (c.toNat - ('0').toNat) * 10 ^ cs.length + natOfDigits cs
                < (c.toNat - ('0').toNat) * 10 ^ cs.length + 10 ^ cs.length := by omega
              _ = (c.toNat - ('0').toNat + 1) * 10 ^ cs.length := by ring
              _ ≤ (d.toNat - ('0').toNat) * 10 ^ cs.length :=
                  Nat.mul_le_mul_right _ (by omega)
          omega
        · have hlt : (d.toNat - ('0').toNat) < (c.toNat - ('0').toNat) := by omega
          have : (d.toNat - ('0').toNat) * 10 ^ cs.length + natOfDigits ds
              < (c.toNat - ('0').toNat) * 10 ^ cs.length := by
            calc (d.toNat - ('0').toNat) * 10 ^ cs.length + natOfDigits ds
                < (d.toNat - ('0').toNat) * 10 ^ cs.length + 10 ^ cs.length := by omega
              _ = (d.toNat - ('0').toNat + 1) * 10 ^ cs.length := by ring
              _ ≤ (c.toNat - ('0').toNat) * 10 ^ cs.length :=
                  Nat.mul_le_mul_right _ (by omega)
          omega
      have hchar : c = d := digit_char_inj (hs c (List.mem_cons_self c cs))
        (ht d (List.mem_cons_self d ds)) hdig
      have he2 : (d.toNat - ('0').toNat) * 10 ^ cs.length + natOfDigits cs
          = (d.toNat - ('0').toNat) * 10 ^ cs.length + natOfDigits ds := by
        have := he
        rw [hdig] at this
        exact this
      have htail : cs = ds := ih (fun x hx => hs x (List.mem_cons_of_mem c hx))
        (fun x hx => ht x (List.mem_cons_of_mem d hx)) hlen (by omega)
      rw [hchar, htail]

/-- The value of a valid numeric identifier determines the identifier. -/
lemma natOfDigits_inj {s t : Str} (hs : isNumericIdStr s = true)
    (ht : isNumericIdStr t = true) (h : natOfDigits s = natOfDigits t) : s = t := by
  simp only [isNumericIdStr, Bool.and_eq_true, decide_eq_true_eq, Bool.or_eq_true,
    List.all_eq_true, beq_iff_eq] at hs ht
  rcases s with _ | ⟨c, cs⟩
  · exact absurd rfl hs.1.1
  · rcases t with _ | ⟨d, ds⟩
    · exact absurd rfl ht.1.1
    · have hlen : (c :: cs).length = (d :: ds).length := by
        by_contra hne
        rcases Nat.lt_or_ge (c :: cs).length (d :: ds).length with hlt | hge
        · have hd0 : d ≠ '0' := by
            rcases ht.2 with hh | hh
            · intro he; apply hh; rw [he]; rfl
            · have : (d :: ds).length = 1 := by simpa using hh
              have : ds = [] := by
                cases ds
                · rfl
                · simp at this
              subst this
              simp only [List.length_cons, List.length_nil] at hlt
              omega
          have hub : natOfDigits (c :: cs) < 10 ^ (c :: cs).length :=
            natOfDigits_lt hs.1.2
          have hlb : 10 ^ ds.length ≤ natOfDigits (d :: ds) :=
            natOfDigits_ge (ht.1.2 d (List.mem_cons_self d ds)) hd0
          have hle : (c :: cs).length ≤ ds.length := by
            simp only [List.length_cons] at hlt ⊢
            omega
          have : (10 : Nat) ^ (c :: cs).length ≤ 10 ^ ds.length :=
            Nat.pow_le_pow_right (by omega) hle
          omega
        · rcases Nat.eq_or_lt_of_le hge with he | hlt
          · exact absurd he.symm hne
          · have hc0 : c ≠ '0' := by
              rcases hs.2 with hh | hh
              · intro he; apply hh; rw [he]; rfl
              · have : (c :: cs).length = 1 := by simpa using hh
                have : cs = [] := by
                  cases cs
                  · rfl
                  · simp at this
                subst this
                simp only [List.length_cons, List.length_nil] at hlt
                omega
            have hub : natOfDigits (d :: ds) < 10 ^ (d :: ds).length :=
              natOfDigits_lt ht.1.2
            have hlb : 10 ^ cs.length ≤ natOfDigits (c :: cs) :=
              natOfDigits_ge (hs.1.2 c (List.mem_cons_self c cs)) hc0
            have hle : (d :: ds).length ≤ cs.length := by
              simp only [List.length_cons] at hlt ⊢
              omega
            have : (10 : Nat) ^ (d :: ds).length ≤ 10 ^ cs.length :=
              Nat.pow_le_pow_right (by omega) hle
            omega
      exact natOfDigits_inj_of_length hs.1.2 ht.1.2 hlen h

/-!
## Order laws for the identifier comparison
-/

lemma strLt_irrefl (a : Str) : strLt a a = false := by
  induction a with
  | nil => rfl
  | cons c cs ih => simp [strLt, ih]

lemma strLt_asymm {a b : Str} (h : strLt a b = true) : strLt b a = false := by
  induction a generalizing b with
  | nil =>
    cases b with
    | nil => simpa [strLt] using h
    | cons d ds => simp [strLt]
  | cons c cs ih =>
    cases b with
    | nil => simp [strLt] at h
    | cons d ds =>
      simp only [strLt] at h ⊢
      by_cases hcd : c < d
      · rw [if_neg (Char.lt_asymm hcd), if_pos hcd]
      · rw [if_neg hcd] at h
        by_cases hdc : d < c
        · rw [if_pos hdc] at h; cases h
        · rw [if_neg hdc] at h
          rw [if_neg hdc, if_neg hcd]
          exact ih h

lemma strLt_trans {a b c : Str} (h1 : strLt a b = true) (h2 : strLt b c = true) :
    strLt a c = true := by
  induction a generalizing b c with
  | nil =>
    cases c with
    | nil =>
      cases b with
      | nil => simpa [strLt] using h1
      | cons d ds => simp [strLt] at h2
    | cons e es => simp [strLt]
  | cons x xs ih =>
    cases b with
    | nil => simp [strLt] at h1
    | cons y ys =>
      cases c with
      | nil => simp [strLt] at h2
      | cons z zs =>
        simp only [strLt] at h1 h2 ⊢
        by_cases hxy : x < y
        · by_cases hyz : y < z
          · rw [if_pos (Char.lt_trans hxy hyz)]
          · rw [if_neg hyz] at h2
            by_cases hzy : z < y
            · rw [if_pos hzy] at h2; cases h2
            · have hyzeq : y = z := Char.le_antisymm (Char.not_lt.mp hzy)
                (Char.not_lt.mp hyz)
              rw [if_pos (hyzeq ▸ hxy)]
        · rw [if_neg hxy] at h1
          by_cases hyx : y < x
          · rw [if_pos hyx] at h1; cases h1
          · rw [if_neg hyx] at h1
            have hxyeq : x = y := Char.le_antisymm (Char.not_lt.mp hyx)
              (Char.not_lt.mp hxy)
            subst hxyeq
            by_cases hxz : x < z
            · rw [if_pos hxz]
            · rw [if_neg hxz] at h2 ⊢
              by_cases hzx : z < x
              · rw [if_pos hzx] at h2; cases h2
              · rw [if_neg hzx] at h2 ⊢
                exact ih h1 h2

lemma strLt_eq_of_not {a b : Str} (h1 : strLt a b = false) (h2 : strLt b a = false) :
    a = b := by
  induction a generalizing b with
  | nil =>
    cases b with
    | nil => rfl
    | cons d ds => simp [strLt] at h1
  | cons c cs ih =>
    cases b with
    | nil => simp [strLt] at h2
    | cons d ds =>
      simp only [strLt] at h1 h2
      by_cases hcd : c < d
      · rw [if_pos hcd] at h1; cases h1
      · rw [if_neg hcd] at h1
        by_cases hdc : d < c
        · rw [if_pos hdc] at h2; cases h2
        · rw [if_neg hdc] at h1
          rw [if_neg hdc, if_neg (by exact hcd)] at h2
          have : c = d := Char.le_antisymm (Char.not_lt.mp hdc) (Char.not_lt.mp hcd)
          rw [this, ih h1 h2]

/-- A stored identifier arising from a valid pre-release identifier string. -/
def ValidPreId (i : PreId) : Prop :=
  ∃ s, isValidPreIdStr s = true ∧ i = mkPreId s

/-- A stored identifier whose numeric coercion is exact (below `2^53`).
A stored number always is; a stored all-digit string need not be, and two
distinct huge digit strings can then coerce to equal doubles. -/
def SmallPreId (i : PreId) : Prop :=
  preIdNumeric i = true → preIdVal i < 2 ^ 53

lemma preIdVal_mkPreId (s : Str) :
    preIdVal (mkPreId s) = roundToDouble (natOfDigits s) := by
  unfold mkPreId
  split
  · rename_i h
    simp only [Bool.and_eq_true, decide_eq_true_eq] at h
    have hsmall : natOfDigits s ≤ 2 ^ 53 := by
      have h2 := h.2
      unfold maxSafeInteger at h2
      omega
    simp [preIdVal, roundToDouble_small hsmall]
  · rfl

/-- An exact coercion pins the underlying digit value below `2^53`. -/
lemma small_val_exact {s : Str} (h : roundToDouble (natOfDigits s) < 2 ^ 53) :
    natOfDigits s ≤ 2 ^ 53 := by
  by_contra hgt
  have := roundToDouble_big (show 2 ^ 53 < natOfDigits s by omega)
  omega

lemma preIdNumeric_flags_ne {a b : PreId} (h : preIdNumeric a ≠ preIdNumeric b) :
    a ≠ b := fun he => h (he ▸ rfl)

lemma cid_num_num {a b : PreId} (ha : preIdNumeric a = true) (hb : preIdNumeric b = true) :
    compareIdentifiers a b =
      (if preIdVal a = preIdVal b then 0
       else if preIdVal a < preIdVal b then -1 else 1) := by
  simp [compareIdentifiers, ha, hb]

lemma cid_num_nonnum {a b : PreId} (ha : preIdNumeric a = true)
    (hb : preIdNumeric b = false) : compareIdentifiers a b = -1 := by
  have hne : a ≠ b := preIdNumeric_flags_ne (by rw [ha, hb]; simp)
  simp [compareIdentifiers, ha, hb, hne]

lemma cid_nonnum_num {a b : PreId} (ha : preIdNumeric a = false)
    (hb : preIdNumeric b = true) : compareIdentifiers a b = 1 := by
  have hne : a ≠ b := preIdNumeric_flags_ne (by rw [ha, hb]; simp)
  simp [compareIdentifiers, ha, hb, hne]

lemma nonnum_is_str {a : PreId} (ha : preIdNumeric a = false) : ∃ x, a = PreId.str x := by
  cases a with
  | num n => simp [preIdNumeric] at ha
  | str x => exact ⟨x, rfl⟩

lemma cid_nonnum_nonnum {x y : Str} (ha : preIdNumeric (PreId.str x) = false)
    (hb : preIdNumeric (PreId.str y) = false) :
    compareIdentifiers (PreId.str x) (PreId.str y) =
      (if x = y then 0 else if strLt x y then -1 else 1) := by
  by_cases hxy : x = y
  · simp [compareIdentifiers, ha, hb, hxy]
  · have hne : PreId.str x ≠ PreId.str y := by simpa using hxy
    simp [compareIdentifiers, ha, hb, hne, hxy]

lemma cid_refl (a : PreId) : compareIdentifiers a a = 0 := by
  by_cases ha : preIdNumeric a = true
  · rw [cid_num_num ha ha, if_pos rfl]
  · have ha' : preIdNumeric a = false := by revert ha; cases preIdNumeric a <;> simp
    obtain ⟨x, rfl⟩ := nonnum_is_str ha'
    rw [cid_nonnum_nonnum ha' ha', if_pos rfl]

lemma cid_flip (a b : PreId) : compareIdentifiers a b = -(compareIdentifiers b a) := by
  by_cases ha : preIdNumeric a = true <;> by_cases hb : preIdNumeric b = true
  · rw [cid_num_num ha hb, cid_num_num hb ha]
    rcases Nat.lt_trichotomy (preIdVal a) (preIdVal b) with h | h | h
    · rw [if_neg (by omega), if_pos h, if_neg (by omega), if_neg (by omega)]
    · rw [if_pos h, if_pos h.symm]
      decide
    · rw [if_neg (by omega), if_neg (by omega), if_neg (by omega), if_pos h]
      rfl
  · have hb' : preIdNumeric b = false := by revert hb; cases preIdNumeric b <;> simp
    rw [cid_num_nonnum ha hb', cid_nonnum_num hb' ha]
  · have ha' : preIdNumeric a = false := by revert ha; cases preIdNumeric a <;> simp
    rw [cid_nonnum_num ha' hb, cid_num_nonnum hb ha']
    rfl
  · have ha' : preIdNumeric a = false := by revert ha; cases preIdNumeric a <;> simp
    have hb' : preIdNumeric b = false := by revert hb; cases preIdNumeric b <;> simp
    obtain ⟨x, rfl⟩ := nonnum_is_str ha'
    obtain ⟨y, rfl⟩ := nonnum_is_str hb'
    rw [cid_nonnum_nonnum ha' hb', cid_nonnum_nonnum hb' ha']
    by_cases hxy : x = y
    · simp [hxy]
    · have hyx : ¬(y = x) := fun h => hxy h.symm
      by_cases hlt : strLt x y = true
      · have h2 : strLt y x = false := strLt_asymm hlt
        simp [hxy, hyx, hlt, h2]
      · have hlt' : strLt x y = false := by revert hlt; cases strLt x y <;> simp
        have hyx2 : strLt y x = true := by
          by_contra hc
          have h3 : strLt y x = false := by revert hc; cases strLt y x <;> simp
          exact hxy (strLt_eq_of_not hlt' h3)
        simp [hxy, hyx, hlt', hyx2]

/-- A valid identifier made of digits only satisfies the numeric grammar. -/
lemma valid_all_digits_numeric {s : Str} (hv : isValidPreIdStr s = true)
    (hd : s.all Char.isDigit = true) : isNumericIdStr s = true := by
  simp only [isValidPreIdStr, Bool.or_eq_true] at hv
  rcases hv with h | h
  · exact h
  · exfalso
    simp only [isNonNumericId, Bool.and_eq_true, List.any_eq_true,
      Bool.not_eq_true'] at h
    obtain ⟨-, c0, hc0, hcd⟩ := h
    simp only [List.all_eq_true] at hd
    have hdd := hd c0 hc0
    simp [hcd] at hdd

/-- On valid identifiers with exact numeric coercions the comparison is
zero only at equality (two distinct digit strings rounding to the same
double compare zero, so exactness cannot be dropped). -/
lemma cid_zero_eq {a b : PreId} (hva : ValidPreId a) (hvb : ValidPreId b)
    (hna : SmallPreId a) (hnb : SmallPreId b)
    (h : compareIdentifiers a b = 0) : a = b := by
  by_cases ha : preIdNumeric a = true <;> by_cases hb : preIdNumeric b = true
  · rw [cid_num_num ha hb] at h
    have hval : preIdVal a = preIdVal b := by
      by_contra hne
      rw [if_neg hne] at h
      by_cases hlt : preIdVal a < preIdVal b
      · rw [if_pos hlt] at h; cases h
      · rw [if_neg hlt] at h; cases h
    have hex_a : preIdVal a < 2 ^ 53 := hna ha
    have hex_b : preIdVal b < 2 ^ 53 := hnb hb
    obtain ⟨sa, hsa, rfl⟩ := hva
    obtain ⟨sb, hsb, rfl⟩ := hvb
    rw [preIdVal_mkPreId] at hex_a hex_b
    rw [preIdVal_mkPreId, preIdVal_mkPreId,
      roundToDouble_small (small_val_exact hex_a),
      roundToDouble_small (small_val_exact hex_b)] at hval
    unfold mkPreId at ha hb ⊢
    by_cases ca : ((decide (sa ≠ []) && sa.all Char.isDigit)
        && natOfDigits sa < maxSafeInteger) = true
      <;> by_cases cb : ((decide (sb ≠ []) && sb.all Char.isDigit)
        && natOfDigits sb < maxSafeInteger) = true
    · rw [if_pos ca, if_pos cb, hval]
    · rw [if_pos ca] at ha ⊢
      rw [if_neg cb] at hb ⊢
      exfalso
      simp only [preIdNumeric, Bool.and_eq_true, decide_eq_true_eq] at hb ca cb
      have hnb : natOfDigits sb < maxSafeInteger → False := fun hlt =>
        cb ⟨⟨hb.1, hb.2⟩, hlt⟩
      have hbound : maxSafeInteger ≤ natOfDigits sb := Nat.le_of_not_lt hnb
      have hlt : natOfDigits sa < maxSafeInteger := ca.2
      omega
    · rw [if_neg ca] at ha ⊢
      rw [if_pos cb] at hb ⊢
      exfalso
      simp only [preIdNumeric, Bool.and_eq_true, decide_eq_true_eq] at ha ca cb
      have hna : natOfDigits sa < maxSafeInteger → False := fun hlt =>
        ca ⟨⟨ha.1, ha.2⟩, hlt⟩
      have hbound : maxSafeInteger ≤ natOfDigits sa := Nat.le_of_not_lt hna
      have hlt : natOfDigits sb < maxSafeInteger := cb.2
      omega
    · rw [if_neg ca] at ha ⊢
      rw [if_neg cb] at hb ⊢
      simp only [preIdNumeric, Bool.and_eq_true, decide_eq_true_eq] at ha hb
      have hnuma : isNumericIdStr sa = true := valid_all_digits_numeric hsa ha.2
      have hnumb : isNumericIdStr sb = true := valid_all_digits_numeric hsb hb.2
      rw [natOfDigits_inj hnuma hnumb hval]
  · rw [cid_num_nonnum ha (by revert hb; cases preIdNumeric b <;> simp)] at h
    cases h
  · rw [cid_nonnum_num (by revert ha; cases preIdNumeric a <;> simp) hb] at h
    cases h
  · have ha' : preIdNumeric a = false := by revert ha; cases preIdNumeric a <;> simp
    have hb' : preIdNumeric b = false := by revert hb; cases preIdNumeric b <;> simp
    obtain ⟨x, rfl⟩ := nonnum_is_str ha'
    obtain ⟨y, rfl⟩ := nonnum_is_str hb'
    rw [cid_nonnum_nonnum ha' hb'] at h
    by_cases hxy : x = y
    · rw [hxy]
    · rw [if_neg hxy] at h
      by_cases hlt : strLt x y = true
      · rw [if_pos hlt] at h; cases h
      · rw [if_neg hlt] at h; cases h

lemma cid_le_trans {a b c : PreId} (h1 : compareIdentifiers a b ≤ 0)
    (h2 : compareIdentifiers b c ≤ 0) : compareIdentifiers a c ≤ 0 := by
  by_cases ha : preIdNumeric a = true <;> by_cases hb : preIdNumeric b = true <;>
    by_cases hc : preIdNumeric c = true
  · rw [cid_num_num ha hb] at h1
    rw [cid_num_num hb hc] at h2
    rw [cid_num_num ha hc]
    have v1 : preIdVal a ≤ preIdVal b := by
      by_contra hgt
      rw [if_neg (by omega), if_neg (by omega)] at h1
      omega
    have v2 : preIdVal b ≤ preIdVal c := by
      by_contra hgt
      rw [if_neg (by omega), if_neg (by omega)] at h2
      omega
    by_cases he : preIdVal a = preIdVal c
    · rw [if_pos he]
    · rw [if_neg he, if_pos (by omega)]
      omega
  · rw [cid_num_nonnum ha (by revert hc; cases preIdNumeric c <;> simp)]
    omega
  · exfalso
    rw [cid_nonnum_num (by revert hb; cases preIdNumeric b <;> simp) hc] at h2
    omega
  · rw [cid_num_nonnum ha (by revert hc; cases preIdNumeric c <;> simp)]
    omega
  · exfalso
    rw [cid_nonnum_num (by revert ha; cases preIdNumeric a <;> simp) hb] at h1
    omega
  · exfalso
    rw [cid_nonnum_num (by revert ha; cases preIdNumeric a <;> simp) hb] at h1
    omega
  · exfalso
    rw [cid_nonnum_num (by revert hb; cases preIdNumeric b <;> simp) hc] at h2
    omega
  · have ha' : preIdNumeric a = false := by revert ha; cases preIdNumeric a <;> simp
    have hb' : preIdNumeric b = false := by revert hb; cases preIdNumeric b <;> simp
    have hc' : preIdNumeric c = false := by revert hc; cases preIdNumeric c <;> simp
    obtain ⟨x, rfl⟩ := nonnum_is_str ha'
    obtain ⟨y, rfl⟩ := nonnum_is_str hb'
    obtain ⟨z, rfl⟩ := nonnum_is_str hc'
    rw [cid_nonnum_nonnum ha' hb'] at h1
    rw [cid_nonnum_nonnum hb' hc'] at h2
    rw [cid_nonnum_nonnum ha' hc']
    by_cases hxy : x = y
    · subst hxy
      by_cases hyz : x = z
      · rw [if_pos hyz]
      · rw [if_neg hyz] at h2 ⊢
        exact h2
    · rw [if_neg hxy] at h1
      by_cases hlt1 : strLt x y = true
      · by_cases hyz : y = z
        · subst hyz
          rw [if_neg hxy, if_pos hlt1]
          omega
        · rw [if_neg hyz] at h2
          by_cases hlt2 : strLt y z = true
          · have hxz : strLt x z = true := strLt_trans hlt1 hlt2
            have hxzne : x ≠ z := by
              intro he
              subst he
              rw [strLt_asymm hlt1] at hlt2
              cases hlt2
            rw [if_neg hxzne, if_pos hxz]
            omega
          · rw [if_neg hlt2] at h2
            omega
      · rw [if_neg hlt1] at h1
        omega

lemma cid_values (a b : PreId) : compareIdentifiers a b = -1 ∨
    compareIdentifiers a b = 0 ∨ compareIdentifiers a b = 1 := by
  by_cases ha : preIdNumeric a = true <;> by_cases hb : preIdNumeric b = true
  · rw [cid_num_num ha hb]
    by_cases he : preIdVal a = preIdVal b
    · rw [if_pos he]; simp
    · rw [if_neg he]
      by_cases hlt : preIdVal a < preIdVal b
      · rw [if_pos hlt]; simp
      · rw [if_neg hlt]; simp
  · rw [cid_num_nonnum ha (by revert hb; cases preIdNumeric b <;> simp)]; simp
  · rw [cid_nonnum_num (by revert ha; cases preIdNumeric a <;> simp) hb]; simp
  · have ha' : preIdNumeric a = false := by revert ha; cases preIdNumeric a <;> simp
    have hb' : preIdNumeric b = false := by revert hb; cases preIdNumeric b <;> simp
    obtain ⟨x, rfl⟩ := nonnum_is_str ha'
    obtain ⟨y, rfl⟩ := nonnum_is_str hb'
    rw [cid_nonnum_nonnum ha' hb']
    by_cases he : x = y
    · rw [if_pos he]; simp
    · rw [if_neg he]
      by_cases hlt : strLt x y = true
      · rw [if_pos hlt]; simp
      · rw [if_neg hlt]; simp

lemma cil_refl (l : List PreId) : cmpIdList l l = 0 := by
  induction l with
  | nil => rfl
  | cons x xs ih => simp [cmpIdList, ih]

lemma cil_flip (a b : List PreId) : cmpIdList a b = -(cmpIdList b a) := by
  induction a generalizing b with
  | nil => cases b <;> simp [cmpIdList]
  | cons x xs ih =>
    cases b with
    | nil => simp [cmpIdList]
    | cons y ys =>
      simp only [cmpIdList]
      by_cases hxy : x = y
      · subst hxy
        rw [if_pos rfl, if_pos rfl]
        exact ih ys
      · rw [if_neg hxy, if_neg (fun h => hxy h.symm)]
        exact cid_flip x y

/-- Strict-then-nonstrict transitivity of the identifier loop.  (Plain
nonstrict transitivity fails: distinct huge digit identifiers tie under the
float coercion without being `===`-equal, so the loop can stop on a tie in
one comparison and walk past an equal pair in another.  A strict head
outcome, however, survives: the dangerous head cases contradict the flip
law.) -/
lemma cil_lt_le {a : List PreId} : ∀ {b c : List PreId}, cmpIdList a b < 0 →
    cmpIdList b c ≤ 0 → cmpIdList a c ≤ 0 := by
  induction a with
  | nil =>
    intro b c h1 h2
    cases c <;> simp [cmpIdList]
  | cons x xs ih =>
    intro b c h1 h2
    cases b with
    | nil =>
      simp only [cmpIdList] at h1
      omega
    | cons y ys =>
      cases c with
      | nil =>
        simp only [cmpIdList] at h2
        omega
      | cons z zs =>
        simp only [cmpIdList] at h1 h2 ⊢
        by_cases hxz : x = z
        · subst hxz
          rw [if_pos rfl]
          by_cases hxy : x = y
          · subst hxy
            rw [if_pos rfl] at h1 h2
            exact ih h1 h2
          · rw [if_neg hxy] at h1
            rw [if_neg (fun h => hxy h.symm)] at h2
            have hf := cid_flip x y
            omega
        · rw [if_neg hxz]
          by_cases hxy : x = y
          · subst hxy
            rw [if_neg hxz] at h2
            exact h2
          · rw [if_neg hxy] at h1
            by_cases hyz : y = z
            · subst hyz
              exact le_of_lt h1
            · rw [if_neg hyz] at h2
              exact cid_le_trans (le_of_lt h1) h2

lemma cil_zero_eq {a b : List PreId} (hva : ∀ i ∈ a, ValidPreId i)
    (hvb : ∀ i ∈ b, ValidPreId i) (hna : ∀ i ∈ a, SmallPreId i)
    (hnb : ∀ i ∈ b, SmallPreId i) (h : cmpIdList a b = 0) : a = b := by
  induction a generalizing b with
  | nil =>
    cases b with
    | nil => rfl
    | cons y ys => cases h
  | cons x xs ih =>
    cases b with
    | nil => cases h
    | cons y ys =>
      simp only [cmpIdList] at h
      by_cases hxy : x = y
      · subst hxy
        rw [if_pos rfl] at h
        have := ih (fun i hi => hva i (List.mem_cons_of_mem x hi))
          (fun i hi => hvb i (List.mem_cons_of_mem x hi))
          (fun i hi => hna i (List.mem_cons_of_mem x hi))
          (fun i hi => hnb i (List.mem_cons_of_mem x hi)) h
        rw [this]
      · rw [if_neg hxy] at h
        exact absurd (cid_zero_eq (hva x (List.mem_cons_self x xs))
          (hvb y (List.mem_cons_self y ys)) (hna x (List.mem_cons_self x xs))
          (hnb y (List.mem_cons_self y ys)) h) hxy

lemma cp_refl (l : List PreId) : comparePre l l = 0 := by
  cases l with
  | nil => rfl
  | cons x xs => simpa [comparePre] using cil_refl (x :: xs)

lemma cp_flip (a b : List PreId) : comparePre a b = -(comparePre b a) := by
  cases a with
  | nil => cases b <;> simp [comparePre]
  | cons x xs =>
    cases b with
    | nil => simp [comparePre]
    | cons y ys => simpa [comparePre] using cil_flip (x :: xs) (y :: ys)

lemma cp_lt_le {a b c : List PreId} (h1 : comparePre a b < 0)
    (h2 : comparePre b c ≤ 0) : comparePre a c ≤ 0 := by
  cases a with
  | nil =>
    cases b with
    | nil =>
      cases c with
      | nil => simp [comparePre]
      | cons z zs => simp [comparePre] at h1
    | cons y ys => simp [comparePre] at h1
  | cons x xs =>
    cases c with
    | nil => simp [comparePre]
    | cons z zs =>
      cases b with
      | nil => simp [comparePre] at h2
      | cons y ys =>
        simp only [comparePre] at h1 h2 ⊢
        exact cil_lt_le h1 h2

lemma cp_zero_eq {a b : List PreId} (hva : ∀ i ∈ a, ValidPreId i)
    (hvb : ∀ i ∈ b, ValidPreId i) (hna : ∀ i ∈ a, SmallPreId i)
    (hnb : ∀ i ∈ b, SmallPreId i) (h : comparePre a b = 0) : a = b := by
  cases a with
  | nil =>
    cases b with
    | nil => rfl
    | cons y ys => cases h
  | cons x xs =>
    cases b with
    | nil => cases h
    | cons y ys => exact cil_zero_eq hva hvb hna hnb h

lemma cmpNat_le_iff (a b : Nat) : cmpNat a b ≤ 0 ↔ a ≤ b := by
  unfold cmpNat
  split_ifs <;> omega

lemma cmpNat_lt_iff (a b : Nat) : cmpNat a b < 0 ↔ a < b := by
  unfold cmpNat
  split_ifs <;> omega

lemma cmpNat_eq_iff (a b : Nat) : cmpNat a b = 0 ↔ a = b := by
  unfold cmpNat
  split_ifs with h1 h2
  · simp [h1]
  · constructor
    · intro h
      simp at h
    · intro h
      exact absurd h h1
  · constructor
    · intro h
      simp at h
    · intro h
      exact absurd h h1

lemma cmpNat_flip (a b : Nat) : cmpNat a b = -(cmpNat b a) := by
  unfold cmpNat
  split_ifs <;> omega

lemma csv_le_iff (a b : SemVer) :
    compareSemVer a b ≤ 0 ↔
      (a.major < b.major ∨ (a.major = b.major ∧ (a.minor < b.minor ∨ (a.minor = b.minor ∧
        (a.patch < b.patch ∨ (a.patch = b.patch ∧
          comparePre a.prerelease b.prerelease ≤ 0)))))) := by
  simp only [compareSemVer]
  have hM1 := cmpNat_le_iff a.major b.major
  have hM2 := cmpNat_lt_iff a.major b.major
  have hM3 := cmpNat_eq_iff a.major b.major
  have hm1 := cmpNat_le_iff a.minor b.minor
  have hm2 := cmpNat_lt_iff a.minor b.minor
  have hm3 := cmpNat_eq_iff a.minor b.minor
  have hp1 := cmpNat_le_iff a.patch b.patch
  have hp2 := cmpNat_lt_iff a.patch b.patch
  have hp3 := cmpNat_eq_iff a.patch b.patch
  split_ifs <;> omega

lemma csv_eq_iff (a b : SemVer) :
    compareSemVer a b = 0 ↔
      (a.major = b.major ∧ a.minor = b.minor ∧ a.patch = b.patch ∧
        comparePre a.prerelease b.prerelease = 0) := by
  simp only [compareSemVer]
  have hM3 := cmpNat_eq_iff a.major b.major
  have hm3 := cmpNat_eq_iff a.minor b.minor
  have hp3 := cmpNat_eq_iff a.patch b.patch
  split_ifs <;> omega

lemma csv_refl (a : SemVer) : compareSemVer a a = 0 :=
  (csv_eq_iff a a).mpr ⟨rfl, rfl, rfl, cp_refl a.prerelease⟩

lemma csv_flip (a b : SemVer) : compareSemVer a b = -(compareSemVer b a) := by
  simp only [compareSemVer]
  have hM := cmpNat_flip a.major b.major
  have hm := cmpNat_flip a.minor b.minor
  have hp := cmpNat_flip a.patch b.patch
  have hpre := cp_flip a.prerelease b.prerelease
  split_ifs <;> omega

lemma csv_lt_iff (a b : SemVer) :
    compareSemVer a b < 0 ↔
      (a.major < b.major ∨ (a.major = b.major ∧ (a.minor < b.minor ∨ (a.minor = b.minor ∧
        (a.patch < b.patch ∨ (a.patch = b.patch ∧
          comparePre a.prerelease b.prerelease < 0)))))) := by
  simp only [compareSemVer]
  have hM1 := cmpNat_le_iff a.major b.major
  have hM2 := cmpNat_lt_iff a.major b.major
  have hM3 := cmpNat_eq_iff a.major b.major
  have hm1 := cmpNat_le_iff a.minor b.minor
  have hm2 := cmpNat_lt_iff a.minor b.minor
  have hm3 := cmpNat_eq_iff a.minor b.minor
  have hp1 := cmpNat_le_iff a.patch b.patch
  have hp2 := cmpNat_lt_iff a.patch b.patch
  have hp3 := cmpNat_eq_iff a.patch b.patch
  split_ifs <;> omega

/-- Strict-then-nonstrict transitivity of `semver.compare` (full nonstrict
transitivity fails once huge digit identifiers tie under coercion). -/
lemma csv_lt_le {a b c : SemVer} (h1 : compareSemVer a b < 0)
    (h2 : compareSemVer b c ≤ 0) : compareSemVer a c ≤ 0 := by
  rw [csv_lt_iff] at h1
  rw [csv_le_iff] at h2 ⊢
  by_cases hM : a.major < c.major
  · exact Or.inl hM
  · have habM : a.major ≤ b.major := by rcases h1 with h | ⟨e, -⟩ <;> omega
    have hbcM : b.major ≤ c.major := by rcases h2 with h | ⟨e, -⟩ <;> omega
    have eac : a.major = c.major := by omega
    have eab : a.major = b.major := by rcases h1 with h | ⟨e, -⟩ <;> omega
    have ebc : b.major = c.major := by rcases h2 with h | ⟨e, -⟩ <;> omega
    replace h1 : a.minor < b.minor ∨ (a.minor = b.minor ∧ (a.patch < b.patch ∨
        (a.patch = b.patch ∧ comparePre a.prerelease b.prerelease < 0))) := by
      rcases h1 with h | ⟨-, h⟩
      · omega
      · exact h
    replace h2 : b.minor < c.minor ∨ (b.minor = c.minor ∧ (b.patch < c.patch ∨
        (b.patch = c.patch ∧ comparePre b.prerelease c.prerelease ≤ 0))) := by
      rcases h2 with h | ⟨-, h⟩
      · omega
      · exact h
    refine Or.inr ⟨eac, ?_⟩
    by_cases hm : a.minor < c.minor
    · exact Or.inl hm
    · have habm : a.minor ≤ b.minor := by rcases h1 with h | ⟨e, -⟩ <;> omega
      have hbcm : b.minor ≤ c.minor := by rcases h2 with h | ⟨e, -⟩ <;> omega
      have eacm : a.minor = c.minor := by omega
      have eabm : a.minor = b.minor := by rcases h1 with h | ⟨e, -⟩ <;> omega
      have ebcm : b.minor = c.minor := by rcases h2 with h | ⟨e, -⟩ <;> omega
      replace h1 : a.patch < b.patch ∨
          (a.patch = b.patch ∧ comparePre a.prerelease b.prerelease < 0) := by
        rcases h1 with h | ⟨-, h⟩
        · omega
        · exact h
      replace h2 : b.patch < c.patch ∨
          (b.patch = c.patch ∧ comparePre b.prerelease c.prerelease ≤ 0) := by
        rcases h2 with h | ⟨-, h⟩
        · omega
        · exact h
      refine Or.inr ⟨eacm, ?_⟩
      by_cases hp : a.patch < c.patch
      · exact Or.inl hp
      · have habp : a.patch ≤ b.patch := by rcases h1 with h | ⟨e, -⟩ <;> omega
        have hbcp : b.patch ≤ c.patch := by rcases h2 with h | ⟨e, -⟩ <;> omega
        have eacp : a.patch = c.patch := by omega
        have eabp : a.patch = b.patch := by rcases h1 with h | ⟨e, -⟩ <;> omega
        have ebcp : b.patch = c.patch := by rcases h2 with h | ⟨e, -⟩ <;> omega
        replace h1 : comparePre a.prerelease b.prerelease < 0 := by
          rcases h1 with h | ⟨-, h⟩
          · omega
          · exact h
        replace h2 : comparePre b.prerelease c.prerelease ≤ 0 := by
          rcases h2 with h | ⟨-, h⟩
          · omega
          · exact h
        exact Or.inr ⟨eacp, cp_lt_le h1 h2⟩

lemma splitAtFirst_some {c : Char} {s x y : Str} (h : splitAtFirst c s = some (x, y)) :
    s = x ++ c :: y ∧ c ∉ x := by
  induction s generalizing x with
  | nil => cases h
  | cons a as ih =>
    simp only [splitAtFirst] at h
    by_cases hac : a = c
    · rw [if_pos hac] at h
      cases h
      simp [hac]
    · rw [if_neg hac] at h
      rcases hsp : splitAtFirst c as with _ | ⟨x', y'⟩
      · rw [hsp] at h
        cases h
      · rw [hsp] at h
        cases h
        obtain ⟨he, hm⟩ := ih hsp
        constructor
        · rw [List.cons_append, ← he]
        · intro hmem
          rcases List.mem_cons.mp hmem with h | h
          · exact hac h.symm
          · exact hm h

lemma splitOnChar_ne_nil (c : Char) (s : Str) : splitOnChar c s ≠ [] := by
  cases s with
  | nil => simp [splitOnChar]
  | cons x xs =>
    simp only [splitOnChar]
    by_cases hxc : x = c
    · simp [hxc]
    · rw [if_neg hxc]
      rcases splitOnChar c xs with _ | ⟨h, t⟩ <;> simp

lemma joinDot_splitOnChar (s : Str) : joinDot (splitOnChar '.' s) = s := by
  induction s with
  | nil => rfl
  | cons x xs ih =>
    simp only [splitOnChar]
    by_cases hxc : x = '.'
    · rw [if_pos hxc]
      rcases hr : splitOnChar '.' xs with _ | ⟨h, t⟩
      · exact absurd hr (splitOnChar_ne_nil '.' xs)
      · rw [hr] at ih
        simp only [joinDot, List.nil_append]
        rw [ih, hxc]
    · rw [if_neg hxc]
      rcases hr : splitOnChar '.' xs with _ | ⟨h, t⟩
      · exact absurd hr (splitOnChar_ne_nil '.' xs)
      · rw [hr] at ih
        cases t with
        | nil => simp only [joinDot] at ih ⊢; rw [ih]
        | cons t0 ts =>
          simp only [joinDot] at ih ⊢
          rw [List.cons_append, ih]

lemma mkPreId_inj_valid {s t : Str} (hs : isValidPreIdStr s = true)
    (ht : isValidPreIdStr t = true) (h : mkPreId s = mkPreId t) : s = t := by
  unfold mkPreId at h
  by_cases cs : ((decide (s ≠ []) && s.all Char.isDigit)
      && decide (natOfDigits s < maxSafeInteger)) = true
    <;> by_cases ct : ((decide (t ≠ []) && t.all Char.isDigit)
      && decide (natOfDigits t < maxSafeInteger)) = true
  · rw [if_pos cs, if_pos ct] at h
    injection h with hval
    simp only [Bool.and_eq_true, decide_eq_true_eq] at cs ct
    exact natOfDigits_inj (valid_all_digits_numeric hs cs.1.2)
      (valid_all_digits_numeric ht ct.1.2) hval
  · rw [if_pos cs, if_neg ct] at h
    cases h
  · rw [if_neg cs, if_pos ct] at h
    cases h
  · rw [if_neg cs, if_neg ct] at h
    injection h

lemma map_mkPreId_inj {l1 l2 : List Str} (h1 : ∀ s ∈ l1, isValidPreIdStr s = true)
    (h2 : ∀ s ∈ l2, isValidPreIdStr s = true)
    (h : l1.map mkPreId = l2.map mkPreId) : l1 = l2 := by
  induction l1 generalizing l2 with
  | nil =>
    cases l2 with
    | nil => rfl
    | cons y ys => cases h
  | cons x xs ih =>
    cases l2 with
    | nil => cases h
    | cons y ys =>
      simp only [List.map_cons, List.cons.injEq] at h
      have hh := mkPreId_inj_valid (h1 x (List.mem_cons_self x xs))
        (h2 y (List.mem_cons_self y ys)) h.1
      have ht := ih (fun s hs => h1 s (List.mem_cons_of_mem x hs))
        (fun s hs => h2 s (List.mem_cons_of_mem y hs)) h.2
      rw [hh, ht]

/-- Every stored pre-release identifier of a parsed version arises from a
valid identifier string. -/
lemma semverParse_pre_valid {s : Str} {p : SemVer} (h : semverParse s = some p) :
    ∀ i ∈ p.prerelease, ValidPreId i := by
  unfold semverParse at h
  split at h
  · cases h
  · dsimp only at h
    rcases hpl : splitAtFirst '+' (stripLeadingV s) with _ | ⟨pa, pb⟩ <;>
      rw [hpl] at h <;> dsimp only at h
    · rcases hmn : splitAtFirst '-' (stripLeadingV s) with _ | ⟨ma, mb⟩ <;>
        rw [hmn] at h <;> dsimp only at h
      · split at h
        · split at h
          · cases h
            simp
          · cases h
        · cases h
      · split at h
        · split at h
          · by_cases hall : (splitOnChar '.' mb).all isValidPreIdStr = true
            · rw [if_pos hall] at h
              dsimp only at h
              cases h
              intro i hi
              simp only [List.mem_map] at hi
              obtain ⟨s0, hs0, rfl⟩ := hi
              simp only [List.all_eq_true] at hall
              exact ⟨s0, hall s0 hs0, rfl⟩
            · rw [if_neg hall] at h
              dsimp only at h
              cases h
          · cases h
        · cases h
    · rcases hmn : splitAtFirst '-' pa with _ | ⟨ma, mb⟩ <;>
        rw [hmn] at h <;> dsimp only at h
      · split at h
        · split at h
          · by_cases hbld : (splitOnChar '.' pb).all isBuildIdStr = true
            · rw [if_pos hbld] at h
              dsimp only at h
              cases h
              simp
            · rw [if_neg hbld] at h
              dsimp only at h
              cases h
          · cases h
        · cases h
      · split at h
        · split at h
          · by_cases hall : (splitOnChar '.' mb).all isValidPreIdStr = true
            · rw [if_pos hall] at h
              by_cases hbld : (splitOnChar '.' pb).all isBuildIdStr = true
              · rw [if_pos hbld] at h
                dsimp only at h
                cases h
                intro i hi
                simp only [List.mem_map] at hi
                obtain ⟨s0, hs0, rfl⟩ := hi
                simp only [List.all_eq_true] at hall
                exact ⟨s0, hall s0 hs0, rfl⟩
              · rw [if_neg hbld] at h
                dsimp only at h
                cases h
            · rw [if_neg hall] at h
              dsimp only at h
              cases h
          · cases h
        · cases h

lemma scs_refl (a : Str) : semverCompareStr a a = 0 := by
  rcases h : semverParse a with _ | p <;> simp [semverCompareStr, h, csv_refl]

lemma scs_flip (a b : Str) : semverCompareStr a b = -(semverCompareStr b a) := by
  rcases h1 : semverParse a with _ | x <;> rcases h2 : semverParse b with _ | y <;>
    simp only [semverCompareStr, h1, h2] <;>
    first
      | decide
      | exact csv_flip x y

/-- Strict-then-nonstrict transitivity of the string comparison.  A strict
first comparison forces both of its operands to parse, so no parse
hypothesis is needed. -/
lemma scs_lt_le {a b c : Str} (h1 : semverCompareStr a b < 0)
    (h2 : semverCompareStr b c ≤ 0) : semverCompareStr a c ≤ 0 := by
  rcases hpa : semverParse a with _ | x <;> rcases hpb : semverParse b with _ | y <;>
    rcases hpc : semverParse c with _ | z <;>
      simp only [semverCompareStr, hpa, hpb, hpc] at h1 h2 ⊢ <;>
      first
        | omega
        | exact csv_lt_le h1 h2

lemma semverParse_decomp {s : Str} {p : SemVer} (hv : stripLeadingV s = s)
    (hplus : '+' ∉ s) (h : semverParse s = some p) :
    ∃ ma mi pa,
      validMainNum ma = true ∧ validMainNum mi = true ∧ validMainNum pa = true ∧
      p.major = natOfDigits ma ∧ p.minor = natOfDigits mi ∧ p.patch = natOfDigits pa ∧
      ((s = ma ++ ('.' :: (mi ++ ('.' :: pa))) ∧ p.prerelease = []) ∨
       (∃ pr, s = (ma ++ ('.' :: (mi ++ ('.' :: pa)))) ++ '-' :: pr ∧
         (∀ i ∈ splitOnChar '.' pr, isValidPreIdStr i = true) ∧
         p.prerelease = (splitOnChar '.' pr).map mkPreId)) := by
  unfold semverParse at h
  split at h
  · cases h
  · dsimp only at h
    rw [hv, splitAtFirst_eq_none_of_not_mem hplus] at h
    dsimp only at h
    rcases hmn : splitAtFirst '-' s with _ | ⟨m, pr⟩ <;> rw [hmn] at h <;> dsimp only at h
    · split at h
      · rename_i junk ma mi pa heq
        split at h
        · rename_i hvm
          cases h
          simp only [Bool.and_eq_true] at hvm
          have hjoin := joinDot_splitOnChar s
          rw [heq] at hjoin
          simp only [joinDot] at hjoin
          exact ⟨ma, mi, pa, hvm.1.1, hvm.1.2, hvm.2, rfl, rfl, rfl,
            Or.inl ⟨hjoin.symm, rfl⟩⟩
        · cases h
      · cases h
    · obtain ⟨hseq, hnm⟩ := splitAtFirst_some hmn
      split at h
      · rename_i junk ma mi pa heq
        split at h
        · rename_i hvm
          by_cases hall : (splitOnChar '.' pr).all isValidPreIdStr = true
          · rw [if_pos hall] at h
            dsimp only at h
            cases h
            simp only [Bool.and_eq_true] at hvm
            have hjoin := joinDot_splitOnChar m
            rw [heq] at hjoin
            simp only [joinDot] at hjoin
            simp only [List.all_eq_true] at hall
            refine ⟨ma, mi, pa, hvm.1.1, hvm.1.2, hvm.2, rfl, rfl, rfl,
              Or.inr ⟨pr, ?_, hall, rfl⟩⟩
            rw [hseq, hjoin]
          · rw [if_neg hall] at h
            dsimp only at h
            cases h
        · cases h
      · cases h

/-- A version string none of whose stored pre-release identifiers loses
precision under numeric coercion: every all-digit identifier coerces to a
value below `2^53`.  (Unparsable strings satisfy this vacuously.) -/
def exactPrerelease (v : Str) : Bool :=
  match semverParse v with
  | some p => p.prerelease.all (fun i => !preIdNumeric i || decide (preIdVal i < 2 ^ 53))
  | none => true

lemma exact_pre_small {v : Str} {p : SemVer} (h : semverParse v = some p)
    (he : exactPrerelease v = true) : ∀ i ∈ p.prerelease, SmallPreId i := by
  unfold exactPrerelease at he
  rw [h] at he
  simp only [List.all_eq_true, Bool.or_eq_true, Bool.not_eq_true',
    decide_eq_true_eq] at he
  intro i hi hnum
  rcases he i hi with h1 | h1
  · rw [hnum] at h1
    cases h1
  · exact h1

lemma scs_zero_eq {a b : Str} (hva : stripLeadingV a = a) (hvb : stripLeadingV b = b)
    (hpa : '+' ∉ a) (hpb : '+' ∉ b) (ha : (semverParse a).isSome = true)
    (hb2 : (semverParse b).isSome = true) (hxa : exactPrerelease a = true)
    (hxb : exactPrerelease b = true) (h : semverCompareStr a b = 0) : a = b := by
  rcases hx : semverParse a with _ | x
  · rw [hx] at ha
    cases ha
  · rcases hy : semverParse b with _ | y
    · rw [hy] at hb2
      cases hb2
    · rw [semverCompareStr, hx, hy] at h
      have hcmp : compareSemVer x y = 0 := h
      rw [csv_eq_iff] at hcmp
      obtain ⟨hM, hm, hp, hpre⟩ := hcmp
      obtain ⟨ma1, mi1, pa1, hv1, hv2, hv3, e1, e2, e3, hrest1⟩ :=
        semverParse_decomp hva hpa hx
      obtain ⟨ma2, mi2, pa2, hw1, hw2, hw3, f1, f2, f3, hrest2⟩ :=
        semverParse_decomp hvb hpb hy
      have hnum : ∀ {u v : Str}, validMainNum u = true → validMainNum v = true →
          natOfDigits u = natOfDigits v → u = v := by
        intro u v hu hv huv
        simp only [validMainNum, Bool.and_eq_true] at hu hv
        exact natOfDigits_inj hu.1 hv.1 huv
      have hma : ma1 = ma2 := hnum hv1 hw1 (by rw [← e1, ← f1, hM])
      have hmi : mi1 = mi2 := hnum hv2 hw2 (by rw [← e2, ← f2, hm])
      have hpa3 : pa1 = pa2 := hnum hv3 hw3 (by rw [← e3, ← f3, hp])
      rcases hrest1 with ⟨hs1, hpre1⟩ | ⟨pr1, hs1, hvall1, hpre1⟩ <;>
        rcases hrest2 with ⟨hs2, hpre2⟩ | ⟨pr2, hs2, hvall2, hpre2⟩
      · rw [hs1, hs2, hma, hmi, hpa3]
      · exfalso
        rw [hpre1, hpre2] at hpre
        rcases hsp : splitOnChar '.' pr2 with _ | ⟨i0, irest⟩
        · exact splitOnChar_ne_nil '.' pr2 hsp
        · rw [hsp] at hpre
          simp [comparePre] at hpre
      · exfalso
        rw [hpre1, hpre2] at hpre
        rcases hsp : splitOnChar '.' pr1 with _ | ⟨i0, irest⟩
        · exact splitOnChar_ne_nil '.' pr1 hsp
        · rw [hsp] at hpre
          simp [comparePre] at hpre
      · rw [hpre1, hpre2] at hpre
        have hvalid1 : ∀ i ∈ (splitOnChar '.' pr1).map mkPreId, ValidPreId i := by
          intro i hi
          rcases List.mem_map.mp hi with ⟨s0, hs0, rfl⟩
          exact ⟨s0, hvall1 s0 hs0, rfl⟩
        have hvalid2 : ∀ i ∈ (splitOnChar '.' pr2).map mkPreId, ValidPreId i := by
          intro i hi
          rcases List.mem_map.mp hi with ⟨s0, hs0, rfl⟩
          exact ⟨s0, hvall2 s0 hs0, rfl⟩
        have hsmall1 : ∀ i ∈ (splitOnChar '.' pr1).map mkPreId, SmallPreId i := by
          have hs := exact_pre_small hx hxa
          rw [hpre1] at hs
          exact hs
        have hsmall2 : ∀ i ∈ (splitOnChar '.' pr2).map mkPreId, SmallPreId i := by
          have hs := exact_pre_small hy hxb
          rw [hpre2] at hs
          exact hs
        have hmapeq := cp_zero_eq hvalid1 hvalid2 hsmall1 hsmall2 hpre
        have hids := map_mkPreId_inj hvall1 hvall2 hmapeq
        have hpr : pr1 = pr2 := by
          have j1 := joinDot_splitOnChar pr1
          have j2 := joinDot_splitOnChar pr2
          rw [← j1, ← j2, hids]
        rw [hs1, hs2, hma, hmi, hpa3, hpr]

lemma insertSortedBy_perm (cmp : Str → Str → Int) (x : Str) (l : List Str) :
    (insertSortedBy cmp x l).Perm (x :: l) := by
  induction l with
  | nil => exact List.Perm.refl _
  | cons y ys ih =>
    simp only [insertSortedBy]
    by_cases hc : cmp x y < 0
    · rw [if_pos hc]
    · rw [if_neg hc]
      exact List.Perm.trans (List.Perm.cons y ih) (List.Perm.swap x y ys)

lemma sortByCmp_perm_aux (cmp : Str → Str → Int) (l acc : List Str) :
    (List.foldl (fun acc x => insertSortedBy cmp x acc) acc l).Perm (acc ++ l) := by
  induction l generalizing acc with
  | nil => simp
  | cons x xs ih =>
    simp only [List.foldl_cons]
    exact List.Perm.trans (ih _) (List.Perm.trans
      ((insertSortedBy_perm cmp x acc).append_right xs) List.perm_middle.symm)

lemma sortByCmp_perm (cmp : Str → Str → Int) (l : List Str) :
    (sortByCmp cmp l).Perm l := by
  have h := sortByCmp_perm_aux cmp l []
  simpa [sortByCmp] using h

/-- Inserting into a weakly sorted list preserves weak sortedness.  Only
the flip law and strict-then-nonstrict transitivity are needed, so this
holds even though the comparator's nonstrict transitivity fails on tied
huge identifiers. -/
lemma insert_scs_pairwise {x : Str} {l : List Str}
    (hp : l.Pairwise (fun a b => semverCompareStr a b ≤ 0)) :
    (insertSortedBy semverCompareStr x l).Pairwise
      (fun a b => semverCompareStr a b ≤ 0) := by
  induction l with
  | nil => simp [insertSortedBy]
  | cons y ys ih =>
    simp only [insertSortedBy]
    rcases List.pairwise_cons.mp hp with ⟨hy, hys⟩
    by_cases hc : semverCompareStr x y < 0
    · rw [if_pos hc]
      refine List.pairwise_cons.mpr ⟨?_, hp⟩
      intro z hz
      rcases List.mem_cons.mp hz with rfl | hz2
      · exact le_of_lt hc
      · exact scs_lt_le hc (hy z hz2)
    · rw [if_neg hc]
      refine List.pairwise_cons.mpr ⟨?_, ih hys⟩
      intro z hz
      have hz' := (insertSortedBy_perm semverCompareStr x ys).subset hz
      rcases List.mem_cons.mp hz' with rfl | hz2
      · have hf := scs_flip z y
        omega
      · exact hy z hz2

lemma sortByCmp_scs_pairwise_aux (l : List Str) : ∀ acc : List Str,
    acc.Pairwise (fun a b => semverCompareStr a b ≤ 0) →
    (List.foldl (fun acc x => insertSortedBy semverCompareStr x acc) acc l).Pairwise
      (fun a b => semverCompareStr a b ≤ 0) := by
  induction l with
  | nil =>
    intro acc hacc
    exact hacc
  | cons x xs ih =>
    intro acc hacc
    simp only [List.foldl_cons]
    exact ih _ (insert_scs_pairwise hacc)

lemma sortByCmp_scs_pairwise (l : List Str) :
    (sortByCmp semverCompareStr l).Pairwise
      (fun a b => semverCompareStr a b ≤ 0) :=
  sortByCmp_scs_pairwise_aux l [] (List.Pairwise.nil)

lemma insert_scs_append {x : Str} {acc : List Str}
    (h : ∀ y ∈ acc, semverCompareStr y x ≤ 0) :
    insertSortedBy semverCompareStr x acc = acc ++ [x] := by
  induction acc with
  | nil => rfl
  | cons y ys ih =>
    simp only [insertSortedBy]
    have hy := h y (List.mem_cons_self y ys)
    have hf := scs_flip x y
    rw [if_neg (by omega)]
    rw [ih (fun z hz => h z (List.mem_cons_of_mem y hz))]
    rfl

lemma sortByCmp_sorted_id_aux (l : List Str) : ∀ acc : List Str,
    l.Pairwise (fun a b => semverCompareStr a b ≤ 0) →
    (∀ y ∈ acc, ∀ z ∈ l, semverCompareStr y z ≤ 0) →
    List.foldl (fun acc x => insertSortedBy semverCompareStr x acc) acc l = acc ++ l := by
  induction l with
  | nil =>
    intro acc hp hcross
    simp
  | cons x xs ih =>
    intro acc hp hcross
    simp only [List.foldl_cons]
    rcases List.pairwise_cons.mp hp with ⟨hx, hxs⟩
    rw [insert_scs_append (fun y hy => hcross y hy x (List.mem_cons_self x xs))]
    rw [ih (acc ++ [x]) hxs ?_]
    · simp
    · intro y hy z hz
      rcases List.mem_append.mp hy with hy2 | hy2
      · exact hcross y hy2 z (List.mem_cons_of_mem x hz)
      · have hyx : y = x := List.mem_singleton.mp hy2
        subst hyx
        exact hx z hz

/-- Sorting an already-sorted list leaves it unchanged (the insertion sort
is stable). -/
lemma sortByCmp_sorted_id {l : List Str}
    (hp : l.Pairwise (fun a b => semverCompareStr a b ≤ 0)) :
    sortByCmp semverCompareStr l = l := by
  have h := sortByCmp_sorted_id_aux l [] hp (by intro y hy; cases hy)
  simpa [sortByCmp] using h

lemma cti_refl (a : TagInfo) : cmpTagInfo a a = 0 := by
  simp [cmpTagInfo]

lemma cti_flip (a b : TagInfo) : cmpTagInfo a b = -(cmpTagInfo b a) := by
  unfold cmpTagInfo
  by_cases ha : startsVDigit a.original = true <;>
    by_cases hb : startsVDigit b.original = true <;>
    simp [ha, hb] <;> omega

lemma cti_le_trans {a b c : TagInfo} (h1 : cmpTagInfo a b ≤ 0)
    (h2 : cmpTagInfo b c ≤ 0) : cmpTagInfo a c ≤ 0 := by
  unfold cmpTagInfo at h1 h2 ⊢
  by_cases ha : startsVDigit a.original = true <;>
    by_cases hb : startsVDigit b.original = true <;>
    by_cases hc : startsVDigit c.original = true <;>
    simp [ha, hb, hc] at h1 h2 ⊢ <;> omega

lemma selectCanonical_foldl_spec (xs : List TagInfo) : ∀ x : TagInfo,
    (xs.foldl (fun best y => if cmpTagInfo y best < 0 then y else best) x) ∈ x :: xs ∧
    ∀ u ∈ x :: xs,
      cmpTagInfo (xs.foldl (fun best y => if cmpTagInfo y best < 0 then y else best) x)
        u ≤ 0 := by
  induction xs with
  | nil =>
    intro x
    refine ⟨List.mem_cons_self x [], ?_⟩
    intro u hu
    rcases List.mem_cons.mp hu with rfl | hu2
    · exact le_of_eq (cti_refl u)
    · cases hu2
  | cons y ys ih =>
    intro x
    simp only [List.foldl_cons]
    obtain ⟨hmem, hmin⟩ := ih (if cmpTagInfo y x < 0 then y else x)
    constructor
    · rcases List.mem_cons.mp hmem with he | hm
      · rw [he]
        by_cases hc : cmpTagInfo y x < 0
        · rw [if_pos hc]
          exact List.mem_cons_of_mem x (List.mem_cons_self y ys)
        · rw [if_neg hc]
          exact List.mem_cons_self x (y :: ys)
      · exact List.mem_cons_of_mem x (List.mem_cons_of_mem y hm)
    · intro u hu
      have hx' : cmpTagInfo
          (ys.foldl (fun best y => if cmpTagInfo y best < 0 then y else best)
            (if cmpTagInfo y x < 0 then y else x))
          (if cmpTagInfo y x < 0 then y else x) ≤ 0 :=
        hmin _ (List.mem_cons_self _ ys)
      rcases List.mem_cons.mp hu with rfl | hu2
      · by_cases hc : cmpTagInfo y u < 0
        · rw [if_pos hc] at hx' ⊢
          exact cti_le_trans hx' (le_of_lt hc)
        · rw [if_neg hc] at hx' ⊢
          exact hx'
      · rcases List.mem_cons.mp hu2 with rfl | hu3
        · by_cases hc : cmpTagInfo u x < 0
          · rw [if_pos hc] at hx' ⊢
            exact hx'
          · rw [if_neg hc] at hx' ⊢
            have hf := cti_flip u x
            exact cti_le_trans hx' (by omega)
        · exact hmin u (List.mem_cons_of_mem _ hu3)

lemma selectCanonical_spec {l : List TagInfo} (h : l ≠ []) :
    selectCanonical l ∈ l ∧ ∀ u ∈ l, cmpTagInfo (selectCanonical l) u ≤ 0 := by
  cases l with
  | nil => exact absurd rfl h
  | cons x xs => exact selectCanonical_foldl_spec xs x

/-!
## A closed form for the grouping map of the normalizer
-/

/-- The clean version a tag contributes to the grouping map, when it passes
both the extraction and the semver-validity guard of the loop. -/
def validClean (t : Str) : Option Str :=
  match extractVersion t with
  | none => none
  | some c =>
    match semverParse c with
    | none => none
    | some _ => some c

/-- The clean versions of the surviving tags, in walk order. -/
def validCleans (tags : List Str) : List Str := tags.filterMap validClean

/-- First-occurrence deduplication, mirroring the insertion order of
JavaScript map keys. -/
def uniqKeys (l : List Str) : List Str :=
  l.foldl (fun acc k => if k ∈ acc then acc else acc ++ [k]) []

/-- The group the map accumulates for one clean version. -/
def groupOf (tags : List Str) (k : Str) : List TagInfo :=
  (tags.filter (fun t => extractVersion t == some k)).map (fun t => mkTagInfo t k)

lemma validClean_some {t c : Str} (h : validClean t = some c) :
    extractVersion t = some c ∧ (semverParse c).isSome = true := by
  unfold validClean at h
  rcases he : extractVersion t with _ | c' <;> rw [he] at h <;> dsimp only at h
  · cases h
  · rcases hp : semverParse c' with _ | p <;> rw [hp] at h <;> dsimp only at h
    · cases h
    · cases h
      exact ⟨rfl, by rw [hp]; rfl⟩

lemma validClean_eq_some {t c : Str} (he : extractVersion t = some c)
    (hp : (semverParse c).isSome = true) : validClean t = some c := by
  unfold validClean
  rw [he]
  dsimp only
  rcases hq : semverParse c with _ | p
  · rw [hq] at hp
    cases hp
  · simp [hq]

lemma uniqKeys_foldl_mem (l : List Str) : ∀ acc x,
    (x ∈ l.foldl (fun acc k => if k ∈ acc then acc else acc ++ [k]) acc ↔
      x ∈ acc ∨ x ∈ l) := by
  induction l with
  | nil =>
    intro acc x
    simp
  | cons y ys ih =>
    intro acc x
    simp only [List.foldl_cons]
    by_cases hy : y ∈ acc
    · rw [if_pos hy, ih acc x]
      constructor
      · intro h
        rcases h with h | h
        · exact Or.inl h
        · exact Or.inr (List.mem_cons_of_mem y h)
      · intro h
        rcases h with h | h
        · exact Or.inl h
        · rcases List.mem_cons.mp h with rfl | h2
          · exact Or.inl hy
          · exact Or.inr h2
    · rw [if_neg hy, ih (acc ++ [y]) x]
      simp only [List.mem_append, List.mem_singleton, List.mem_cons]
      tauto

lemma uniqKeys_foldl_nodup (l : List Str) : ∀ acc : List Str, acc.Nodup →
    (l.foldl (fun acc k => if k ∈ acc then acc else acc ++ [k]) acc).Nodup := by
  induction l with
  | nil =>
    intro acc h
    exact h
  | cons y ys ih =>
    intro acc h
    simp only [List.foldl_cons]
    by_cases hy : y ∈ acc
    · rw [if_pos hy]
      exact ih acc h
    · rw [if_neg hy]
      refine ih (acc ++ [y]) ?_
      rw [List.nodup_append]
      exact ⟨h, List.nodup_singleton y, by simpa using hy⟩

lemma uniqKeys_mem (l : List Str) (x : Str) : x ∈ uniqKeys l ↔ x ∈ l := by
  rw [uniqKeys, uniqKeys_foldl_mem l [] x]
  simp

lemma uniqKeys_nodup (l : List Str) : (uniqKeys l).Nodup :=
  uniqKeys_foldl_nodup l [] List.nodup_nil

lemma uniqKeys_append_singleton (l : List Str) (c : Str) :
    uniqKeys (l ++ [c]) =
      if c ∈ uniqKeys l then uniqKeys l else uniqKeys l ++ [c] := by
  simp only [uniqKeys, List.foldl_append, List.foldl_cons, List.foldl_nil]

lemma validCleans_mem (tags : List Str) (k : Str) :
    k ∈ validCleans tags ↔ ∃ t ∈ tags, validClean t = some k := by
  simp [validCleans, List.mem_filterMap]

lemma groupOf_append_singleton (ts : List Str) (t k : Str) :
    groupOf (ts ++ [t]) k = groupOf ts k ++
      (if extractVersion t = some k then [mkTagInfo t k] else []) := by
  unfold groupOf
  rw [List.filter_append, List.map_append]
  congr 1
  by_cases he : extractVersion t = some k
  · have hb : (extractVersion t == some k) = true := by simpa using he
    simp [List.filter, hb, he]
  · have hb : (extractVersion t == some k) = false := by simpa using he
    simp [List.filter, hb]
    exact he

lemma groupOf_nil_of_not_clean {ts : List Str} {k : Str}
    (hp : (semverParse k).isSome = true) (h : k ∉ validCleans ts) :
    groupOf ts k = [] := by
  unfold groupOf
  have hf : List.filter (fun t => extractVersion t == some k) ts = [] := by
    rw [List.filter_eq_nil]
    intro a ha hcontra
    have he : extractVersion a = some k := by
      simpa using hcontra
    exact h ((validCleans_mem ts k).mpr ⟨a, ha, validClean_eq_some he hp⟩)
  rw [hf]
  rfl

lemma ivm_map_spec (ks : List Str) (f : Str → List TagInfo) (c : Str) (i : TagInfo)
    (hnd : ks.Nodup) :
    insertVersionMap (ks.map (fun k => (k, f k))) c i =
      if c ∈ ks then ks.map (fun k => (k, if k = c then f k ++ [i] else f k))
      else ks.map (fun k => (k, f k)) ++ [(c, [i])] := by
  induction ks with
  | nil => simp [insertVersionMap]
  | cons k0 rest ih =>
    rcases List.nodup_cons.mp hnd with ⟨hk0, hrest⟩
    simp only [List.map_cons, insertVersionMap]
    by_cases he : k0 = c
    · subst he
      rw [if_pos rfl, if_pos (List.mem_cons_self k0 rest)]
      congr 1
      · rw [if_pos rfl]
      · refine List.map_congr_left ?_
        intro k hk
        have hne : ¬(k = k0) := fun heq => hk0 (heq ▸ hk)
        rw [if_neg hne]
    · rw [if_neg he, ih hrest]
      by_cases hc : c ∈ rest
      · rw [if_pos hc, if_pos (List.mem_cons_of_mem k0 hc), if_neg he]
      · rw [if_neg hc, if_neg (by
          intro hmem
          rcases List.mem_cons.mp hmem with h2 | h2
          · exact he h2.symm
          · exact hc h2)]
        rfl
theorem buildVersionMap_eq (tags : List Str) :
    buildVersionMap tags =
      (uniqKeys (validCleans tags)).map (fun k => (k, groupOf tags k)) := by
  induction tags using List.reverseRecOn with
  | nil => rfl
  | append_singleton ts t ih =>
    rcases hvc : validClean t with _ | c
    · have hvcs : validCleans (ts ++ [t]) = validCleans ts := by
        simp only [validCleans, List.filterMap_append]
        simp [List.filterMap_cons, hvc]
      rcases he : extractVersion t with _ | c'
      · have hstep : buildVersionMap (ts ++ [t]) = buildVersionMap ts := by
          simp only [buildVersionMap, List.foldl_append, List.foldl_cons,
            List.foldl_nil, he]
        rw [hstep, ih, hvcs]
        refine List.map_congr_left ?_
        intro k hk
        have hne : ¬(extractVersion t = some k) := by rw [he]; simp
        rw [groupOf_append_singleton, if_neg hne, List.append_nil]
      · rcases hq : semverParse c' with _ | p
        · have hstep : buildVersionMap (ts ++ [t]) = buildVersionMap ts := by
            simp only [buildVersionMap, List.foldl_append, List.foldl_cons,
              List.foldl_nil, he, hq]
          rw [hstep, ih, hvcs]
          refine List.map_congr_left ?_
          intro k hk
          have hkvc : k ∈ validCleans ts := (uniqKeys_mem _ _).mp hk
          obtain ⟨t0, ht0, hvk⟩ := (validCleans_mem _ _).mp hkvc
          have hkparse := (validClean_some hvk).2
          have hne : ¬(extractVersion t = some k) := by
            rw [he]
            intro hcontra
            have hck : c' = k := Option.some.inj hcontra
            rw [← hck, hq] at hkparse
            simp at hkparse
          rw [groupOf_append_singleton, if_neg hne, List.append_nil]
        · exfalso
          have hv2 := validClean_eq_some he (by rw [hq]; rfl)
          rw [hvc] at hv2
          cases hv2
    · obtain ⟨he, hp⟩ := validClean_some hvc
      rcases hq : semverParse c with _ | p
      · rw [hq] at hp
        cases hp
      · have hstep : buildVersionMap (ts ++ [t]) =
            insertVersionMap (buildVersionMap ts) c (mkTagInfo t c) := by
          simp only [buildVersionMap, List.foldl_append, List.foldl_cons,
            List.foldl_nil, he, hq]
        have hvcs : validCleans (ts ++ [t]) = validCleans ts ++ [c] := by
          simp only [validCleans, List.filterMap_append]
          simp [List.filterMap_cons, hvc]
        rw [hstep, ih, ivm_map_spec _ _ _ _ (uniqKeys_nodup _), hvcs,
          uniqKeys_append_singleton]
        by_cases hc : c ∈ uniqKeys (validCleans ts)
        · rw [if_pos hc, if_pos hc]
          refine List.map_congr_left ?_
          intro k hk
          by_cases hkc : k = c
          · subst hkc
            rw [if_pos rfl, groupOf_append_singleton, if_pos he]
          · have hne : ¬(extractVersion t = some k) := by
              rw [he]
              intro hcontra
              exact hkc (Option.some.inj hcontra).symm
            rw [if_neg hkc, groupOf_append_singleton, if_neg hne, List.append_nil]
        · rw [if_neg hc, if_neg hc, List.map_append]
          congr 1
          · refine List.map_congr_left ?_
            intro k hk
            have hkc : ¬(k = c) := fun heq => hc (heq ▸ hk)
            have hne : ¬(extractVersion t = some k) := by
              rw [he]
              intro hcontra
              exact hkc (Option.some.inj hcontra).symm
            rw [groupOf_append_singleton, if_neg hne, List.append_nil]
          · rw [List.map_singleton, groupOf_append_singleton, if_pos he,
              groupOf_nil_of_not_clean hp (fun hmem => hc ((uniqKeys_mem _ _).mpr hmem))]
            rfl

lemma takeWhile_append_all {p : Char → Bool} {a : Str} (ha : ∀ c ∈ a, p c = true)
    (x : Str) : (a ++ x).takeWhile p = a ++ x.takeWhile p ∧
      (a ++ x).dropWhile p = x.dropWhile p := by
  induction a with
  | nil => simp
  | cons c cs ih =>
    have hc : p c = true := ha c (List.mem_cons_self c cs)
    obtain ⟨h1, h2⟩ := ih (fun d hd => ha d (List.mem_cons_of_mem c hd))
    constructor
    · rw [List.cons_append, List.takeWhile_cons_of_pos hc, h1]
      rfl
    · rw [List.cons_append, List.dropWhile_cons_of_pos hc, h2]

lemma takeWhile_head_none {p : Char → Bool} {x : Str}
    (hx : ∀ c, x.head? = some c → p c = false) :
    x.takeWhile p = [] ∧ x.dropWhile p = x := by
  cases x with
  | nil => simp
  | cons c cs =>
    have hc : p c = false := hx c rfl
    constructor
    · rw [List.takeWhile_cons_of_neg (by rw [hc]; simp)]
    · rw [List.dropWhile_cons_of_neg (by rw [hc]; simp)]

lemma takeWhile_all {p : Char → Bool} {a : Str} (ha : ∀ c ∈ a, p c = true) :
    a.takeWhile p = a := by
  have h := (takeWhile_append_all ha []).1
  simpa using h

lemma dropWhile_head_false {p : Char → Bool} {l : Str} {c : Char}
    (h : (l.dropWhile p).head? = some c) : p c = false := by
  induction l with
  | nil => cases h
  | cons x xs ih =>
    by_cases hx : p x = true
    · rw [List.dropWhile_cons_of_pos hx] at h
      exact ih h
    · have hx' : p x = false := by revert hx; cases p x <;> simp
      rw [List.dropWhile_cons_of_neg (by rw [hx']; simp)] at h
      cases h
      exact hx'

lemma digit_not_v {c : Char} (h : c.isDigit = true) : c ≠ 'v' := by
  intro he
  rw [he] at h
  cases h

lemma lineTerm_not_digit {c : Char} (h : lineTerm c = true) : c.isDigit = false := by
  by_cases hdig : c.isDigit = true
  · exfalso
    have hb := isDigit_bounds hdig
    unfold lineTerm at h
    simp only [Bool.or_eq_true, decide_eq_true_eq] at h
    rcases h with ((rfl | rfl) | h2) | h2
    · revert hb
      decide
    · revert hb
      decide
    · omega
    · omega
  · revert hdig
    cases c.isDigit <;> simp

/-- The triple pattern at the start of a string: full decomposition. -/
lemma matchTriple_decomp {s t r : Str} (h : matchTriple s = some (t, r)) :
    ∃ d1 d2 d3 : Str, d1 ≠ [] ∧ d2 ≠ [] ∧ d3 ≠ [] ∧
      (∀ c ∈ d1, c.isDigit = true) ∧ (∀ c ∈ d2, c.isDigit = true) ∧
      (∀ c ∈ d3, c.isDigit = true) ∧
      t = d1 ++ '.' :: (d2 ++ '.' :: d3) ∧ s = t ++ r ∧
      (∀ c, r.head? = some c → c.isDigit = false) := by
  unfold matchTriple at h
  dsimp only at h
  split at h
  · cases h
  · rename_i hd1
    split at h
    · rename_i r2 hr1
      split at h
      · cases h
      · rename_i hd2
        split at h
        · rename_i r4 hr3
          split at h
          · cases h
          · rename_i hd3
            cases h
            refine ⟨s.takeWhile Char.isDigit, r2.takeWhile Char.isDigit,
              r4.takeWhile Char.isDigit, hd1, hd2, hd3,
              fun c hc => List.mem_takeWhile_imp hc,
              fun c hc => List.mem_takeWhile_imp hc,
              fun c hc => List.mem_takeWhile_imp hc, ?_, ?_, ?_⟩
            · simp only [List.append_assoc, List.cons_append]
            · have e1 := List.takeWhile_append_dropWhile (p := Char.isDigit) (l := s)
              have e2 := List.takeWhile_append_dropWhile (p := Char.isDigit) (l := r2)
              have e3 := List.takeWhile_append_dropWhile (p := Char.isDigit) (l := r4)
              rw [hr1] at e1
              rw [hr3] at e2
              have hgoal : (List.takeWhile Char.isDigit s ++
                    '.' :: List.takeWhile Char.isDigit r2 ++
                    '.' :: List.takeWhile Char.isDigit r4) ++
                    List.dropWhile Char.isDigit r4 = s := by
                simp only [List.append_assoc, List.cons_append]
                rw [e3, e2, e1]
              exact hgoal.symm
            · intro c hc
              exact dropWhile_head_false hc
        · cases h
    · cases h
/-- Computing the triple matcher on an exactly-shaped input. -/
lemma matchTriple_exact {d1 d2 d3 : Str} (rest : Str) (h1 : d1 ≠ []) (h2 : d2 ≠ [])
    (h3 : d3 ≠ []) (hd1 : ∀ c ∈ d1, c.isDigit = true)
    (hd2 : ∀ c ∈ d2, c.isDigit = true) (hd3 : ∀ c ∈ d3, c.isDigit = true)
    (hrest : ∀ c, rest.head? = some c → c.isDigit = false) :
    matchTriple (d1 ++ '.' :: (d2 ++ '.' :: (d3 ++ rest))) =
      some (d1 ++ '.' :: d2 ++ '.' :: d3, rest) := by
  obtain ⟨ta1, da1⟩ := takeWhile_append_all hd1 ('.' :: (d2 ++ '.' :: (d3 ++ rest)))
  obtain ⟨ta2, da2⟩ := takeWhile_append_all hd2 ('.' :: (d3 ++ rest))
  obtain ⟨ta3, da3⟩ := takeWhile_append_all hd3 rest
  obtain ⟨tr, dr⟩ := takeWhile_head_none hrest
  have hdot : ¬(('.').isDigit = true) := by decide
  unfold matchTriple
  try dsimp only
  rw [ta1, List.takeWhile_cons_of_neg hdot, List.append_nil, if_neg h1]
  rw [da1, List.dropWhile_cons_of_neg hdot]
  split
  · rename_i junk1 r2 heq
    injection heq with hh ht
    subst ht
    rw [ta2, List.takeWhile_cons_of_neg hdot, List.append_nil, if_neg h2]
    rw [da2, List.dropWhile_cons_of_neg hdot]
    split
    · rename_i junk2 r4 heq2
      injection heq2 with hh2 ht2
      subst ht2
      rw [ta3, tr, List.append_nil, if_neg h3]
      rw [da3, dr]
    · rename_i junk2 hne
      exact absurd rfl (hne (d3 ++ rest))
  · rename_i junk1 hne
    exact absurd rfl (hne (d2 ++ '.' :: (d3 ++ rest)))

lemma matchTriple_v_none (t : Str) : matchTriple ('v' :: t) = none := by
  unfold matchTriple
  try dsimp only
  rw [List.takeWhile_cons_of_neg (by decide)]
  rw [if_pos rfl]

lemma coreNoV_isSome (s : Str) : (coreNoV s).isSome = (matchTriple s).isSome := by
  unfold coreNoV
  rcases h : matchTriple s with _ | ⟨t, rest⟩
  · rfl
  · dsimp only
    split
    · by_cases hp : (List.takeWhile isWordDot ‹Str›) = []
      · rw [if_pos hp]
        rfl
      · rw [if_neg hp]
        rfl
    · rfl
lemma matchTriple_extend {u b : Str} (h : (matchTriple u).isSome = true) :
    (matchTriple (u ++ b)).isSome = true := by
  rcases hq : matchTriple u with _ | ⟨t, rest⟩
  · rw [hq] at h
    cases h
  · obtain ⟨d1, d2, d3, h1, h2, h3, hd1, hd2, hd3, ht, hs, hhead⟩ :=
      matchTriple_decomp hq
    have hub : u ++ b = d1 ++ '.' :: (d2 ++ '.' :: (d3 ++ (rest ++ b))) := by
      rw [hs, ht]
      simp [List.append_assoc]
    rw [hub]
    obtain ⟨ta1, da1⟩ := takeWhile_append_all hd1 ('.' :: (d2 ++ '.' :: (d3 ++ (rest ++ b))))
    obtain ⟨ta2, da2⟩ := takeWhile_append_all hd2 ('.' :: (d3 ++ (rest ++ b)))
    obtain ⟨ta3, da3⟩ := takeWhile_append_all hd3 (rest ++ b)
    have hdot : ¬(('.').isDigit = true) := by decide
    unfold matchTriple
    try dsimp only
    rw [ta1, List.takeWhile_cons_of_neg hdot, List.append_nil, if_neg h1]
    rw [da1, List.dropWhile_cons_of_neg hdot]
    split
    · rename_i junk1 r2 heq
      injection heq with hh ht2
      subst ht2
      rw [ta2, List.takeWhile_cons_of_neg hdot, List.append_nil, if_neg h2]
      rw [da2, List.dropWhile_cons_of_neg hdot]
      split
      · rename_i junk2 r4 heq2
        injection heq2 with hh2 ht3
        subst ht3
        rw [ta3]
        rw [if_neg (by
          intro hcontra
          exact h3 (List.append_eq_nil.mp hcontra).1)]
        rfl
      · rename_i junk2 hne
        exact absurd rfl (hne (d3 ++ (rest ++ b)))
    · rename_i junk1 hne
      exact absurd rfl (hne (d2 ++ '.' :: (d3 ++ (rest ++ b))))

lemma matchCoreAt_v (u : Str) : matchCoreAt ('v' :: u) = coreNoV u := by
  unfold matchCoreAt
  split
  · rename_i t heq
    injection heq with hh ht
    subst ht
    rcases h : coreNoV u with _ | r
    · show coreNoV ('v' :: u) = none
      unfold coreNoV
      rw [matchTriple_v_none]
    · rfl
  · rename_i hne
    exact absurd rfl (hne u)

lemma matchCoreAt_nil : matchCoreAt [] = none := by
  decide

lemma matchCoreAt_not_v {c : Char} (u : Str) (hc : c ≠ 'v') :
    matchCoreAt (c :: u) = coreNoV (c :: u) := by
  unfold matchCoreAt
  split
  · rename_i t heq
    injection heq with hh ht
    exact absurd hh hc
  · rfl

lemma matchCoreAt_extend {p b : Str} (h : (matchCoreAt p).isSome = true) :
    (matchCoreAt (p ++ b)).isSome = true := by
  cases p with
  | nil =>
    rw [matchCoreAt_nil] at h
    cases h
  | cons c u =>
    by_cases hc : c = 'v'
    · subst hc
      rw [matchCoreAt_v] at h
      rw [List.cons_append, matchCoreAt_v]
      rw [coreNoV_isSome] at h ⊢
      exact matchTriple_extend h
    · rw [matchCoreAt_not_v u hc] at h
      rw [List.cons_append, matchCoreAt_not_v (u ++ b) hc]
      rw [coreNoV_isSome] at h ⊢
      exact matchTriple_extend h
lemma sep_split_unique {sep : Char} {a b x y : Str} (ha : sep ∉ a) (hx : sep ∉ x)
    (h : a ++ sep :: b = x ++ sep :: y) : a = x ∧ b = y := by
  induction a generalizing x with
  | nil =>
    cases x with
    | nil =>
      injection h with h1 h2
      exact ⟨rfl, h2⟩
    | cons d x' =>
      injection h with h1 h2
      exact absurd (by rw [h1]; exact List.mem_cons_self d x') hx
  | cons c a' ih =>
    cases x with
    | nil =>
      injection h with h1 h2
      exact absurd (by rw [← h1]; exact List.mem_cons_self c a') ha
    | cons d x' =>
      injection h with h1 h2
      subst h1
      obtain ⟨he1, he2⟩ := ih (fun hm => ha (List.mem_cons_of_mem c hm))
        (fun hm => hx (List.mem_cons_of_mem c hm)) h2
      exact ⟨by rw [he1], he2⟩

lemma lhcl_none_intro {s : Str}
    (h : ∀ x y, s = x ++ '-' :: y → matchCoreAt y = none) :
    lastHyphenCoreLine s = none := by
  induction s with
  | nil => rfl
  | cons c rest ih =>
    unfold lastHyphenCoreLine
    by_cases ht : lineTerm c = true
    · rw [if_pos ht]
    · rw [if_neg ht]
      have hrest : lastHyphenCoreLine rest = none :=
        ih (fun x y hxy => h (c :: x) y (by rw [hxy]; rfl))
      rw [hrest]
      try dsimp only
      by_cases hc : c = '-'
      · rw [if_pos hc]
        subst hc
        exact h [] rest rfl
      · rw [if_neg hc]

lemma lhcl_some {s r : Str} (h : lastHyphenCoreLine s = some r) :
    ∃ w, matchCoreAt w = some r ∧ lastHyphenCoreLine w = none := by
  induction s with
  | nil => cases h
  | cons c rest ih =>
    unfold lastHyphenCoreLine at h
    by_cases ht : lineTerm c = true
    · rw [if_pos ht] at h
      cases h
    · rw [if_neg ht] at h
      rcases hr : lastHyphenCoreLine rest with _ | r0
      · rw [hr] at h
        try dsimp only at h
        by_cases hc : c = '-'
        · rw [if_pos hc] at h
          exact ⟨rest, h, hr⟩
        · rw [if_neg hc] at h
          cases h
      · rw [hr] at h
        try dsimp only at h
        cases h
        exact ih hr

lemma searchExtract_decomp {s r : Str} (h : searchExtract s = some r) :
    ∃ w, matchCoreAt w = some r ∧ lastHyphenCoreLine w = none := by
  induction s with
  | nil => cases h
  | cons c rest ih =>
    unfold searchExtract at h
    rcases hl : lastHyphenCoreLine (c :: rest) with _ | r0
    · rw [hl] at h
      try dsimp only at h
      rcases hm : matchCoreAt (c :: rest) with _ | r1
      · rw [hm] at h
        try dsimp only at h
        exact ih h
      · rw [hm] at h
        try dsimp only at h
        cases h
        exact ⟨c :: rest, hm, hl⟩
    · rw [hl] at h
      try dsimp only at h
      cases h
      exact lhcl_some hl
/-- The shape of a bare `\d+\.\d+\.\d+` capture. -/
def TripShape (t : Str) : Prop :=
  ∃ d1 d2 d3 : Str, d1 ≠ [] ∧ d2 ≠ [] ∧ d3 ≠ [] ∧
    (∀ c ∈ d1, c.isDigit = true) ∧ (∀ c ∈ d2, c.isDigit = true) ∧
    (∀ c ∈ d3, c.isDigit = true) ∧ t = d1 ++ '.' :: (d2 ++ '.' :: d3)

/-- The shape of every capture the extraction regex can produce: a triple,
optionally followed by one hyphen and a nonempty word-dot tail at which no
further core can start. -/
def CleanShape (r : Str) : Prop :=
  (∃ t, TripShape t ∧ r = t) ∨
  (∃ t pre, TripShape t ∧ pre ≠ [] ∧ (∀ c ∈ pre, isWordDot c = true) ∧
    matchCoreAt pre = none ∧ r = t ++ '-' :: pre)

lemma tripShape_chars {t : Str} (h : TripShape t) :
    ∀ c ∈ t, c.isDigit = true ∨ c = '.' := by
  obtain ⟨d1, d2, d3, h1, h2, h3, hd1, hd2, hd3, ht⟩ := h
  intro c hc
  rw [ht] at hc
  rcases List.mem_append.mp hc with hc | hc
  · exact Or.inl (hd1 c hc)
  · rcases List.mem_cons.mp hc with rfl | hc
    · exact Or.inr rfl
    · rcases List.mem_append.mp hc with hc | hc
      · exact Or.inl (hd2 c hc)
      · rcases List.mem_cons.mp hc with rfl | hc
        · exact Or.inr rfl
        · exact Or.inl (hd3 c hc)

lemma tripShape_no_hyphen {t : Str} (h : TripShape t) : '-' ∉ t := by
  intro hm
  rcases tripShape_chars h '-' hm with h1 | h1
  · exact absurd h1 (by decide)
  · exact absurd h1 (by decide)

lemma tripShape_no_lineTerm {t : Str} (h : TripShape t) :
    ∀ c ∈ t, lineTerm c = false := by
  intro c hc
  rcases tripShape_chars h c hc with h1 | h1
  · by_cases hlt : lineTerm c = true
    · rw [lineTerm_not_digit hlt] at h1
      cases h1
    · revert hlt
      cases lineTerm c <;> simp
  · rw [h1]
    decide

lemma coreNoV_decomp {s r : Str} (h : coreNoV s = some r) :
    ∃ t rest, matchTriple s = some (t, rest) ∧
      (r = t ∨ ∃ r2, rest = '-' :: r2 ∧ r2.takeWhile isWordDot ≠ [] ∧
        r = t ++ '-' :: r2.takeWhile isWordDot) := by
  unfold coreNoV at h
  rcases hq : matchTriple s with _ | ⟨t, rest⟩ <;> rw [hq] at h <;> try dsimp only at h
  · cases h
  · refine ⟨t, rest, rfl, ?_⟩
    split at h
    · rename_i junk r2
      by_cases hp : r2.takeWhile isWordDot = []
      · rw [if_pos hp] at h
        cases h
        exact Or.inl rfl
      · rw [if_neg hp] at h
        cases h
        exact Or.inr ⟨r2, rfl, hp, rfl⟩
    · cases h
      exact Or.inl rfl

lemma lhcl_none_elim {x y : Str} (hl : lastHyphenCoreLine (x ++ '-' :: y) = none)
    (hx : ∀ c ∈ x, lineTerm c = false) : matchCoreAt y = none := by
  induction x with
  | nil =>
    rw [List.nil_append] at hl
    unfold lastHyphenCoreLine at hl
    try dsimp only at hl
    rw [if_neg (by decide)] at hl
    rcases hr : lastHyphenCoreLine y with _ | r0
    · rw [hr] at hl
      try dsimp only at hl
      rw [if_pos rfl] at hl
      exact hl
    · rw [hr] at hl
      try dsimp only at hl
      cases hl
  | cons c x' ih =>
    rw [List.cons_append] at hl
    unfold lastHyphenCoreLine at hl
    have hcl : ¬(lineTerm c = true) := by
      rw [hx c (List.mem_cons_self c x')]
      simp
    rw [if_neg hcl] at hl
    rcases hr : lastHyphenCoreLine (x' ++ '-' :: y) with _ | r0
    · exact ih hr (fun d hd => hx d (List.mem_cons_of_mem c hd))
    · rw [hr] at hl
      try dsimp only at hl
      cases hl

lemma sep_split_unique_right {sep : Char} {a b x y : Str} (ha : sep ∉ a) (hb : sep ∉ b)
    (h : a ++ sep :: b = x ++ sep :: y) : x = a ∧ y = b := by
  induction a generalizing x with
  | nil =>
    cases x with
    | nil =>
      injection h with h1 h2
      exact ⟨rfl, h2.symm⟩
    | cons d x' =>
      injection h with h1 h2
      exfalso
      apply hb
      rw [h2]
      exact List.mem_append.mpr (Or.inr (List.mem_cons_self sep y))
  | cons c a' ih =>
    cases x with
    | nil =>
      injection h with h1 h2
      exact absurd (by rw [← h1]; exact List.mem_cons_self c a') ha
    | cons d x' =>
      injection h with h1 h2
      obtain ⟨he1, he2⟩ := ih (fun hm => ha (List.mem_cons_of_mem c hm)) h2
      refine ⟨?_, he2⟩
      rw [he1, h1]

lemma clean_shape_of_w {w r : Str} (hm : matchCoreAt w = some r)
    (hl : lastHyphenCoreLine w = none) : CleanShape r := by
  obtain ⟨u, hu, hcore⟩ : ∃ u, (w = u ∨ w = 'v' :: u) ∧ coreNoV u = some r := by
    cases w with
    | nil =>
      rw [matchCoreAt_nil] at hm
      cases hm
    | cons c w' =>
      by_cases hc : c = 'v'
      · subst hc
        rw [matchCoreAt_v] at hm
        exact ⟨w', Or.inr rfl, hm⟩
      · rw [matchCoreAt_not_v w' hc] at hm
        exact ⟨c :: w', Or.inl rfl, hm⟩
  obtain ⟨t, rest, hq, hcase⟩ := coreNoV_decomp hcore
  obtain ⟨d1, d2, d3, h1, h2, h3, hd1, hd2, hd3, ht, hs, hhead⟩ := matchTriple_decomp hq
  have htrip : TripShape t := ⟨d1, d2, d3, h1, h2, h3, hd1, hd2, hd3, ht⟩
  rcases hcase with rfl | ⟨r2, hrest, hpre, hr⟩
  · exact Or.inl ⟨_, htrip, rfl⟩
  · subst hrest
    have hmn : matchCoreAt r2 = none := by
      rcases hu with rfl | rfl
      · exact lhcl_none_elim (by rw [← hs]; exact hl) (tripShape_no_lineTerm htrip)
      · refine lhcl_none_elim (x := 'v' :: t) ?_ ?_
        · rw [List.cons_append, ← hs]
          exact hl
        · intro d hd
          rcases List.mem_cons.mp hd with rfl | hd2
          · decide
          · exact tripShape_no_lineTerm htrip d hd2
    have hpre_none : matchCoreAt (r2.takeWhile isWordDot) = none := by
      rcases hmm : matchCoreAt (r2.takeWhile isWordDot) with _ | q
      · rfl
      · exfalso
        have hsome : (matchCoreAt (r2.takeWhile isWordDot)).isSome = true := by
          rw [hmm]
          rfl
        have hext := matchCoreAt_extend (b := r2.dropWhile isWordDot) hsome
        rw [List.takeWhile_append_dropWhile] at hext
        rw [hmn] at hext
        cases hext
    exact Or.inr ⟨t, r2.takeWhile isWordDot, htrip, hpre,
      (fun c hc => List.mem_takeWhile_imp hc), hpre_none, hr⟩

lemma extract_clean_shape {s r : Str} (h : extractVersion s = some r) : CleanShape r := by
  obtain ⟨w, hm, hl⟩ := searchExtract_decomp h
  exact clean_shape_of_w hm hl
lemma tripShape_matchTriple {t : Str} (rest0 : Str) (h : TripShape t)
    (hrest : ∀ c, rest0.head? = some c → c.isDigit = false) :
    matchTriple (t ++ rest0) = some (t, rest0) := by
  obtain ⟨d1, d2, d3, h1, h2, h3, hd1, hd2, hd3, ht⟩ := h
  have he := matchTriple_exact rest0 h1 h2 h3 hd1 hd2 hd3 hrest
  have heq1 : d1 ++ '.' :: (d2 ++ '.' :: (d3 ++ rest0)) = t ++ rest0 := by
    rw [ht]
    simp only [List.append_assoc, List.cons_append]
  have heq2 : d1 ++ '.' :: d2 ++ '.' :: d3 = t := by
    rw [ht]
    simp only [List.append_assoc, List.cons_append]
  rw [heq1, heq2] at he
  exact he

lemma cleanShape_coreNoV {r : Str} (h : CleanShape r) : coreNoV r = some r := by
  rcases h with ⟨t, htrip, rfl⟩ | ⟨t, pre, htrip, hne, hwd, hnone, rfl⟩
  · have hmt : matchTriple r = some (r, []) := by
      have hx := tripShape_matchTriple [] htrip (by intro c hc; cases hc)
      rwa [List.append_nil] at hx
    unfold coreNoV
    rw [hmt]
  · have hmt : matchTriple (t ++ '-' :: pre) = some (t, '-' :: pre) :=
      tripShape_matchTriple ('-' :: pre) htrip (by
        intro c hc
        injection hc with h'
        rw [← h']
        decide)
    unfold coreNoV
    rw [hmt]
    try dsimp only
    split
    · rename_i junk r2 heq
      injection heq with hh ht2
      subst ht2
      rw [takeWhile_all hwd, if_neg hne]
    · rename_i junk hne2
      exact absurd rfl (hne2 pre)

lemma cleanShape_reextract {r : Str} (h : CleanShape r) :
    extractVersion ('v' :: r) = some r := by
  have hl : lastHyphenCoreLine ('v' :: r) = none := by
    rcases h with ⟨t, htrip, rfl⟩ | ⟨t, pre, htrip, hne, hwd, hnone, rfl⟩
    · refine lhcl_none_intro ?_
      intro x y hxy
      exfalso
      have hm : '-' ∈ 'v' :: r := by
        rw [hxy]
        exact List.mem_append.mpr (Or.inr (List.mem_cons_self '-' y))
      rcases List.mem_cons.mp hm with hv | hm2
      · exact absurd hv (by decide)
      · exact tripShape_no_hyphen htrip hm2
    · refine lhcl_none_intro ?_
      intro x y hxy
      have hxy' : ('v' :: t) ++ '-' :: pre = x ++ '-' :: y := by
        rw [List.cons_append]
        exact hxy
      have hpre_h : '-' ∉ pre := by
        intro hm
        exact absurd (hwd '-' hm) (by decide)
      have hvt : '-' ∉ ('v' :: t) := by
        intro hm
        rcases List.mem_cons.mp hm with hv | hm2
        · exact absurd hv (by decide)
        · exact tripShape_no_hyphen htrip hm2
      obtain ⟨hx', hy'⟩ := sep_split_unique_right hvt hpre_h hxy'
      rw [hy']
      exact hnone
  unfold extractVersion searchExtract
  rw [hl]
  try dsimp only
  rw [matchCoreAt_v, cleanShape_coreNoV h]

lemma cleanShape_head_digit {r : Str} (h : CleanShape r) :
    ∃ d ds, r = d :: ds ∧ d.isDigit = true := by
  have hcase : ∃ t rest1, TripShape t ∧ r = t ++ rest1 := by
    rcases h with ⟨t, htrip, rfl⟩ | ⟨t, pre, htrip, _, _, _, rfl⟩
    · exact ⟨r, [], htrip, by rw [List.append_nil]⟩
    · exact ⟨t, '-' :: pre, htrip, rfl⟩
  obtain ⟨t, rest1, htrip, rfl⟩ := hcase
  obtain ⟨d1, d2, d3, h1, h2, h3, hd1, hd2, hd3, ht⟩ := htrip
  cases d1 with
  | nil => exact absurd rfl h1
  | cons e es =>
    refine ⟨e, es ++ '.' :: (d2 ++ '.' :: d3) ++ rest1,
      ?_, hd1 e (List.mem_cons_self e es)⟩
    rw [ht]
    simp only [List.append_assoc, List.cons_append]

lemma cleanShape_chars {r : Str} (h : CleanShape r) :
    ∀ c ∈ r, c.isDigit = true ∨ c = '.' ∨ c = '-' ∨ isWordDot c = true := by
  intro c hc
  rcases h with ⟨t, htrip, rfl⟩ | ⟨t, pre, htrip, _, hwd, _, rfl⟩
  · rcases tripShape_chars htrip c hc with h1 | h1
    · exact Or.inl h1
    · exact Or.inr (Or.inl h1)
  · rcases List.mem_append.mp hc with hc | hc
    · rcases tripShape_chars htrip c hc with h1 | h1
      · exact Or.inl h1
      · exact Or.inr (Or.inl h1)
    · rcases List.mem_cons.mp hc with rfl | hc
      · exact Or.inr (Or.inr (Or.inl rfl))
      · exact Or.inr (Or.inr (Or.inr (hwd c hc)))

lemma extractVersion_stripV {s r : Str} (h : extractVersion s = some r) :
    stripLeadingV r = r := by
  obtain ⟨d, ds, rfl, hd⟩ := cleanShape_head_digit (extract_clean_shape h)
  unfold stripLeadingV
  split
  · rename_i t' heq
    injection heq with hh ht
    exact absurd hh (digit_not_v hd)
  · rfl

lemma extractVersion_no_plus {s r : Str} (h : extractVersion s = some r) : '+' ∉ r := by
  intro hm
  rcases cleanShape_chars (extract_clean_shape h) '+' hm with h1 | h1 | h1 | h1
  · exact absurd h1 (by decide)
  · exact absurd h1 (by decide)
  · exact absurd h1 (by decide)
  · exact absurd h1 (by decide)

lemma extractVersion_reextract {s r : Str} (h : extractVersion s = some r) :
    extractVersion ('v' :: r) = some r :=
  cleanShape_reextract (extract_clean_shape h)

/-!
## Claims about the deduplicator
-/

lemma lowerDeltaTable_no_colon :
    lowerDeltaTable.all (fun p => decide (p.1 ≠ 58) && p.2.all (fun d => decide (d ≠ ':')))
      = true := by decide

lemma lowerDeltaTable_vals_ne_nil :
    lowerDeltaTable.all (fun p => decide (p.2 ≠ [])) = true := by decide

lemma jsLowerChar_colon : jsLowerChar ':' = [':'] := by decide

lemma lookup_some_mem {l : List (Nat × Str)} {k : Nat} {v : Str}
    (h : l.lookup k = some v) : (k, v) ∈ l := by
  induction l with
  | nil => cases h
  | cons p rest ih =>
    rw [List.lookup] at h
    rcases hbe : (k == p.1) with _ | _
    · rw [hbe] at h
      exact List.mem_cons_of_mem p (ih h)
    · rw [hbe] at h
      injection h with hv
      have hk : k = p.1 := by simpa using hbe
      have hp : p = (k, v) := by
        cases p with
        | mk a b =>
          simp only at hk hv
          rw [hk, hv]
      rw [hp]
      exact List.mem_cons_self _ _

/-- A colon in a character's lowercase image forces the character to be
the colon itself. -/
lemma colon_mem_jsLowerChar {c : Char} (h : ':' ∈ jsLowerChar c) : c = ':' := by
  unfold jsLowerChar at h
  rcases hl : lowerDeltaTable.lookup c.toNat with _ | l
  · rw [hl] at h
    have := List.mem_singleton.mp h
    exact this.symm
  · rw [hl] at h
    exfalso
    have hmem := lookup_some_mem hl
    have hall := lowerDeltaTable_no_colon
    rw [List.all_eq_true] at hall
    have hfact := hall _ hmem
    simp only [Bool.and_eq_true, decide_eq_true_eq, List.all_eq_true] at hfact
    exact hfact.2 ':' h rfl

lemma jsLowerChar_ne_nil (c : Char) : jsLowerChar c ≠ [] := by
  unfold jsLowerChar
  rcases hl : lowerDeltaTable.lookup c.toNat with _ | l
  · simp
  · have hall := lowerDeltaTable_vals_ne_nil
    rw [List.all_eq_true] at hall
    have hfact := hall _ (lookup_some_mem hl)
    simpa using hfact

/-- The state-free part of the conversion: per-character images,
concatenated.  On sigma-free strings it is the whole conversion. -/
def lowerFlat : Str → Str
  | [] => []
  | c :: rest => jsLowerChar c ++ lowerFlat rest

lemma jsToLowerAux_nosigma : ∀ {s : Str}, ('Σ') ∉ s → ∀ st : Bool,
    jsToLowerAux st s = lowerFlat s := by
  intro s
  induction s with
  | nil =>
    intro hs st
    rfl
  | cons c rest ih =>
    intro hs st
    have hc : ¬(c = 'Σ') := by
      intro he
      subst he
      exact hs (List.mem_cons_self _ _)
    simp only [jsToLowerAux, lowerFlat]
    rw [if_neg hc, ih (fun hm => hs (List.mem_cons_of_mem c hm)) _]

lemma jsToLower_nosigma {s : Str} (hs : ('Σ') ∉ s) : jsToLower s = lowerFlat s :=
  jsToLowerAux_nosigma hs false

lemma lowerFlat_append (a b : Str) : lowerFlat (a ++ b) = lowerFlat a ++ lowerFlat b := by
  induction a with
  | nil => rfl
  | cons c r ih => simp [lowerFlat, ih]

lemma colon_mem_lowerFlat {s : Str} (h : ':' ∈ lowerFlat s) : ':' ∈ s := by
  induction s with
  | nil => cases h
  | cons c r ih =>
    simp only [lowerFlat] at h
    rcases List.mem_append.mp h with h1 | h1
    · have hc := colon_mem_jsLowerChar h1
      rw [hc]
      exact List.mem_cons_self _ _
    · exact List.mem_cons_of_mem c (ih h1)

lemma lowerFlat_eq_nil {s : Str} (h : lowerFlat s = []) : s = [] := by
  cases s with
  | nil => rfl
  | cons c r =>
    exfalso
    simp only [lowerFlat] at h
    exact jsLowerChar_ne_nil c (List.append_eq_nil.mp h).1

lemma lowerFlat_colon_cons (s : Str) : lowerFlat (':' :: s) = ':' :: lowerFlat s := by
  simp only [lowerFlat, jsLowerChar_colon]
  rfl

/-- Splitting at the first colon is unambiguous when the left parts are
colon-free. -/
lemma append_colon_inj {a b x y : Str} (ha : ':' ∉ a) (hb : ':' ∉ b)
    (h : a ++ ':' :: x = b ++ ':' :: y) : a = b ∧ x = y := by
  induction a generalizing b with
  | nil =>
    cases b with
    | nil => simpa using h
    | cons d bs =>
      exfalso
      apply hb
      have : ':' = d := by simpa using congrArg (fun l => l.head?) h
      simp [← this]
  | cons c as ih =>
    cases b with
    | nil =>
      exfalso
      apply ha
      have : c = ':' := by simpa using congrArg (fun l => l.head?) h
      simp [this]
    | cons d bs =>
      simp only [List.cons_append, List.cons.injEq] at h
      have := ih (fun hm => ha (List.mem_cons_of_mem _ hm))
        (fun hm => hb (List.mem_cons_of_mem _ hm)) h.2
      exact ⟨by simp [h.1, this.1], this.2⟩

/-- Key parts that decompose unambiguously: a colon-free type and a scope
that is absent or nonempty and colon-free.  Every commit the classifier
produces satisfies this (types are ASCII letters, scopes are nonempty
`[\w-]+` tokens). -/
def wellFormedKeyParts (c : ConventionalCommit) : Prop :=
  ':' ∉ c.type ∧ (match c.scope with
    | some s => ':' ∉ s ∧ s ≠ []
    | none => True)

/-- Key parts free of the capital sigma `Σ`, the one character whose
lowercase image is context-sensitive (`Final_Sigma`): the look-ahead scan
skips case-ignorable characters — the key separator `:` among them — so a
trailing sigma's image depends on the neighbouring key components. -/
def sigmaFreeParts (c : ConventionalCommit) : Prop :=
  ('Σ') ∉ c.type ∧ ('Σ') ∉ (match c.scope with
    | some s => s
    | none => []) ∧ ('Σ') ∉ c.subject

/-- On sigma-free parts the key lowering acts componentwise. -/
lemma dedupKey_parts {c : ConventionalCommit} (h : sigmaFreeParts c) :
    dedupKey c = lowerFlat c.type ++ ':' :: (lowerFlat (match c.scope with
      | some s => s
      | none => []) ++ ':' :: lowerFlat c.subject) := by
  unfold dedupKey jsToLower
  have hfree : ('Σ') ∉ (c.type ++ ':' :: (match c.scope with
      | some s => s
      | none => []) ++ ':' :: c.subject) := by
    intro hm
    rcases List.mem_append.mp hm with h1 | h1
    · rcases List.mem_append.mp h1 with h2 | h2
      · exact h.1 h2
      · rcases List.mem_cons.mp h2 with h3 | h3
        · exact absurd h3 (by decide)
        · exact h.2.1 h3
    · rcases List.mem_cons.mp h1 with h2 | h2
      · exact absurd h2 (by decide)
      · exact h.2.2 h2
  rw [jsToLowerAux_nosigma hfree false, lowerFlat_append, lowerFlat_append,
    lowerFlat_colon_cons, lowerFlat_colon_cons]
  simp [List.append_assoc]

/-- C8 (amended): two commits collide in the deduplication set exactly when
their `toLowerCase`d `type:scope:subject` keys agree — across the whole of
Unicode, so commits differing only in non-ASCII letter case (`Ä` vs `ä`)
collide.  For commits whose parts are free of the capital sigma,
componentwise agreement of the lowercased parts is equivalent (given
colon-free type and scope) to a collision; a trailing `Σ`, whose lowering
looks across the `:` separators, escapes the componentwise reading. -/
theorem claim_C8_amended :
    (∀ c₁ c₂ : ConventionalCommit,
       (dedupHas (dedupAdd [] c₁) c₂ = true ↔ dedupKey c₁ = dedupKey c₂)) ∧
    (∀ c₁ c₂ : ConventionalCommit, sigmaFreeParts c₁ → sigmaFreeParts c₂ →
       jsToLower c₁.type = jsToLower c₂.type →
       Option.map jsToLower c₁.scope = Option.map jsToLower c₂.scope →
       jsToLower c₁.subject = jsToLower c₂.subject →
       dedupHas (dedupAdd [] c₁) c₂ = true) ∧
    (∀ c₁ c₂ : ConventionalCommit, wellFormedKeyParts c₁ → wellFormedKeyParts c₂ →
       sigmaFreeParts c₁ → sigmaFreeParts c₂ →
       (dedupHas (dedupAdd [] c₁) c₂ = true ↔
         (jsToLower c₁.type = jsToLower c₂.type ∧
          Option.map jsToLower c₁.scope = Option.map jsToLower c₂.scope ∧
          jsToLower c₁.subject = jsToLower c₂.subject))) := by
  have hbasic : ∀ c₁ c₂ : ConventionalCommit,
      dedupHas (dedupAdd [] c₁) c₂ = true ↔ dedupKey c₁ = dedupKey c₂ := by
    intro c₁ c₂
    simp [dedupHas, dedupAdd, List.contains_cons, eq_comm]
  have hcase : ∀ c₁ c₂ : ConventionalCommit, sigmaFreeParts c₁ → sigmaFreeParts c₂ →
      jsToLower c₁.type = jsToLower c₂.type →
      Option.map jsToLower c₁.scope = Option.map jsToLower c₂.scope →
      jsToLower c₁.subject = jsToLower c₂.subject →
      dedupHas (dedupAdd [] c₁) c₂ = true := by
    intro c₁ c₂ hf₁ hf₂ ht hs hu
    rw [hbasic, dedupKey_parts hf₁, dedupKey_parts hf₂]
    rw [jsToLower_nosigma hf₁.1, jsToLower_nosigma hf₂.1] at ht
    rw [jsToLower_nosigma hf₁.2.2, jsToLower_nosigma hf₂.2.2] at hu
    have hscope : lowerFlat (match c₁.scope with
        | some s => s
        | none => []) = lowerFlat (match c₂.scope with
        | some s => s
        | none => []) := by
      cases h1 : c₁.scope with
      | none => cases h2 : c₂.scope with
        | none => rfl
        | some b => rw [h1, h2] at hs; simp at hs
      | some a => cases h2 : c₂.scope with
        | none => rw [h1, h2] at hs; simp at hs
        | some b =>
          rw [h1, h2] at hs
          have hs2 : jsToLower a = jsToLower b := by
            simpa using hs
          have ha : ('Σ') ∉ a := by
            have hh := hf₁.2.1
            rw [h1] at hh
            exact hh
          have hb : ('Σ') ∉ b := by
            have hh := hf₂.2.1
            rw [h2] at hh
            exact hh
          rw [jsToLower_nosigma ha, jsToLower_nosigma hb] at hs2
          rw [hs2]
    rw [ht, hu, hscope]
  refine ⟨hbasic, hcase, ?_⟩
  intro c₁ c₂ hw₁ hw₂ hf₁ hf₂
  constructor
  · intro h
    have hk := (hbasic c₁ c₂).mp h
    rw [dedupKey_parts hf₁, dedupKey_parts hf₂] at hk
    have hty₁ : ':' ∉ lowerFlat c₁.type := fun hm => hw₁.1 (colon_mem_lowerFlat hm)
    have hty₂ : ':' ∉ lowerFlat c₂.type := fun hm => hw₂.1 (colon_mem_lowerFlat hm)
    obtain ⟨ht, hrest⟩ := append_colon_inj hty₁ hty₂ hk
    have hsc₁ : ':' ∉ lowerFlat (match c₁.scope with
        | some s => s
        | none => []) := by
      intro hm
      have hcm := colon_mem_lowerFlat hm
      rcases h1 : c₁.scope with _ | a
      · rw [h1] at hcm; simp at hcm
      · have hw := hw₁.2
        rw [h1] at hcm hw
        exact hw.1 hcm
    have hsc₂ : ':' ∉ lowerFlat (match c₂.scope with
        | some s => s
        | none => []) := by
      intro hm
      have hcm := colon_mem_lowerFlat hm
      rcases h2 : c₂.scope with _ | b
      · rw [h2] at hcm; simp at hcm
      · have hw := hw₂.2
        rw [h2] at hcm hw
        exact hw.1 hcm
    obtain ⟨hsc, hsub⟩ := append_colon_inj hsc₁ hsc₂ hrest
    refine ⟨?_, ?_, ?_⟩
    · rw [jsToLower_nosigma hf₁.1, jsToLower_nosigma hf₂.1]
      exact ht
    · rcases h1 : c₁.scope with _ | a <;> rcases h2 : c₂.scope with _ | b
      · rfl
      · exfalso
        rw [h1, h2] at hsc
        have hw := hw₂.2
        rw [h2] at hw
        exact hw.2 (lowerFlat_eq_nil (by simpa [lowerFlat] using hsc.symm))
      · exfalso
        rw [h1, h2] at hsc
        have hw := hw₁.2
        rw [h1] at hw
        exact hw.2 (lowerFlat_eq_nil (by simpa [lowerFlat] using hsc))
      · rw [h1, h2] at hsc
        have ha : ('Σ') ∉ a := by
          have hh := hf₁.2.1
          rw [h1] at hh
          exact hh
        have hb : ('Σ') ∉ b := by
          have hh := hf₂.2.1
          rw [h2] at hh
          exact hh
        have hab : jsToLower a = jsToLower b := by
          rw [jsToLower_nosigma ha, jsToLower_nosigma hb]
          simpa using hsc
        show some (jsToLower a) = some (jsToLower b)
        rw [hab]
    · rw [jsToLower_nosigma hf₁.2.2, jsToLower_nosigma hf₂.2.2]
      exact hsub
  · intro hconj
    exact hcase c₁ c₂ hf₁ hf₂ hconj.1 hconj.2.1 hconj.2.2

/-- Counterexample to C8 as stated: lowercasing is context-sensitive at
`Σ`, and the `Final_Sigma` look-ahead skips the `:` separators (they are
case-ignorable).  With type `a` and no scope, the subjects `Σ` and `σ`
agree under `toLowerCase` (both lower to `σ`) yet the keys `a::ς` and
`a::σ` differ, so the commits do not collide; the subjects `Σ` and `ς`
disagree under `toLowerCase` yet both keys are `a::ς`, so they collide. -/
theorem claim_C8_counterexample :
    jsToLower (("Σ").data) = jsToLower (("σ").data) ∧
    dedupHas (dedupAdd [] ⟨("h1").data, ("a").data, none, ("Σ").data, ("r1").data, false⟩)
        ⟨("h2").data, ("a").data, none, ("σ").data, ("r2").data, false⟩ = false ∧
    jsToLower (("Σ").data) ≠ jsToLower (("ς").data) ∧
    dedupHas (dedupAdd [] ⟨("h1").data, ("a").data, none, ("Σ").data, ("r1").data, false⟩)
        ⟨("h2").data, ("a").data, none, ("ς").data, ("r2").data, false⟩ = true :=
  ⟨by decide, by decide, by decide, by decide⟩

/-- Witness for the amended C8 at the claim's own examples: `(feat, ui, "x")`
collides with `(FEAT, UI, "X")`, does not collide with `(feat, api, "x")`,
and — beyond ASCII — `(feat, ui, "Ä")` collides with `(feat, ui, "ä")`. -/
theorem claim_C8_witness :
    dedupHas (dedupAdd [] ⟨("h1").data, ("feat").data, some (("ui").data),
        ("x").data, ("r1").data, false⟩)
      ⟨("h2").data, ("FEAT").data, some (("UI").data),
        ("X").data, ("r2").data, false⟩ = true ∧
    ¬(dedupHas (dedupAdd [] ⟨("h1").data, ("feat").data, some (("ui").data),
        ("x").data, ("r1").data, false⟩)
      ⟨("h3").data, ("feat").data, some (("api").data),
        ("x").data, ("r3").data, false⟩ = true) ∧
    dedupHas (dedupAdd [] ⟨("h1").data, ("feat").data, some (("ui").data),
        ("Ä").data, ("r1").data, false⟩)
      ⟨("h2").data, ("feat").data, some (("ui").data),
        ("ä").data, ("r2").data, false⟩ = true := by
  refine ⟨?_, ?_, ?_⟩
  · exact claim_C8_amended.2.1 _ _ ⟨by decide, by decide, by decide⟩
      ⟨by decide, by decide, by decide⟩ (by decide) (by decide) (by decide)
  · intro h
    have hconj := (claim_C8_amended.2.2 _ _ (by constructor <;> decide)
      (by constructor <;> decide) ⟨by decide, by decide, by decide⟩
      ⟨by decide, by decide, by decide⟩).mp h
    rcases hconj with ⟨-, hs, -⟩
    simp only [Option.map_some] at hs
    exact absurd (Option.some.inj hs) (by decide)
  · exact claim_C8_amended.2.1 _ _ ⟨by decide, by decide, by decide⟩
      ⟨by decide, by decide, by decide⟩ (by decide) (by decide) (by decide)

/-!
## Claims about the tag normalizer (C5, C9)
-/

lemma normalizeTags_versions (tags : List Str) :
    (normalizeTags tags).versions =
      sortByCmp semverCompareStr (uniqKeys (validCleans tags)) := by
  unfold normalizeTags
  rw [buildVersionMap_eq]
  try dsimp only
  congr 1
  rw [List.map_map, List.map_map]
  exact List.map_id' (uniqKeys (validCleans tags))

lemma normalizeTags_tags (tags : List Str) :
    (normalizeTags tags).tags = (uniqKeys (validCleans tags)).map
      (fun k => (k, selectCanonical (groupOf tags k))) := by
  unfold normalizeTags
  rw [buildVersionMap_eq]
  try dsimp only
  rw [List.map_map]
  rfl

lemma mem_validCleans_iff (tags : List Str) (k : Str) :
    k ∈ validCleans tags ↔
      ∃ t ∈ tags, extractVersion t = some k ∧ (semverParse k).isSome = true := by
  rw [validCleans_mem]
  constructor
  · intro ⟨t, ht, hvc⟩
    obtain ⟨he, hp⟩ := validClean_some hvc
    exact ⟨t, ht, he, hp⟩
  · intro ⟨t, ht, he, hp⟩
    exact ⟨t, ht, validClean_eq_some he hp⟩

lemma normalizeTags_mem_versions (tags : List Str) (v : Str) :
    v ∈ (normalizeTags tags).versions ↔
      ∃ t ∈ tags, extractVersion t = some v ∧ (semverParse v).isSome = true := by
  rw [normalizeTags_versions]
  rw [(sortByCmp_perm semverCompareStr (uniqKeys (validCleans tags))).mem_iff]
  rw [uniqKeys_mem]
  exact mem_validCleans_iff tags v
lemma mem_groupOf_iff (tags : List Str) (k : Str) (u : TagInfo) :
    u ∈ groupOf tags k ↔ ∃ t ∈ tags, extractVersion t = some k ∧ u = mkTagInfo t k := by
  unfold groupOf
  rw [List.mem_map]
  constructor
  · intro ⟨t, ht, he⟩
    rw [List.mem_filter] at ht
    refine ⟨t, ht.1, by simpa using ht.2, he.symm⟩
  · intro ⟨t, ht, he, hu⟩
    refine ⟨t, ?_, hu.symm⟩
    rw [List.mem_filter]
    exact ⟨ht, by simpa using he⟩

lemma groupOf_ne_nil {tags : List Str} {k t : Str} (ht : t ∈ tags)
    (he : extractVersion t = some k) : groupOf tags k ≠ [] := by
  intro hnil
  have : mkTagInfo t k ∈ groupOf tags k :=
    (mem_groupOf_iff tags k (mkTagInfo t k)).mpr ⟨t, ht, he, rfl⟩
  rw [hnil] at this
  cases this

lemma versions_pairwise_le (tags : List Str) :
    (normalizeTags tags).versions.Pairwise (fun a b => semverCompareStr a b ≤ 0) := by
  rw [normalizeTags_versions]
  exact sortByCmp_scs_pairwise _

lemma versions_nodup (tags : List Str) : (normalizeTags tags).versions.Nodup := by
  rw [normalizeTags_versions]
  exact (sortByCmp_perm semverCompareStr (uniqKeys (validCleans tags))).nodup_iff.mpr
    (uniqKeys_nodup (validCleans tags))

/-- Strict ascending order of the retained versions, under the hypothesis
that no retained version carries an all-digit pre-release identifier whose
value reaches `2^53`: distinct huge identifiers can coerce to equal
doubles, tie under `semver.compare`, and then stay in insertion order. -/
lemma versions_pairwise_lt (tags : List Str)
    (hex : ∀ v ∈ (normalizeTags tags).versions, exactPrerelease v = true) :
    (normalizeTags tags).versions.Pairwise (fun a b => semverCompareStr a b < 0) := by
  have h1 := versions_pairwise_le tags
  have h2 := versions_nodup tags
  refine List.Pairwise.imp_of_mem ?_ (h1.and h2)
  intro a b ha hb hab
  rcases lt_or_eq_of_le hab.1 with h | h
  · exact h
  · exfalso
    obtain ⟨ta, hta, hea, hpa⟩ := (normalizeTags_mem_versions tags a).mp ha
    obtain ⟨tb, htb, heb, hpb⟩ := (normalizeTags_mem_versions tags b).mp hb
    exact hab.2 (scs_zero_eq (extractVersion_stripV hea) (extractVersion_stripV heb)
      (extractVersion_no_plus hea) (extractVersion_no_plus heb) hpa hpb
      (hex a ha) (hex b hb) h)

lemma csv_pre_lt {x y : SemVer} (hM : x.major = y.major) (hm : x.minor = y.minor)
    (hp : x.patch = y.patch) (hx : x.prerelease ≠ []) (hy : y.prerelease = []) :
    compareSemVer x y < 0 := by
  simp only [compareSemVer]
  rw [show cmpNat x.major y.major = 0 from (cmpNat_eq_iff _ _).mpr hM]
  rw [show cmpNat x.minor y.minor = 0 from (cmpNat_eq_iff _ _).mpr hm]
  rw [show cmpNat x.patch y.patch = 0 from (cmpNat_eq_iff _ _).mpr hp]
  simp only [ne_eq, not_true_eq_false, if_false]
  rw [hy]
  rcases hxp : x.prerelease with _ | ⟨i, is⟩
  · exact absurd hxp hx
  · simp [comparePre]
lemma normalizeTags_tags_mem {tags : List Str} {v : Str} {info : TagInfo} :
    (v, info) ∈ (normalizeTags tags).tags ↔
      v ∈ uniqKeys (validCleans tags) ∧ info = selectCanonical (groupOf tags v) := by
  rw [normalizeTags_tags, List.mem_map]
  constructor
  · intro ⟨k, hk, he⟩
    injection he with h1 h2
    subst h1
    exact ⟨hk, h2.symm⟩
  · intro ⟨hv, he⟩
    exact ⟨v, hv, by rw [he]⟩

/-- C5 (amended): on every input tag list the normalizer keeps exactly the
clean versions of tags with a valid extractable semantic version; it
selects exactly one canonical `TagInfo` per version, with original among
the mapping tags, minimal under the tie-break (a bare `v<digit>` original
beats one that is not, and among equal flags the shorter original wins);
the distinct versions are sorted ascending by semver precedence — but only
weakly: `semver.compare` coerces all-digit pre-release identifiers to
doubles, so two distinct versions whose huge identifiers round to the same
float tie and stay in first-appearance order.  The order is strictly
ascending whenever every all-digit pre-release identifier of every
retained version is below `2^53`, a strict comparison always means an
earlier position, and pre-releases of a base sort before that base's
stable version. -/
theorem claim_C5_amended (tags : List Str) :
    (∀ v, v ∈ (normalizeTags tags).versions ↔
        ∃ t ∈ tags, extractVersion t = some v ∧ (semverParse v).isSome = true)
    ∧ (normalizeTags tags).versions.Nodup
    ∧ (∀ v ∈ (normalizeTags tags).versions, ∃ info : TagInfo,
        (v, info) ∈ (normalizeTags tags).tags
        ∧ (∀ info' : TagInfo, (v, info') ∈ (normalizeTags tags).tags → info' = info)
        ∧ info.clean = v ∧ info.display = 'v' :: v
        ∧ info.original ∈ tags ∧ extractVersion info.original = some v
        ∧ (∀ t ∈ tags, extractVersion t = some v →
            (startsVDigit t = true → startsVDigit info.original = true)
            ∧ (startsVDigit t = startsVDigit info.original →
                info.original.length ≤ t.length)))
    ∧ (normalizeTags tags).versions.Pairwise (fun a b => semverCompareStr a b ≤ 0)
    ∧ ((∀ v ∈ (normalizeTags tags).versions, exactPrerelease v = true) →
        (normalizeTags tags).versions.Pairwise (fun a b => semverCompareStr a b < 0))
    ∧ (∀ i j (hi : i < (normalizeTags tags).versions.length)
        (hj : j < (normalizeTags tags).versions.length),
        semverCompareStr ((normalizeTags tags).versions.get ⟨i, hi⟩)
          ((normalizeTags tags).versions.get ⟨j, hj⟩) < 0 → i < j)
    ∧ (∀ a b, a ∈ (normalizeTags tags).versions → b ∈ (normalizeTags tags).versions →
        ∀ pa pb : SemVer, semverParse a = some pa → semverParse b = some pb →
        pa.major = pb.major → pa.minor = pb.minor → pa.patch = pb.patch →
        pa.prerelease ≠ [] → pb.prerelease = [] → semverCompareStr a b < 0) := by
  refine ⟨normalizeTags_mem_versions tags, versions_nodup tags, ?_,
    versions_pairwise_le tags, versions_pairwise_lt tags, ?_, ?_⟩
  · intro v hv
    obtain ⟨t0, ht0, he0, hp0⟩ := (normalizeTags_mem_versions tags v).mp hv
    have hvu : v ∈ uniqKeys (validCleans tags) := by
      rw [uniqKeys_mem]
      exact (mem_validCleans_iff tags v).mpr ⟨t0, ht0, he0, hp0⟩
    have hgne : groupOf tags v ≠ [] := groupOf_ne_nil ht0 he0
    obtain ⟨hmem, hmin⟩ := selectCanonical_spec hgne
    obtain ⟨t1, ht1, he1, hsel⟩ := (mem_groupOf_iff tags v _).mp hmem
    refine ⟨selectCanonical (groupOf tags v),
      normalizeTags_tags_mem.mpr ⟨hvu, rfl⟩,
      (fun info' hi' => (normalizeTags_tags_mem.mp hi').2),
      ?_, ?_, ?_, ?_, ?_⟩
    · rw [hsel]
      rfl
    · rw [hsel]
      rfl
    · rw [hsel]
      exact ht1
    · rw [hsel]
      exact he1
    · intro t ht he
      have hu : mkTagInfo t v ∈ groupOf tags v :=
        (mem_groupOf_iff _ _ _).mpr ⟨t, ht, he, rfl⟩
      have hcmp := hmin _ hu
      unfold cmpTagInfo at hcmp
      simp only [mkTagInfo] at hcmp
      constructor
      · intro hvd
        by_contra hnd
        have hnd' : startsVDigit (selectCanonical (groupOf tags v)).original = false := by
          revert hnd
          cases startsVDigit (selectCanonical (groupOf tags v)).original <;> simp
        rw [hnd', hvd] at hcmp
        simp at hcmp
      · intro hflag
        rw [← hflag] at hcmp
        simp at hcmp
        omega
  · intro i j hi hj hlt
    by_contra hge
    push_neg at hge
    have hpw := versions_pairwise_le tags
    rw [List.pairwise_iff_getElem] at hpw
    rcases Nat.lt_or_ge j i with hji | hij
    · have h2 := hpw j i hj hi hji
      have hf := scs_flip ((normalizeTags tags).versions.get ⟨i, hi⟩)
        ((normalizeTags tags).versions.get ⟨j, hj⟩)
      simp only [List.get_eq_getElem] at hlt hf
      omega
    · have hij2 : i = j := by omega
      subst hij2
      rw [scs_refl] at hlt
      omega
  · intro a b ha hb pa pb hpa hpb hM hm hp hne hemp
    have hh : semverCompareStr a b = compareSemVer pa pb := by
      rw [semverCompareStr, hpa, hpb]
    rw [hh]
    exact csv_pre_lt hM hm hp hne hemp
lemma find?_map_assoc (ks : List Str) (f : Str → TagInfo) (v : Str) (hv : v ∈ ks) :
    (ks.map (fun k => (k, f k))).find? (fun p => p.1 == v) = some (v, f v) := by
  induction ks with
  | nil => cases hv
  | cons k rest ih =>
    simp only [List.map_cons]
    by_cases hk : k = v
    · subst hk
      rw [List.find?_cons_of_pos _ (by simp)]
    · rw [List.find?_cons_of_neg _ (by simp [hk])]
      rcases List.mem_cons.mp hv with rfl | hv2
      · exact absurd rfl hk
      · exact ih hv2

lemma lookupTag_eq {tags : List Str} {v : Str} (hv : v ∈ uniqKeys (validCleans tags)) :
    lookupTag (normalizeTags tags).tags v = selectCanonical (groupOf tags v) := by
  rw [normalizeTags_tags]
  unfold lookupTag
  rw [find?_map_assoc (uniqKeys (validCleans tags))
    (fun k => selectCanonical (groupOf tags k)) v hv]

lemma canonical_display {tags : List Str} {v : Str}
    (h : ∃ t ∈ tags, extractVersion t = some v) :
    (selectCanonical (groupOf tags v)).display = 'v' :: v := by
  obtain ⟨t0, ht0m, he0⟩ := h
  obtain ⟨hmem, -⟩ := selectCanonical_spec (groupOf_ne_nil ht0m he0)
  obtain ⟨t1, -, -, hsel⟩ := (mem_groupOf_iff tags v _).mp hmem
  rw [hsel]
  rfl

lemma uniqKeys_of_nodup_aux (l : List Str) : ∀ acc : List Str,
    (∀ x ∈ l, x ∉ acc) → l.Nodup →
    l.foldl (fun acc k => if k ∈ acc then acc else acc ++ [k]) acc = acc ++ l := by
  induction l with
  | nil =>
    intro acc h hn
    simp
  | cons x xs ih =>
    intro acc h hn
    simp only [List.foldl_cons]
    rw [if_neg (h x (List.mem_cons_self x xs))]
    rcases List.nodup_cons.mp hn with ⟨hx, hxs⟩
    rw [ih (acc ++ [x]) ?_ hxs]
    · simp
    · intro y hy hmem
      rcases List.mem_append.mp hmem with h2 | h2
      · exact h y (List.mem_cons_of_mem x hy) h2
      · rw [List.mem_singleton] at h2
        subst h2
        exact hx hy

lemma uniqKeys_of_nodup {l : List Str} (h : l.Nodup) : uniqKeys l = l := by
  have ha := uniqKeys_of_nodup_aux l [] (by intro x hx hc; cases hc) h
  simpa [uniqKeys] using ha

lemma validCleans_map_v {l : List Str}
    (h : ∀ v ∈ l, validClean ('v' :: v) = some v) :
    validCleans (l.map (fun v => 'v' :: v)) = l := by
  induction l with
  | nil => rfl
  | cons x xs ih =>
    simp only [List.map_cons, validCleans, List.filterMap_cons]
    rw [h x (List.mem_cons_self x xs)]
    have := ih (fun v hv => h v (List.mem_cons_of_mem x hv))
    rw [show validCleans (xs.map (fun v => 'v' :: v)) =
      List.filterMap validClean (xs.map (fun v => 'v' :: v)) from rfl] at this
    rw [this]

lemma filter_beq_nodup {l : List Str} {v : Str} (hn : l.Nodup) (hv : v ∈ l) :
    l.filter (fun u => u == v) = [v] := by
  induction l with
  | nil => cases hv
  | cons x xs ih =>
    rcases List.nodup_cons.mp hn with ⟨hx, hxs⟩
    by_cases he : x = v
    · subst he
      rw [List.filter_cons_of_pos (by simp)]
      have hnil : xs.filter (fun u => u == x) = [] := by
        rw [List.filter_eq_nil]
        intro a ha hcontra
        have : a = x := by simpa using hcontra
        subst this
        exact hx ha
      rw [hnil]
    · rw [List.filter_cons_of_neg (by simp [he])]
      rcases List.mem_cons.mp hv with rfl | hv2
      · exact absurd rfl he
      · exact ih hxs hv2

lemma groupOf_displays {l : List Str} {v : Str} (hn : l.Nodup) (hv : v ∈ l)
    (hex : ∀ u ∈ l, extractVersion ('v' :: u) = some u) :
    groupOf (l.map (fun u => 'v' :: u)) v = [mkTagInfo ('v' :: v) v] := by
  unfold groupOf
  rw [List.filter_map]
  have hcongr : List.filter ((fun t => extractVersion t == some v) ∘ (fun u => 'v' :: u)) l
      = List.filter (fun u => u == v) l := by
    refine List.filter_congr ?_
    intro u hu
    simp only [Function.comp]
    rw [hex u hu]
    by_cases he : u = v
    · subst he
      simp
    · simp [he]
  rw [hcongr, filter_beq_nodup hn hv]
  rfl
/-- C9: the normalizer is idempotent on its output: normalizing the list
of canonical display tags it produced yields the same version sequence in
the same order, and every version's canonical display tag is unchanged. -/
theorem claim_C9 (tags : List Str) :
    (normalizeTags ((normalizeTags tags).versions.map
        (fun v => (lookupTag (normalizeTags tags).tags v).display))).versions
      = (normalizeTags tags).versions
    ∧ (∀ v ∈ (normalizeTags tags).versions,
        (lookupTag (normalizeTags ((normalizeTags tags).versions.map
            (fun v => (lookupTag (normalizeTags tags).tags v).display))).tags v).display
          = (lookupTag (normalizeTags tags).tags v).display) := by
  have hnodup := versions_nodup tags
  have hple := versions_pairwise_le tags
  have hfact : ∀ v ∈ (normalizeTags tags).versions,
      (∃ t ∈ tags, extractVersion t = some v) ∧ (semverParse v).isSome = true ∧
        extractVersion ('v' :: v) = some v := by
    intro v hv
    obtain ⟨t, ht, he, hp⟩ := (normalizeTags_mem_versions tags v).mp hv
    exact ⟨⟨t, ht, he⟩, hp, extractVersion_reextract he⟩
  have hmemu : ∀ v ∈ (normalizeTags tags).versions, v ∈ uniqKeys (validCleans tags) := by
    intro v hv
    rw [normalizeTags_versions] at hv
    exact (sortByCmp_perm semverCompareStr (uniqKeys (validCleans tags))).subset hv
  have hdisp : (normalizeTags tags).versions.map
      (fun v => (lookupTag (normalizeTags tags).tags v).display)
      = (normalizeTags tags).versions.map (fun v => 'v' :: v) := by
    refine List.map_congr_left ?_
    intro v hv
    rw [lookupTag_eq (hmemu v hv), canonical_display (hfact v hv).1]
  rw [hdisp]
  have hvc2 : validCleans ((normalizeTags tags).versions.map (fun v => 'v' :: v))
      = (normalizeTags tags).versions := by
    refine validCleans_map_v ?_
    intro v hv
    exact validClean_eq_some (hfact v hv).2.2 (hfact v hv).2.1
  constructor
  · rw [normalizeTags_versions, hvc2, uniqKeys_of_nodup hnodup]
    exact sortByCmp_sorted_id hple
  · intro v hv
    have hvu2 : v ∈ uniqKeys (validCleans
        ((normalizeTags tags).versions.map (fun v => 'v' :: v))) := by
      rw [hvc2, uniqKeys_of_nodup hnodup]
      exact hv
    rw [lookupTag_eq hvu2]
    rw [groupOf_displays hnodup hv (fun u hu => (hfact u hu).2.2)]
    rw [lookupTag_eq (hmemu v hv), canonical_display (hfact v hv).1]
    rfl
/-- The C5 membership clause evaluated at a concrete tag list. -/
theorem claim_C5_witness :
    ("1.0.0-alpha").data ∈
      (normalizeTags [("v1.0.0").data, ("v1.0.0-alpha").data]).versions :=
  ((claim_C5_amended [("v1.0.0").data, ("v1.0.0-alpha").data]).1 (("1.0.0-alpha").data)).mpr
    ⟨("v1.0.0-alpha").data, by decide, by decide, by decide⟩

/-- Counterexample to C5 as stated: the tags `v1.0.0-9007199254740993` and
`v1.0.0-9007199254740992` survive normalization as two distinct versions,
but their all-digit pre-release identifiers both coerce to the double
`2^53 = 9007199254740992`, so `semver.compare` ties and the stable sort
leaves the versions in input order — the numerically larger first — and
the strictly-ascending clause of the claim fails. -/
theorem claim_C5_counterexample :
    (normalizeTags [("v1.0.0-9007199254740993").data,
        ("v1.0.0-9007199254740992").data]).versions
      = [("1.0.0-9007199254740993").data, ("1.0.0-9007199254740992").data] ∧
    semverCompareStr (("1.0.0-9007199254740993").data)
        (("1.0.0-9007199254740992").data) = 0 ∧
    ("1.0.0-9007199254740993").data ≠ ("1.0.0-9007199254740992").data ∧
    ¬ (normalizeTags [("v1.0.0-9007199254740993").data,
          ("v1.0.0-9007199254740992").data]).versions.Pairwise
        (fun a b => semverCompareStr a b < 0) := by
  have hv : (normalizeTags [("v1.0.0-9007199254740993").data,
      ("v1.0.0-9007199254740992").data]).versions
      = [("1.0.0-9007199254740993").data, ("1.0.0-9007199254740992").data] := by decide
  have h0 : semverCompareStr (("1.0.0-9007199254740993").data)
      (("1.0.0-9007199254740992").data) = 0 := by decide
  refine ⟨hv, h0, by decide, ?_⟩
  intro hp
  rw [hv] at hp
  have hlt := (List.pairwise_cons.mp hp).1 _
    (List.mem_cons_self (("1.0.0-9007199254740992").data) [])
  omega

/-- The C9 idempotence clause evaluated at a concrete dirty tag. -/
theorem claim_C9_witness :
    (normalizeTags ((normalizeTags [("old-v2.0.0").data]).versions.map
        (fun v => (lookupTag (normalizeTags [("old-v2.0.0").data]).tags v).display))).versions
      = (normalizeTags [("old-v2.0.0").data]).versions :=
  (claim_C9 [("old-v2.0.0").data]).1

end Mscl
